import Mathlib

/-!
# VillageRush: simulation core

A shallow embedding of the simulation core of the VillageRush tower-defence
game (C++ headers under `VillageRush/`) together with theorems about it.

Conventions of the embedding:

* a C++ `double` is an exact rational `ℚ` (no rounding, no NaN, no infinity);
  where a timer accumulates over several calls the two `double` operations of
  `Timer::on_update` are parameters `add` and `sub` (`Timer.on_update_with`),
  and what is stated speaks of the value the code computes, each delta added
  in call order (`Timer.accumulate`), never of a regrouped sum, so it does not
  depend on how the operations round;
* a C++ `int` is an `Int`, a `size_t` is a `Nat`; where the source mixes the
  two the conversion is written out;
* `sqrt` of `<cmath>` is a parameter `sqrt : ℚ → ℚ` of the definitions that
  use it, so nothing proved depends on how it rounds;
* an access outside a `std::vector` or an array (undefined behaviour in C++) is
  a distinguished result, never a default value;
* a member function that mutates `*this` becomes a function returning the new
  object; effects that leave the object (a callback being invoked) are returned
  next to it.
-/

namespace VillageRush

/-! ## timer.h -/

/-- The data members of `class Timer` (timer.h 74-78), with their default
initialisers.  The `on_timeout` member is kept outside the record, see
`Timer.on_update`. -/
structure Timer where
  pass_time : ℚ := 0
  wait_time : ℚ := 0
  paused : Bool := false
  shotted : Bool := false
  one_shot : Bool := false
deriving DecidableEq

namespace Timer

/-- `Timer::restart` (timer.h 13-17). -/
def restart (t : Timer) : Timer :=
  { t with pass_time := 0, shotted := false }

/-- `Timer::set_wait_time` (timer.h 20-23). -/
def set_wait_time (t : Timer) (val : ℚ) : Timer :=
  { t with wait_time := val }

/-- `Timer::set_one_shot` (timer.h 26-29). -/
def set_one_shot (t : Timer) (flag : Bool) : Timer :=
  { t with one_shot := flag }

/-- `Timer::pause` (timer.h 38-41). -/
def pause (t : Timer) : Timer :=
  { t with paused := true }

/-- `Timer::resume` (timer.h 44-47). -/
def resume (t : Timer) : Timer :=
  { t with paused := false }

/-- `Timer::on_update` (timer.h 50-71).

`on_timeout` is the `std::function<void()>` member: `none` is the empty
function object, `some f` a stored callable whose effect on this very timer is
`f` (callbacks in the repository capture the owner of the timer and may call
`set_wait_time` / `restart` on it).  The result is the timer after the call and
the number of times the callback was invoked during the call. -/
def on_update (on_timeout : Option (Timer → Timer)) (t : Timer) (delta : ℚ) : Timer × Nat :=
  if t.paused then
    (t, 0)
  else
    let t1 : Timer := { t with pass_time := t.pass_time + delta }
    if t1.pass_time ≥ t1.wait_time then
      let can_shot : Bool := !t1.one_shot || (t1.one_shot && !t1.shotted)
      let t2 : Timer := { t1 with shotted := true }
      match can_shot, on_timeout with
      | true, some f =>
        let t3 := f t2
        ({ t3 with pass_time := t3.pass_time - t3.wait_time }, 1)
      | _, _ =>
        ({ t2 with pass_time := t2.pass_time - t2.wait_time }, 0)
    else
      (t1, 0)

/-- `Timer::on_update` (timer.h 50-71) with its two `double` operations as
parameters: `add` is the addition of `pass_time += delta` and `sub` the
subtraction of `pass_time -= wait_time`.  Everything else is as in
`Timer.on_update`, which is the instance with the exact operations. -/
def on_update_with (add sub : ℚ → ℚ → ℚ) (on_timeout : Option (Timer → Timer)) (t : Timer)
    (delta : ℚ) : Timer × Nat :=
  if t.paused then
    (t, 0)
  else
    let t1 : Timer := { t with pass_time := add t.pass_time delta }
    if t1.pass_time ≥ t1.wait_time then
      let can_shot : Bool := !t1.one_shot || (t1.one_shot && !t1.shotted)
      let t2 : Timer := { t1 with shotted := true }
      match can_shot, on_timeout with
      | true, some f =>
        let t3 := f t2
        ({ t3 with pass_time := sub t3.pass_time t3.wait_time }, 1)
      | _, _ =>
        ({ t2 with pass_time := sub t2.pass_time t2.wait_time }, 0)
    else
      (t1, 0)

end Timer

/-- One call made on a timer by its owner. -/
inductive TimerCall where
  | restart
  | set_wait_time (val : ℚ)
  | set_one_shot (flag : Bool)
  | pause
  | resume
  | on_update (delta : ℚ)
deriving DecidableEq

namespace Timer

/-- The effect of one call: the timer afterwards and the number of callback
invocations it caused (only `on_update` can cause any). -/
def call (on_timeout : Option (Timer → Timer)) (t : Timer) : TimerCall → Timer × Nat
  | .restart => (t.restart, 0)
  | .set_wait_time v => (t.set_wait_time v, 0)
  | .set_one_shot b => (t.set_one_shot b, 0)
  | .pause => (t.pause, 0)
  | .resume => (t.resume, 0)
  | .on_update d => t.on_update on_timeout d

/-- A sequence of calls, executed in order; the callback invocations are
counted over the whole sequence. -/
def run (on_timeout : Option (Timer → Timer)) : Timer → List TimerCall → Timer × Nat
  | t, [] => (t, 0)
  | t, c :: cs =>
    let r := call on_timeout t c
    let rs := run on_timeout r.1 cs
    (rs.1, r.2 + rs.2)

/-- The value of the accumulator `pass_time` after a `restart()` followed by
`on_update` calls with the given deltas, none of which reached the wait time:
`restart()` sets it to `0` and every call executes `pass_time += delta`, so the
deltas are added one by one in the order of the calls, with the addition `add`
of the calls. -/
def accumulate (add : ℚ → ℚ → ℚ) (deltas : List ℚ) : ℚ :=
  deltas.foldl add 0

end Timer

/-! ## coin_manager.h -/

/-- The coin counter of `class CoinManager` (coin_manager.h 122); the list of
coin props plays no part in the ledger operations. -/
structure CoinManager where
  num_coin : ℚ := 0
deriving DecidableEq

namespace CoinManager

/-- `CoinManager::increase_coin` (coin_manager.h 39-42). -/
def increase_coin (m : CoinManager) (val : ℚ) : CoinManager :=
  { m with num_coin := m.num_coin + val }

/-- `CoinManager::decrease_coin` (coin_manager.h 45-50). -/
def decrease_coin (m : CoinManager) (val : ℚ) : CoinManager :=
  let m1 : CoinManager := { m with num_coin := m.num_coin - val }
  if m1.num_coin ≤ 0 then { m1 with num_coin := 0 } else m1

/-- `CoinManager::get_current_coin_num` (coin_manager.h 85-88). -/
def get_current_coin_num (m : CoinManager) : ℚ :=
  m.num_coin

end CoinManager

/-- One ledger call. -/
inductive CoinCall where
  | increase_coin (val : ℚ)
  | decrease_coin (val : ℚ)
deriving DecidableEq

namespace CoinManager

/-- A ledger call applied to the manager. -/
def call (m : CoinManager) : CoinCall → CoinManager
  | .increase_coin v => m.increase_coin v
  | .decrease_coin v => m.decrease_coin v

/-- A sequence of ledger calls, executed in order. -/
def run (m : CoinManager) (cs : List CoinCall) : CoinManager :=
  cs.foldl call m

end CoinManager

/-! ## tile.h -/

/-- The macro `SIZE_TILE` (tile.h 6), as it enters `double` arithmetic. -/
def SIZE_TILE : ℚ := 48

/-- `enum class Tile::Direction` (tile.h 11-18). -/
inductive Tile.Direction where
  | None
  | Up
  | Down
  | Left
  | Right
deriving DecidableEq

/-- `struct Tile` (tile.h 8-26). -/
structure Tile where
  terrian : Int := 0
  decoration : Int := -1
  special_flag : Int := -1
  direction : Tile.Direction := Tile.Direction.None
  has_tower : Bool := false
deriving DecidableEq

/-- `typedef std::vector<std::vector<Tile>> TileMap` (tile.h 28): a list of
rows, each row a list of tiles; rows need not have the same length. -/
abbrev TileMap := List (List Tile)

/-- The struct `SDL_Point` of SDL: two `int` coordinates. -/
structure SDL_Point where
  x : Int
  y : Int
deriving DecidableEq

/-! ## route.h -/

/-- `Route::IdxList` (route.h 13). -/
abbrev IdxList := List SDL_Point

/-- `class Route` (route.h 9-96): its only data member. -/
structure Route where
  idx_list : IdxList := []
deriving DecidableEq

namespace Route

/-- How the constructor's `while (true)` loop was left: by one of its `break`
statements, by an access outside a vector (`map[0]` of an empty map, or
`map[y][x]` in a row shorter than the first one), or because the iteration
budget of the embedding ran out. -/
inductive Exit where
  | done
  | bad_index
  | no_fuel
deriving DecidableEq

/-- `Route::check_duplicate_idx` (route.h 85-95). -/
def check_duplicate_idx (idx_list : IdxList) (target_idx : SDL_Point) : Bool :=
  match idx_list with
  | [] => false
  | idx :: rest =>
    if idx.x = target_idx.x ∧ idx.y = target_idx.y then true
    else check_duplicate_idx rest target_idx

/-- The comparison `i >= n` of route.h 30 between an `int i` and a `size_t n`:
`i` is converted to `size_t` first, so a negative `i` becomes a value of at
least `2^64 - 2^31` and the comparison is true for every vector size `n`. -/
def index_ge (i : Int) (n : Nat) : Bool :=
  decide (i < 0) || decide ((n : Int) ≤ i)

/-- The lookup `map[idx.y][idx.x]` (route.h 42); `none` outside the vectors. -/
def tile_at (map : TileMap) (idx : SDL_Point) : Option Tile :=
  if idx.x < 0 ∨ idx.y < 0 then none
  else
    match map.get? idx.y.toNat with
    | none => none
    | some row => row.get? idx.x.toNat

/-- The `switch (tile.direction)` of route.h 49-67: the next index, `none` in
the `default` branch. -/
def next_idx (direction : Tile.Direction) (idx : SDL_Point) : Option SDL_Point :=
  match direction with
  | Tile.Direction.Up => some { idx with y := idx.y - 1 }
  | Tile.Direction.Down => some { idx with y := idx.y + 1 }
  | Tile.Direction.Left => some { idx with x := idx.x - 1 }
  | Tile.Direction.Right => some { idx with x := idx.x + 1 }
  | Tile.Direction.None => none

/-- The `while (true)` loop of the constructor (route.h 27-70), one iteration
per unit of fuel.  `idx_list` is the member being filled and `idx_next` the
local variable of that name. -/
def loop (map : TileMap) (width_map height_map : Nat) :
    Nat → IdxList → SDL_Point → Route × Exit
  | 0, idx_list, _ => ({ idx_list := idx_list }, Exit.no_fuel)
  | fuel + 1, idx_list, idx_next =>
    if index_ge idx_next.x width_map || index_ge idx_next.y height_map then
      ({ idx_list := idx_list }, Exit.done)
    else if check_duplicate_idx idx_list idx_next then
      ({ idx_list := idx_list }, Exit.done)
    else
      let idx_list1 := idx_list ++ [idx_next]
      match tile_at map idx_next with
      | none => ({ idx_list := idx_list1 }, Exit.bad_index)
      | some tile =>
        if tile.special_flag = 0 then
          ({ idx_list := idx_list1 }, Exit.done)
        else
          match next_idx tile.direction idx_next with
          | some idx_next1 => loop map width_map height_map fuel idx_list1 idx_next1
          | none => ({ idx_list := idx_list1 }, Exit.done)

/-- `Route::Route(const TileMap &map, const SDL_Point &idx_origin)`
(route.h 19-71).  The loop gets one iteration more than the bounding box
`width_map * height_map` has cells; `construct_no_fuel` shows that this budget
is never used up. -/
def construct (map : TileMap) (idx_origin : SDL_Point) : Route × Exit :=
  match map with
  | [] => ({ idx_list := [] }, Exit.bad_index)
  | row0 :: _ =>
    loop map row0.length map.length (row0.length * map.length + 1) [] idx_origin

/-- The walk the specification describes, as a check on a list of coordinates:
every coordinate passes the bounds test of the constructor and carries a tile,
every coordinate but the last is a non-home tile whose direction marker leads
to the next coordinate, and the last one is a home tile (special flag 0). -/
def follows_markers (map : TileMap) (width_map height_map : Nat) : List SDL_Point → Bool
  | [] => false
  | [p] =>
    !(index_ge p.x width_map || index_ge p.y height_map) &&
      (match tile_at map p with
       | some tile => decide (tile.special_flag = 0)
       | none => false)
  | p :: q :: rest =>
    !(index_ge p.x width_map || index_ge p.y height_map) &&
      (match tile_at map p with
       | some tile =>
         decide (tile.special_flag ≠ 0) && decide (next_idx tile.direction p = some q)
       | none => false) &&
      follows_markers map width_map height_map (q :: rest)

/-- A coordinate that passes the bounds test of the constructor. -/
def InBox (width_map height_map : Nat) (p : SDL_Point) : Prop :=
  0 ≤ p.x ∧ p.x < width_map ∧ 0 ≤ p.y ∧ p.y < height_map

/-- A grid all of whose rows have `width_map` tiles. -/
def Rectangular (map : TileMap) (width_map : Nat) : Prop :=
  ∀ row ∈ map, row.length = width_map

end Route

/-- Each coordinate of the list but the first is its predecessor moved one tile
in the direction of the marker of the predecessor's tile. -/
def Route.steps_by_markers (map : TileMap) : List SDL_Point → Prop
  | [] => True
  | [_] => True
  | p :: q :: rest =>
    (∃ tile, Route.tile_at map p = some tile ∧ Route.next_idx tile.direction p = some q) ∧
      Route.steps_by_markers map (q :: rest)

/-! ## vector2.h -/

/-- `class Vector2` (vector2.h 6-103). -/
structure Vector2 where
  x : ℚ := 0
  y : ℚ := 0
deriving DecidableEq

namespace Vector2

/-- `Vector2::operator-` (vector2.h 34-37). -/
def sub (a vec : Vector2) : Vector2 :=
  { x := a.x - vec.x, y := a.y - vec.y }

/-- `Vector2::length` (vector2.h 82-85). -/
def length (sqrt : ℚ → ℚ) (a : Vector2) : ℚ :=
  sqrt (a.x * a.x + a.y * a.y)

end Vector2

/-! ## wave.h, map.h -/

/-- Modelled from the spec: the header `enemy_type.h` is not among the sources;
the enumerators are the five enemy types that the `switch` of
`EnemyManager::spawn_enemy` names. -/
inductive EnemyType where
  | Slim
  | KingSlim
  | Skeleton
  | Goblin
  | GoblinPriest
deriving DecidableEq

/-- `Wave::SpawnEvent` (wave.h 11-16). -/
structure Wave.SpawnEvent where
  interval : ℚ := 0
  spawn_point : Int := 1
  enemy_type : EnemyType := EnemyType.Slim
deriving DecidableEq

/-- `struct Wave` (wave.h 8-22). -/
structure Wave where
  rewards : ℚ := 0
  interval : ℚ := 0
  spawn_event_list : List Wave.SpawnEvent := []
deriving DecidableEq

/-- The struct `SDL_Rect` of SDL: four `int` members. -/
structure SDL_Rect where
  x : Int := 0
  y : Int := 0
  w : Int := 0
  h : Int := 0
deriving DecidableEq

/-- The data members of `class Map` (map.h 108-110).  The
`std::unordered_map<int, Route>` is represented by its lookup: `none` where
`find` returns `end()`. -/
structure Map where
  tile_map : TileMap := []
  idx_home : SDL_Point := { x := 0, y := 0 }
  spawner_route_pool : Int → Option Route := fun _ => none

/-- The subscript `v[i]` on a `std::vector` with an `int` index (converted to
`size_t`, so a negative index is far outside); `none` outside the vector. -/
def vector_at {α : Type} (v : List α) (i : Int) : Option α :=
  if i < 0 then none else v.get? i.toNat

/-! ## config_manager.h -/

/-- `ConfigManager::TowerTemplate` (config_manager.h 58-65): four arrays of 10
doubles and one of 9. -/
structure TowerTemplate where
  interval : Fin 10 → ℚ := fun i => if i = 0 then 1 else 0
  damage : Fin 10 → ℚ := fun i => if i = 0 then 25 else 0
  view_range : Fin 10 → ℚ := fun i => if i = 0 then 5 else 0
  cost : Fin 10 → ℚ := fun i => if i = 0 then 50 else 0
  upgrade_cost : Fin 9 → ℚ := fun i => if i = 0 then 75 else 0

/-- The subscript `arr[level]` on a `double[n]` array with an `int` index;
`none` outside the array. -/
def array_at {n : Nat} (arr : Fin n → ℚ) (level : Int) : Option ℚ :=
  if h : 0 ≤ level ∧ level.toNat < n then some (arr ⟨level.toNat, h.2⟩) else none

/-- The members of `class ConfigManager` (config_manager.h 81-103) read or
written by the simulation: the map, the waves, the tower levels and templates,
the game flags and the rectangle of the tile map. -/
structure ConfigManager where
  level_archer : Int := 0
  level_axeman : Int := 0
  level_gunner : Int := 0
  archer_template : TowerTemplate := {}
  axeman_template : TowerTemplate := {}
  gunner_template : TowerTemplate := {}
  map : Map := {}
  wave_list : List Wave := []
  is_game_win : Bool := true
  is_game_over : Bool := false
  rect_tile_map : SDL_Rect := {}

/-! ## enemy.h -/

/-- The data members of `class Enemy` (enemy.h 258-311) apart from the
animations and the skill callback.  `route` is the route the pointer member
refers to. -/
structure Enemy where
  size : Vector2 := {}
  timer_skill : Timer := {}
  hp : ℚ := 0
  max_hp : ℚ := 0
  speed : ℚ := 0
  max_speed : ℚ := 0
  damage : ℚ := 0
  reward_ratio : ℚ := 0
  recover_interval : ℚ := 0
  recover_range : ℚ := 0
  recover_intensity : ℚ := 0
  position : Vector2 := {}
  velocity : Vector2 := {}
  direction : Vector2 := {}
  is_valid : Bool := true
  timer_sketch : Timer := {}
  is_show_sketch : Bool := false
  timer_restore_speed : Timer := {}
  route : Route := {}
  idx_target : Int := 0
  position_target : Vector2 := {}
deriving DecidableEq

namespace Enemy

/-- `Enemy::get_position` (enemy.h 198-201). -/
def get_position (e : Enemy) : Vector2 :=
  e.position

/-- `Enemy::get_route_process` (enemy.h 234-241).  `size() - 1` is computed in
`size_t`, so it wraps to `2^64 - 1` for an empty list; the quotient is a
`double` division. -/
def get_route_process (e : Enemy) : ℚ :=
  if e.route.idx_list.length = 1 then 1
  else (e.idx_target : ℚ) / (((e.route.idx_list.length + 2 ^ 64 - 1) % 2 ^ 64 : Nat) : ℚ)

end Enemy

/-! ## tower.h -/

/-- Modelled from the spec: the header `tower_type.h` is not among the sources;
the enumerators are the three tower types that the `switch` statements of
tower.h name and for which the configuration has a template. -/
inductive TowerType where
  | Archer
  | Axeman
  | Gunner
deriving DecidableEq

/-- Modelled from the spec: the header `facing.h` is not among the sources; the
enumerators are the four facings that the `switch` statements of tower.h
name. -/
inductive Facing where
  | Left
  | Right
  | Up
  | Down
deriving DecidableEq

/-- Modelled from the spec: the header `bullet_type.h` is not among the
sources; the enumerators are the three bullet types that the `switch` of
`BulletManager::spawn_bullet` names. -/
inductive BulletType where
  | Arrow
  | Axe
  | Shell
deriving DecidableEq

/-- The data members of `class Tower` (tower.h 141-169) apart from the
animations. -/
structure Tower where
  size : Vector2 := {}
  tower_type : TowerType := TowerType.Archer
  fire_speed : ℚ := 0
  bullet_type : BulletType := BulletType.Arrow
  timer_fire : Timer := { one_shot := true }
  position : Vector2 := {}
  can_fire : Bool := true
  facing : Facing := Facing.Right
deriving DecidableEq

namespace Tower

/-- The `switch (tower_type)` of `Tower::find_target_enemy` (tower.h 222-233):
the view range of the tower's type at the type's current level. -/
def view_range (config : ConfigManager) (tower : Tower) : Option ℚ :=
  match tower.tower_type with
  | TowerType.Archer => array_at config.archer_template.view_range config.level_archer
  | TowerType.Axeman => array_at config.axeman_template.view_range config.level_axeman
  | TowerType.Gunner => array_at config.gunner_template.view_range config.level_gunner

/-- The range-based `for` of `Tower::find_target_enemy` (tower.h 239-253) over
the rest of the enemy list.  `i` is the place in the whole list of the first
enemy of the rest, `process` and `enemy_target` are the locals of those names;
an `Enemy *` is represented by the place of the enemy in the list, `none`
being `nullptr`. -/
def scan (sqrt : ℚ → ℚ) (position : Vector2) (view_range : ℚ) :
    List Enemy → Nat → ℚ → Option Nat → Option Nat
  | [], _, _, enemy_target => enemy_target
  | enemy :: rest, i, process, enemy_target =>
    if (enemy.get_position.sub position).length sqrt ≤ view_range * SIZE_TILE then
      let new_process := enemy.get_route_process
      if new_process > process then
        scan sqrt position view_range rest (i + 1) new_process (some i)
      else
        scan sqrt position view_range rest (i + 1) process enemy_target
    else
      scan sqrt position view_range rest (i + 1) process enemy_target

/-- `Tower::find_target_enemy` (tower.h 212-256).  The outer `none` is a read
outside the `view_range` array (level outside 0..9); otherwise the result is
the returned pointer. -/
def find_target_enemy (sqrt : ℚ → ℚ) (config : ConfigManager) (tower : Tower)
    (enemy_list : List Enemy) : Option (Option Nat) :=
  match view_range config tower with
  | none => none
  | some view_range => some (scan sqrt tower.position view_range enemy_list 0 (-1) none)

/-- The range test of tower.h 242 for one enemy. -/
def in_range (sqrt : ℚ → ℚ) (tower : Tower) (view_range : ℚ) (enemy : Enemy) : Prop :=
  (enemy.get_position.sub tower.position).length sqrt ≤ view_range * SIZE_TILE

end Tower

/-! ## home_manager.h -/

/-- The data member of `class HomeManager` (home_manager.h 42). -/
structure HomeManager where
  num_hp : ℚ := 0
deriving DecidableEq

namespace HomeManager

/-- `HomeManager::get_current_hp_num` (home_manager.h 13-16). -/
def get_current_hp_num (m : HomeManager) : ℚ :=
  m.num_hp

/-- `HomeManager::decrease_hp` (home_manager.h 18-32), without the sound: the
home manager and the configuration singleton it writes to. -/
def decrease_hp (m : HomeManager) (config_manager : ConfigManager) (val : ℚ) :
    HomeManager × ConfigManager :=
  let m1 : HomeManager := { m with num_hp := m.num_hp - val }
  if m1.num_hp < 0 then
    ({ m1 with num_hp := 0 }, { config_manager with is_game_win := false, is_game_over := true })
  else
    (m1, config_manager)

end HomeManager

/-! ## vector2.h, enemy.h: further members -/

namespace Vector2

/-- `Vector2::operator+` (vector2.h 21-24). -/
def add (a vec : Vector2) : Vector2 :=
  { x := a.x + vec.x, y := a.y + vec.y }

/-- `Vector2::operator*(double)` (vector2.h 53-56). -/
def scale (a : Vector2) (val : ℚ) : Vector2 :=
  { x := a.x * val, y := a.y * val }

/-- `Vector2::normalize` (vector2.h 88-94). -/
def normalize (sqrt : ℚ → ℚ) (a : Vector2) : Vector2 :=
  let len := a.length sqrt
  if len = 0 then { x := 0, y := 0 } else { x := a.x / len, y := a.y / len }

end Vector2

namespace Enemy

/-- `Enemy::increase_hp` (enemy.h 143-150). -/
def increase_hp (e : Enemy) (val : ℚ) : Enemy :=
  let e1 : Enemy := { e with hp := e.hp + val }
  if e1.hp > e1.max_hp then { e1 with hp := e1.max_hp } else e1

/-- `Enemy::decrease_hp` (enemy.h 152-162). -/
def decrease_hp (e : Enemy) (val : ℚ) : Enemy :=
  let e1 : Enemy := { e with hp := e.hp - val }
  let e2 : Enemy := if e1.hp ≤ 0 then { e1 with hp := 0, is_valid := false } else e1
  { e2 with is_show_sketch := true, timer_sketch := e2.timer_sketch.restart }

/-- `Enemy::slow_down` (enemy.h 164-169). -/
def slow_down (e : Enemy) : Enemy :=
  { e with speed := e.max_speed - 1 / 2,
           timer_restore_speed := (e.timer_restore_speed.set_wait_time 1).restart }

/-- `Enemy::make_invalid` (enemy.h 183-186). -/
def make_invalid (e : Enemy) : Enemy :=
  { e with is_valid := false }

/-- `Enemy::get_hp` (enemy.h 188-191). -/
def get_hp (e : Enemy) : ℚ :=
  e.hp

/-- `Enemy::get_size` (enemy.h 193-196). -/
def get_size (e : Enemy) : Vector2 :=
  e.size

/-- `Enemy::get_damage` (enemy.h 208-211). -/
def get_damage (e : Enemy) : ℚ :=
  e.damage

/-- `Enemy::get_recover_radius` (enemy.h 218-221). -/
def get_recover_radius (e : Enemy) : ℚ :=
  SIZE_TILE * e.recover_range

/-- `Enemy::get_recover_intensity` (enemy.h 223-226). -/
def get_recover_intensity (e : Enemy) : ℚ :=
  e.recover_intensity

/-- `Enemy::can_remove` (enemy.h 228-231). -/
def can_remove (e : Enemy) : Bool :=
  !e.is_valid

end Enemy

/-! ## animation.h -/

/-- The data members of `class Animation` (animation.h 138-146) that its update
reads or writes.  `num_frame` is `rect_src_list.size()`, `has_on_finished`
tells whether `on_finished` holds a callable. -/
structure Animation where
  timer : Timer := {}
  is_loop : Bool := true
  idx_frame : Nat := 0
  has_on_finished : Bool := false
  num_frame : Nat := 0
deriving DecidableEq

namespace Animation

/-- The timeout callback installed by the constructor (animation.h 42-57), with
`size_t` arithmetic modulo `2^64`.  The second component counts the invocations
of `on_finished`. -/
def on_timeout (a : Animation) : Animation × Nat :=
  let a1 : Animation := { a with idx_frame := (a.idx_frame + 1) % 2 ^ 64 }
  if a1.idx_frame ≥ a1.num_frame then
    let a2 : Animation :=
      { a1 with idx_frame := if a1.is_loop then 0 else (a1.num_frame + 2 ^ 64 - 1) % 2 ^ 64 }
    if !a2.is_loop && a2.has_on_finished then (a2, 1) else (a2, 0)
  else
    (a1, 0)

/-- `Animation::on_update` (animation.h 118-121).  The callback does not touch
the timer, so its effect on the animation is applied after the timer's own
update. -/
def on_update (a : Animation) (delta : ℚ) : Animation × Nat :=
  let r := a.timer.on_update (some id) delta
  let a1 : Animation := { a with timer := r.1 }
  if r.2 = 0 then (a1, 0) else a1.on_timeout

end Animation

/-! ## bullet.h, arrow_bullet.h, axe_bullet.h, shell_bullet.h -/

/-- The data members of `class Bullet` (bullet.h 143-157) and of
`ShellBullet` (shell_bullet.h 101), apart from the rotation angle of the
sprite.  `kind` is the dynamic type of the object, which selects the virtual
functions. -/
structure Bullet where
  kind : BulletType := BulletType.Arrow
  size : Vector2 := {}
  velocity : Vector2 := {}
  position : Vector2 := {}
  animation : Animation := {}
  can_rotate : Bool := false
  damage : ℚ := 0
  damage_range : ℚ := -1
  is_valid : Bool := true
  is_collisionable : Bool := true
  animation_explode : Animation := {}
deriving DecidableEq

namespace Bullet

/-- The constructor `ArrowBullet::ArrowBullet` (arrow_bullet.h 10-30). -/
def ArrowBullet : Bullet :=
  { kind := BulletType.Arrow,
    animation := { is_loop := true, timer := { wait_time := 1 / 10 }, num_frame := 2 },
    can_rotate := true, size := { x := 48, y := 48 } }

/-- The constructor `AxeBullet::AxeBullet` (axe_bullet.h 10-30). -/
def AxeBullet : Bullet :=
  { kind := BulletType.Axe,
    animation := { is_loop := true, timer := { wait_time := 1 / 10 }, num_frame := 8 },
    can_rotate := false, size := { x := 48, y := 48 } }

/-- The constructor `ShellBullet::ShellBullet` (shell_bullet.h 10-50). -/
def ShellBullet : Bullet :=
  { kind := BulletType.Shell,
    animation := { is_loop := true, timer := { wait_time := 1 / 10 }, num_frame := 2 },
    animation_explode :=
      { is_loop := false, timer := { wait_time := 1 / 10 }, num_frame := 2,
        has_on_finished := true },
    can_rotate := false, damage_range := 96, size := { x := 48, y := 48 } }

/-- `Bullet::set_velocity_and_rotation` (bullet.h 34-44), without the angle. -/
def set_velocity_and_rotation (b : Bullet) (velocity : Vector2) : Bullet :=
  { b with velocity := velocity }

/-- `Bullet::set_position` (bullet.h 47-50). -/
def set_position (b : Bullet) (position : Vector2) : Bullet :=
  { b with position := position }

/-- `Bullet::set_damage` (bullet.h 53-56). -/
def set_damage (b : Bullet) (damage : ℚ) : Bullet :=
  { b with damage := damage }

/-- `Bullet::get_position` (bullet.h 65-68). -/
def get_position (b : Bullet) : Vector2 :=
  b.position

/-- `Bullet::get_damage` (bullet.h 71-74). -/
def get_damage (b : Bullet) : ℚ :=
  b.damage

/-- `Bullet::get_damage_range` (bullet.h 77-80). -/
def get_damage_range (b : Bullet) : ℚ :=
  b.damage_range

/-- `Bullet::disable_collide` (bullet.h 83-86). -/
def disable_collide (b : Bullet) : Bullet :=
  { b with is_collisionable := false }

/-- `Bullet::can_collide` (bullet.h 89-92). -/
def can_collide (b : Bullet) : Bool :=
  b.is_collisionable

/-- `Bullet::make_invalid` (bullet.h 95-99). -/
def make_invalid (b : Bullet) : Bullet :=
  { b with is_valid := false, is_collisionable := false }

/-- `Bullet::can_remove` (bullet.h 102-105). -/
def can_remove (b : Bullet) : Bool :=
  !b.is_valid

/-- `Bullet::on_update` (bullet.h 108-121), the implementation of the base
class. -/
def base_on_update (rect_map : SDL_Rect) (b : Bullet) (delta : ℚ) : Bullet :=
  let b1 : Bullet :=
    { b with animation := (b.animation.on_update delta).1,
             position := b.position.add (b.velocity.scale delta) }
  if b1.position.x - b1.size.x / 2 ≤ (rect_map.x : ℚ) ∨
      b1.position.x + b1.size.x / 2 ≥ ((rect_map.x + rect_map.w : Int) : ℚ) ∨
      b1.position.y - b1.size.y / 2 ≤ (rect_map.y : ℚ) ∨
      b1.position.y + b1.size.y / 2 ≥ ((rect_map.y + rect_map.h : Int) : ℚ) then
    { b1 with is_valid := false }
  else
    b1

/-- The virtual `on_update`: `ShellBullet::on_update` (shell_bullet.h 54-66)
for a shell, the base implementation otherwise.  The `on_finished` callback of
the explosion animation calls `make_invalid` (shell_bullet.h 38-42). -/
def on_update (rect_map : SDL_Rect) (b : Bullet) (delta : ℚ) : Bullet :=
  match b.kind with
  | BulletType.Shell =>
    if b.can_collide then
      base_on_update rect_map b delta
    else
      let r := b.animation_explode.on_update delta
      let b1 : Bullet := { b with animation_explode := r.1 }
      if r.2 = 0 then b1 else b1.make_invalid
  | _ => base_on_update rect_map b delta

/-- `Bullet::on_collide` (bullet.h 137-141), the implementation of the base
class. -/
def base_on_collide (b : Bullet) : Bullet :=
  { b with is_valid := false, is_collisionable := false }

/-- The virtual `on_collide`, without the sounds: `ArrowBullet::on_collide`
(arrow_bullet.h 33-54), `AxeBullet::on_collide` (axe_bullet.h 34-58) and
`ShellBullet::on_collide` (shell_bullet.h 89-98).  The result is the bullet and
the enemy passed to the call. -/
def on_collide (b : Bullet) (enemy : Enemy) : Bullet × Enemy :=
  match b.kind with
  | BulletType.Arrow => (b.base_on_collide, enemy)
  | BulletType.Axe => (b.base_on_collide, enemy.slow_down)
  | BulletType.Shell => (b.disable_collide, enemy)

end Bullet

/-- One call made on a bullet after its construction. -/
inductive BulletCall where
  | set_velocity_and_rotation (velocity : Vector2)
  | set_position (position : Vector2)
  | set_damage (damage : ℚ)
  | disable_collide
  | make_invalid
  | on_update (rect_map : SDL_Rect) (delta : ℚ)
  | on_collide (enemy : Enemy)

/-- The effect of one call on the bullet. -/
def Bullet.call (b : Bullet) : BulletCall → Bullet
  | .set_velocity_and_rotation v => b.set_velocity_and_rotation v
  | .set_position p => b.set_position p
  | .set_damage d => b.set_damage d
  | .disable_collide => b.disable_collide
  | .make_invalid => b.make_invalid
  | .on_update rect_map delta => b.on_update rect_map delta
  | .on_collide enemy => (b.on_collide enemy).1

/-! ## enemy_manager.h -/

/-- What a pass of `EnemyManager::process_bullet_collision` does besides
changing enemies and bullets: `hit j i` records that the collision block
(enemy_manager.h 233-267) was entered for the bullet at place `j` and the enemy
at place `i` of their lists, `coin_roll k` a call of `try_spawn_coin_prop` on
the enemy at place `k`. -/
inductive CollisionEvent where
  | hit (idx_bullet idx_enemy : Nat)
  | coin_roll (idx_enemy : Nat)
deriving DecidableEq

/-- The objects a collision pass works on: the enemy list of the enemy
manager, the bullet list of the bullet manager, and the events so far. -/
structure CollisionPass where
  enemy_list : List Enemy := []
  bullet_list : List Bullet := []
  events : List CollisionEvent := []
deriving DecidableEq

namespace EnemyManager

/-- The skill callback installed by `EnemyManager::spawn_enemy`
(enemy_manager.h 111-131) on the enemy list.  `enemy_src` is read through its
pointer while the loop runs; `increase_hp` changes only the hp, so the radius,
the position and the intensity are those at entry. -/
def skill_released (sqrt : ℚ → ℚ) (enemy_list : List Enemy) (enemy_src : Enemy) : List Enemy :=
  let recover_radius := enemy_src.get_recover_radius
  if recover_radius < 0 then enemy_list
  else
    let pos_src := enemy_src.get_position
    enemy_list.map fun enemy_dst =>
      let distance := (enemy_dst.get_position.sub pos_src).length sqrt
      if distance ≤ recover_radius then enemy_dst.increase_hp enemy_src.get_recover_intensity
      else enemy_dst

/-- The loop over `target_enemy` of the splash branch (enemy_manager.h
250-263) on the rest of the enemy list, `k` being the place of its first
enemy. -/
def splash_loop (sqrt : ℚ → ℚ) (pos_bullet : Vector2) (damage damage_range : ℚ) :
    List Enemy → Nat → List Enemy × List CollisionEvent
  | [], _ => ([], [])
  | target_enemy :: rest, k =>
    let r := splash_loop sqrt pos_bullet damage damage_range rest (k + 1)
    if (target_enemy.get_position.sub pos_bullet).length sqrt ≤ damage_range then
      let target1 := target_enemy.decrease_hp damage
      (target1 :: r.1,
        if target1.can_remove then CollisionEvent.coin_roll k :: r.2 else r.2)
    else
      (target_enemy :: r.1, r.2)

/-- The collision test of enemy_manager.h 232: the centre of the bullet lies in
the bounding box of the enemy. -/
def box_test (enemy : Enemy) (bullet : Bullet) : Bool :=
  let size_enemy := enemy.get_size
  let pos_enemy := enemy.get_position
  let pos_bullet := bullet.get_position
  decide (pos_bullet.x ≥ pos_enemy.x - size_enemy.x / 2 ∧
    pos_bullet.y ≥ pos_enemy.y - size_enemy.y / 2 ∧
    pos_bullet.x ≤ pos_enemy.x + size_enemy.x / 2 ∧
    pos_bullet.y ≤ pos_enemy.y + size_enemy.y / 2)

/-- The damage of a detected collision (enemy_manager.h 235-264) of the bullet
at place `j` with the enemy at place `i`: point damage to that enemy when the
damage range is negative, splash damage over the whole list otherwise. -/
def apply_damage (sqrt : ℚ → ℚ) (i j : Nat) (enemy : Enemy) (bullet : Bullet)
    (s : CollisionPass) : CollisionPass :=
  let damage := bullet.get_damage
  let damage_range := bullet.get_damage_range
  if damage_range < 0 then
    let enemy1 := enemy.decrease_hp damage
    { s with
      enemy_list := s.enemy_list.set i enemy1,
      events := s.events ++ CollisionEvent.hit j i ::
        (if enemy1.can_remove then [CollisionEvent.coin_roll i] else []) }
  else
    let r := splash_loop sqrt bullet.get_position damage damage_range s.enemy_list 0
    { s with
      enemy_list := r.1,
      events := s.events ++ CollisionEvent.hit j i :: r.2 }

/-- The call `bullet->on_collide(enemy)` of enemy_manager.h 266 on the bullet
at place `j` and the enemy at place `i`. -/
def apply_on_collide (i j : Nat) (bullet : Bullet) (s : CollisionPass) : CollisionPass :=
  match s.enemy_list.get? i with
  | some enemy =>
    let r := bullet.on_collide enemy
    { s with
      enemy_list := s.enemy_list.set i r.2,
      bullet_list := s.bullet_list.set j r.1 }
  | none => s

/-- The body of the inner loop (enemy_manager.h 226-267) for the enemy at place
`i` and the bullet at place `j`. -/
def collide (sqrt : ℚ → ℚ) (i : Nat) (s : CollisionPass) (j : Nat) : CollisionPass :=
  match s.enemy_list.get? i, s.bullet_list.get? j with
  | some enemy, some bullet =>
    if !bullet.can_collide then s
    else if box_test enemy bullet then
      apply_on_collide i j bullet (apply_damage sqrt i j enemy bullet s)
    else s
  | _, _ => s

/-- The body of the outer loop (enemy_manager.h 218-268) for the enemy at place
`i`. -/
def collide_enemy (sqrt : ℚ → ℚ) (s : CollisionPass) (i : Nat) : CollisionPass :=
  match s.enemy_list.get? i with
  | some enemy =>
    if enemy.can_remove then s
    else (List.range s.bullet_list.length).foldl (collide sqrt i) s
  | none => s

/-- `EnemyManager::process_bullet_collision` (enemy_manager.h 210-270). -/
def process_bullet_collision (sqrt : ℚ → ℚ) (enemy_list : List Enemy)
    (bullet_list : List Bullet) : CollisionPass :=
  (List.range enemy_list.length).foldl (collide_enemy sqrt)
    { enemy_list := enemy_list, bullet_list := bullet_list, events := [] }

end EnemyManager

namespace CollisionEvent

/-- Whether the event is a hit of the bullet at place `j`. -/
def is_hit_of (j : Nat) : CollisionEvent → Bool
  | hit idx_bullet _ => decide (idx_bullet = j)
  | coin_roll _ => false

/-- Whether the event is a coin roll for the enemy at place `k`. -/
def is_roll_of (k : Nat) : CollisionEvent → Bool
  | hit _ _ => false
  | coin_roll idx_enemy => decide (idx_enemy = k)

end CollisionEvent

namespace CollisionPass

/-- The number of hit events of the bullet at place `j`. -/
def hit_count (s : CollisionPass) (j : Nat) : Nat :=
  s.events.countP (CollisionEvent.is_hit_of j)

/-- The number of coin rolls made for the enemy at place `k`. -/
def roll_count (s : CollisionPass) (k : Nat) : Nat :=
  s.events.countP (CollisionEvent.is_roll_of k)

end CollisionPass

/-! ## bullet_manager.h, tower.h: firing -/

/-- `BulletManager::spawn_bullet` (bullet_manager.h 81-108): the bullet that is
appended to the bullet list. -/
def BulletManager.spawn_bullet (type : BulletType) (position velocity : Vector2)
    (damage : ℚ) : Bullet :=
  let bullet : Bullet :=
    match type with
    | BulletType.Arrow => Bullet.ArrowBullet
    | BulletType.Axe => Bullet.AxeBullet
    | BulletType.Shell => Bullet.ShellBullet
  ((bullet.set_position position).set_velocity_and_rotation velocity).set_damage damage

/-- The levels of the three tower types index their ten-element arrays. -/
def ConfigManager.LevelsInRange (config : ConfigManager) : Prop :=
  (0 ≤ config.level_archer ∧ config.level_archer < 10) ∧
  (0 ≤ config.level_axeman ∧ config.level_axeman < 10) ∧
  (0 ≤ config.level_gunner ∧ config.level_gunner < 10)

namespace Tower

/-- The `switch (tower_type)` of `Tower::on_fire` (tower.h 277-304), without
the sounds: the interval and the damage of the tower's type at the type's
current level; `none` when the level is outside the arrays. -/
def fire_stats (config : ConfigManager) (tower : Tower) : Option (ℚ × ℚ) :=
  match tower.tower_type with
  | TowerType.Archer =>
    match array_at config.archer_template.interval config.level_archer,
      array_at config.archer_template.damage config.level_archer with
    | some interval, some damage => some (interval, damage)
    | _, _ => none
  | TowerType.Axeman =>
    match array_at config.axeman_template.interval config.level_axeman,
      array_at config.axeman_template.damage config.level_axeman with
    | some interval, some damage => some (interval, damage)
    | _, _ => none
  | TowerType.Gunner =>
    match array_at config.gunner_template.interval config.level_gunner,
      array_at config.gunner_template.damage config.level_gunner with
    | some interval, some damage => some (interval, damage)
    | _, _ => none

/-- `Tower::on_fire` (tower.h 259-331), without sounds and animations: the
tower afterwards and the bullet handed to `BulletManager::spawn_bullet`, if
any.  `none` is a read outside an array. -/
def on_fire (sqrt : ℚ → ℚ) (config : ConfigManager) (enemy_list : List Enemy)
    (tower : Tower) : Option (Tower × Option Bullet) :=
  match find_target_enemy sqrt config tower enemy_list with
  | none => none
  | some none => some (tower, none)
  | some (some idx_target) =>
    match enemy_list.get? idx_target with
    | none => none
    | some target_enemy =>
      let tower1 : Tower := { tower with can_fire := false }
      match fire_stats config tower1 with
      | none => none
      | some (interval, damage) =>
        let tower2 : Tower :=
          { tower1 with timer_fire := (tower1.timer_fire.set_wait_time interval).restart }
        let direction := target_enemy.get_position.sub tower2.position
        let bullet := BulletManager.spawn_bullet tower2.bullet_type tower2.position
          (((direction.normalize sqrt).scale tower2.fire_speed).scale SIZE_TILE) damage
        let is_show_x_anim : Bool := decide (|direction.x| ≥ |direction.y|)
        let facing : Facing :=
          if is_show_x_anim then
            if direction.x > 0 then Facing.Right else Facing.Left
          else
            if direction.y > 0 then Facing.Down else Facing.Up
        some ({ tower2 with facing := facing }, some bullet)

/-- `Tower::on_update` (tower.h 118-127), without the animation.  The timeout
callback of `timer_fire` (tower.h 47-51) sets `can_fire` and leaves the timer
alone.  `add` and `sub` are the two `double` operations of
`timer_fire.on_update(delta)`, see `Timer.on_update_with`. -/
def on_update (add sub : ℚ → ℚ → ℚ) (sqrt : ℚ → ℚ) (config : ConfigManager)
    (enemy_list : List Enemy) (tower : Tower) (delta : ℚ) : Option (Tower × Option Bullet) :=
  let r := tower.timer_fire.on_update_with add sub (some id) delta
  let tower1 : Tower :=
    { tower with timer_fire := r.1, can_fire := if r.2 = 0 then tower.can_fire else true }
  if tower1.can_fire then on_fire sqrt config enemy_list tower1
  else some (tower1, none)

/-- What one `Tower::on_update` call finds around the tower: the frame time,
the configuration and the enemy list at that moment. -/
structure Tick where
  delta : ℚ
  config : ConfigManager := {}
  enemy_list : List Enemy := []

/-- A sequence of `Tower::on_update` calls: for every call the tower after it
and the bullet it spawned, if any. -/
def run (add sub : ℚ → ℚ → ℚ) (sqrt : ℚ → ℚ) :
    Tower → List Tick → Option (List (Tower × Option Bullet))
  | _, [] => some []
  | tower, tick :: rest =>
    match on_update add sub sqrt tick.config tick.enemy_list tower tick.delta with
    | none => none
    | some r =>
      match run add sub sqrt r.1 rest with
      | none => none
      | some trace => some (r :: trace)

end Tower

/-! ## timer.h: a timer inside its owner -/

/-- `Timer::on_update` (timer.h 50-71) for a timer that is a data member of an
object of type `σ`, with a callback that captures the owner: `get` and `set`
read and write the member, `on_timeout` is the stored callable as a function
on the owner (`none` when it reads outside a vector).  `Timer.on_update` is
the case in which the owner is the timer itself. -/
def Timer.on_update_in {σ : Type} (get : σ → Timer) (set : σ → Timer → σ)
    (on_timeout : σ → Option σ) (s : σ) (delta : ℚ) : Option (σ × Nat) :=
  if (get s).paused then
    some (s, 0)
  else
    let s1 := set s { get s with pass_time := (get s).pass_time + delta }
    if (get s1).pass_time ≥ (get s1).wait_time then
      let can_shot : Bool := !(get s1).one_shot || ((get s1).one_shot && !(get s1).shotted)
      let s2 := set s1 { get s1 with shotted := true }
      if can_shot then
        match on_timeout s2 with
        | none => none
        | some s3 =>
          some (set s3 { get s3 with pass_time := (get s3).pass_time - (get s3).wait_time }, 1)
      else
        some (set s2 { get s2 with pass_time := (get s2).pass_time - (get s2).wait_time }, 0)
    else
      some (s1, 0)

/-! ## enemy.h, enemy_manager.h: spawning -/

namespace Enemy

/-- `Enemy::set_position` (enemy.h 171-174). -/
def set_position (e : Enemy) (position : Vector2) : Enemy :=
  { e with position := position }

/-- `Enemy::refresh_position_target` (enemy.h 314-325).  The test
`idx_target < idx_list.size()` compares an `int` with a `size_t`; the
coordinates are computed in `int` with `SIZE_TILE = 48`. -/
def refresh_position_target (rect_tile_map : SDL_Rect) (e : Enemy) : Enemy :=
  if Route.index_ge e.idx_target e.route.idx_list.length then e
  else
    match vector_at e.route.idx_list e.idx_target with
    | none => e
    | some point =>
      { e with position_target :=
          { x := ((rect_tile_map.x + point.x * 48 + 48 / 2 : Int) : ℚ),
            y := ((rect_tile_map.y + point.y * 48 + 48 / 2 : Int) : ℚ) } }

/-- `Enemy::set_route` (enemy.h 176-181). -/
def set_route (rect_tile_map : SDL_Rect) (e : Enemy) (route : Route) : Enemy :=
  refresh_position_target rect_tile_map { e with route := route }

end Enemy

/-- `EnemyManager::spawn_enemy` (enemy_manager.h 68-148) on the enemy list.
`new_enemy` stands for the constructors of the five enemy classes, whose
headers are not among the sources.  `none` is the read of `idx_list[0]` in an
empty route. -/
def EnemyManager.spawn_enemy (new_enemy : EnemyType → Enemy) (config : ConfigManager)
    (enemy_list : List Enemy) (type : EnemyType) (idx_spawn_point : Int) :
    Option (List Enemy) :=
  match config.map.spawner_route_pool idx_spawn_point with
  | none => some enemy_list
  | some route =>
    let enemy := new_enemy type
    match vector_at route.idx_list 0 with
    | none => none
    | some point =>
      let position : Vector2 :=
        { x := ((config.rect_tile_map.x + point.x * 48 + 48 / 2 : Int) : ℚ),
          y := ((config.rect_tile_map.y + point.y * 48 + 48 / 2 : Int) : ℚ) }
      let enemy1 := enemy.set_position position
      let enemy2 := enemy1.set_route config.rect_tile_map route
      some (enemy_list ++ [enemy2])

/-- `EnemyManager::check_cleared` (enemy_manager.h 150-153). -/
def EnemyManager.check_cleared (enemy_list : List Enemy) : Bool :=
  enemy_list.isEmpty

/-! ## wave_manager.h -/

/-- The data members of `class WaveManager` (wave_manager.h 129-135). -/
structure WaveManager where
  idx_wave : Int := 0
  idx_spawn_event : Int := 0
  timer_start_wave : Timer := {}
  timer_spawn_enemy : Timer := {}
  is_wave_started : Bool := false
  is_spawned_last_enemy : Bool := false
deriving DecidableEq

/-- What the wave manager does to the other managers: a call of
`EnemyManager::spawn_enemy` and a call of `CoinManager::increase_coin`. -/
inductive WaveEvent where
  | spawn (enemy_type : EnemyType) (spawn_point : Int)
  | credit (rewards : ℚ)
deriving DecidableEq

/-- The singletons that `WaveManager::on_update` reads and writes: the wave
manager itself, the configuration, the enemy list of the enemy manager and the
coin manager; `events` records the calls made on the other managers so far. -/
structure WaveWorld where
  wave_manager : WaveManager := {}
  config : ConfigManager := {}
  enemy_list : List Enemy := []
  coin_manager : CoinManager := {}
  events : List WaveEvent := []

namespace WaveManager

/-- The timeout callback of `timer_start_wave` (wave_manager.h 95-101). -/
def on_start_timeout (w : WaveWorld) : Option WaveWorld :=
  let wm := w.wave_manager
  let wm1 : WaveManager := { wm with is_wave_started := true }
  match vector_at w.config.wave_list wm1.idx_wave with
  | none => none
  | some wave =>
    match vector_at wave.spawn_event_list 0 with
    | none => none
    | some spawn_event =>
      some { w with wave_manager :=
        { wm1 with timer_spawn_enemy :=
            (wm1.timer_spawn_enemy.set_wait_time spawn_event.interval).restart } }

/-- The timeout callback of `timer_spawn_enemy` (wave_manager.h 106-124). -/
def on_spawn_timeout (new_enemy : EnemyType → Enemy) (w : WaveWorld) : Option WaveWorld :=
  let wm := w.wave_manager
  match vector_at w.config.wave_list wm.idx_wave with
  | none => none
  | some wave =>
    let spawn_event_list := wave.spawn_event_list
    match vector_at spawn_event_list wm.idx_spawn_event with
    | none => none
    | some spawn_event =>
      match EnemyManager.spawn_enemy new_enemy w.config w.enemy_list spawn_event.enemy_type
          spawn_event.spawn_point with
      | none => none
      | some enemy_list1 =>
        let w1 : WaveWorld :=
          { w with
            enemy_list := enemy_list1,
            events := w.events ++
              [WaveEvent.spawn spawn_event.enemy_type spawn_event.spawn_point] }
        let wm1 : WaveManager := { wm with idx_spawn_event := wm.idx_spawn_event + 1 }
        if Route.index_ge wm1.idx_spawn_event spawn_event_list.length then
          some { w1 with wave_manager := { wm1 with is_spawned_last_enemy := true } }
        else
          match vector_at spawn_event_list wm1.idx_spawn_event with
          | none => none
          | some next_event =>
            some { w1 with wave_manager :=
              { wm1 with timer_spawn_enemy :=
                  (wm1.timer_spawn_enemy.set_wait_time next_event.interval).restart } }

/-- The constructor `WaveManager::WaveManager` (wave_manager.h 86-125); `none`
is the read of `wave_list[0]` in an empty wave list. -/
def construct (wave_list : List Wave) : Option WaveManager :=
  match vector_at wave_list 0 with
  | none => none
  | some wave =>
    some { timer_start_wave := (({} : Timer).set_one_shot true).set_wait_time wave.interval,
           timer_spawn_enemy := ({} : Timer).set_one_shot true }

/-- The completion poll of `WaveManager::on_update` (wave_manager.h 60-82). -/
def poll (w : WaveWorld) : Option WaveWorld :=
  if w.wave_manager.is_spawned_last_enemy && EnemyManager.check_cleared w.enemy_list then
    match vector_at w.config.wave_list w.wave_manager.idx_wave with
    | none => none
    | some wave =>
      let w1 : WaveWorld :=
        { w with
          coin_manager := w.coin_manager.increase_coin wave.rewards,
          events := w.events ++ [WaveEvent.credit wave.rewards] }
      let wm1 : WaveManager := { w1.wave_manager with idx_wave := w1.wave_manager.idx_wave + 1 }
      if Route.index_ge wm1.idx_wave w1.config.wave_list.length then
        some { w1 with
          wave_manager := wm1,
          config := { w1.config with is_game_win := true, is_game_over := true } }
      else
        let wm2 : WaveManager :=
          { wm1 with idx_spawn_event := 0, is_wave_started := false,
                     is_spawned_last_enemy := false }
        match vector_at w1.config.wave_list wm2.idx_wave with
        | none => none
        | some next_wave =>
          some { w1 with wave_manager :=
            { wm2 with timer_start_wave :=
                (wm2.timer_start_wave.set_wait_time next_wave.interval).restart } }
  else
    some w

/-- `WaveManager::on_update` (wave_manager.h 42-83). -/
def on_update (new_enemy : EnemyType → Enemy) (w : WaveWorld) (delta : ℚ) : Option WaveWorld :=
  if w.config.is_game_over then some w
  else
    let r :=
      if !w.wave_manager.is_wave_started then
        Timer.on_update_in (fun s : WaveWorld => s.wave_manager.timer_start_wave)
          (fun s t => { s with wave_manager := { s.wave_manager with timer_start_wave := t } })
          on_start_timeout w delta
      else
        Timer.on_update_in (fun s : WaveWorld => s.wave_manager.timer_spawn_enemy)
          (fun s t => { s with wave_manager := { s.wave_manager with timer_spawn_enemy := t } })
          (on_spawn_timeout new_enemy) w delta
    match r with
    | none => none
    | some (w1, _) => poll w1

/-- What the other managers did before one `WaveManager::on_update` call: the
enemy list as they left it, and whether the home manager declared defeat. -/
structure Tick where
  delta : ℚ
  enemy_list : List Enemy := []
  defeated : Bool := false

/-- The world as one call finds it. -/
def arrive (w : WaveWorld) (tick : Tick) : WaveWorld :=
  { w with
    enemy_list := tick.enemy_list,
    config :=
      if tick.defeated then { w.config with is_game_win := false, is_game_over := true }
      else w.config }

/-- A sequence of `WaveManager::on_update` calls, each preceded by the changes
of the other managers. -/
def run (new_enemy : EnemyType → Enemy) : WaveWorld → List Tick → Option WaveWorld
  | w, [] => some w
  | w, tick :: rest =>
    match on_update new_enemy (arrive w tick) tick.delta with
    | none => none
    | some w1 => run new_enemy w1 rest

/-- The world at the start of a game with the given configuration; `none` when
the wave list is empty. -/
def start (config : ConfigManager) : Option WaveWorld :=
  match construct config.wave_list with
  | none => none
  | some wm => some { wave_manager := wm, config := config }

end WaveManager

namespace WaveEvent

/-- The `spawn_enemy` calls among the events, in order. -/
def spawns : List WaveEvent → List (EnemyType × Int)
  | [] => []
  | spawn enemy_type spawn_point :: rest => (enemy_type, spawn_point) :: spawns rest
  | credit _ :: rest => spawns rest

/-- The `increase_coin` calls among the events, in order. -/
def credits : List WaveEvent → List ℚ
  | [] => []
  | spawn _ _ :: rest => credits rest
  | credit rewards :: rest => rewards :: credits rest

end WaveEvent

namespace WaveManager

/-- The arguments `spawn_enemy` is called with for a spawn event. -/
def spawn_args (spawn_event : Wave.SpawnEvent) : EnemyType × Int :=
  (spawn_event.enemy_type, spawn_event.spawn_point)

/-- The spawn calls of the first `k` waves of the list, all of their events in
list order, followed by those of the first `m` events of wave `k`. -/
def spawned_so_far (wave_list : List Wave) (k m : Nat) : List (EnemyType × Int) :=
  ((wave_list.take k).map fun wave => wave.spawn_event_list.map spawn_args).flatten ++
    match wave_list.get? k with
    | some wave => (wave.spawn_event_list.take m).map spawn_args
    | none => []

/-- A level as `ConfigManager::load_level_config` accepts it: at least one
wave, and at least one spawn event in every wave. -/
def WellFormed (wave_list : List Wave) : Prop :=
  wave_list ≠ [] ∧ ∀ wave ∈ wave_list, wave.spawn_event_list ≠ []

/-- Every route of the spawner route pool has a first waypoint. -/
def PoolRoutesNonempty (config : ConfigManager) : Prop :=
  ∀ key route, config.map.spawner_route_pool key = some route → route.idx_list ≠ []

/-- The invariant of the wave scheduler over the level `wave_list`, with `k`
the current wave and `m` the current spawn event. -/
structure Inv (wave_list : List Wave) (k m : Nat) (w : WaveWorld) : Prop where
  level : w.config.wave_list = wave_list
  pool : PoolRoutesNonempty w.config
  idx_wave : w.wave_manager.idx_wave = (k : Int)
  idx_spawn_event : w.wave_manager.idx_spawn_event = (m : Int)
  one_shot : w.wave_manager.timer_spawn_enemy.one_shot = true
  wave_le : k ≤ wave_list.length
  over : k = wave_list.length → w.config.is_game_over = true
  in_wave : ∀ wave, wave_list.get? k = some wave →
    m ≤ wave.spawn_event_list.length ∧
    (w.wave_manager.is_spawned_last_enemy = true ↔ m = wave.spawn_event_list.length) ∧
    (w.wave_manager.is_wave_started = false → m = 0) ∧
    (w.wave_manager.is_wave_started = true → m = wave.spawn_event_list.length →
      w.wave_manager.timer_spawn_enemy.shotted = true)
  spawns : WaveEvent.spawns w.events = spawned_so_far wave_list k m
  credits : WaveEvent.credits w.events = (wave_list.take k).map Wave.rewards

end WaveManager

/-! ## enemy.h: the frame update -/

/-- `Vector2::approx_zero` (vector2.h 95-98). -/
def Vector2.approx_zero (sqrt : ℚ → ℚ) (a : Vector2) : Bool :=
  decide (a.length sqrt < 1 / 10000)

/-- `Vector2::operator<` (vector2.h 74-77): a comparison of lengths. -/
def Vector2.lt (sqrt : ℚ → ℚ) (a vec : Vector2) : Bool :=
  decide (a.length sqrt < vec.length sqrt)

namespace Enemy

/-- The effect on the enemy itself of the skill callback that
`EnemyManager::spawn_enemy` installs (enemy_manager.h 111-129), the enemy being
a member of the enemy list: it is healed when it lies within its own recovery
radius.  The effect on the other members is an `increase_hp` call on each. -/
def on_skill_released (sqrt : ℚ → ℚ) (e : Enemy) : Enemy :=
  let recover_radius := e.get_recover_radius
  if recover_radius < 0 then e
  else
    let pos_src := e.get_position
    let distance := (e.get_position.sub pos_src).length sqrt
    if distance ≤ recover_radius then e.increase_hp e.get_recover_intensity else e

/-- The timer updates of `Enemy::on_update` (enemy.h 64-66).  The three timer
callbacks do not touch their timer, so each effect is applied after the timer's
own update. -/
def on_update_timers (sqrt : ℚ → ℚ) (e : Enemy) (delta : ℚ) : Enemy :=
  let r1 := e.timer_skill.on_update (some id) delta
  let e1 : Enemy := { e with timer_skill := r1.1 }
  let e2 : Enemy := if r1.2 = 0 then e1 else on_skill_released sqrt e1
  let r2 := e2.timer_sketch.on_update (some id) delta
  let e3 : Enemy := { e2 with timer_sketch := r2.1 }
  let e4 : Enemy := if r2.2 = 0 then e3 else { e3 with is_show_sketch := false }
  let r3 := e4.timer_restore_speed.on_update (some id) delta
  let e5 : Enemy := { e4 with timer_restore_speed := r3.1 }
  if r3.2 = 0 then e5 else { e5 with speed := e5.max_speed }

/-- The movement of `Enemy::on_update` (enemy.h 68-83).  `target_distance` is
computed once, before the target is advanced; `idx_target++` is taken in
unbounded integers. -/
def on_update_move (sqrt : ℚ → ℚ) (rect_tile_map : SDL_Rect) (e : Enemy) (delta : ℚ) : Enemy :=
  let move_distance := e.velocity.scale delta
  let target_distance := e.position_target.sub e.position
  let e1 : Enemy :=
    if target_distance.approx_zero sqrt then
      let a : Enemy := { e with idx_target := e.idx_target + 1 }
      let b : Enemy := refresh_position_target rect_tile_map a
      { b with direction := (b.position_target.sub b.position).normalize sqrt }
    else e
  let step := if move_distance.lt sqrt target_distance then move_distance else target_distance
  let e2 : Enemy := { e1 with position := e1.position.add step }
  let velocity : Vector2 :=
    { x := e2.direction.x * e2.speed * SIZE_TILE, y := e2.direction.y * e2.speed * SIZE_TILE }
  { e2 with velocity := velocity }

/-- `Enemy::on_update` (enemy.h 62-104) on the data members; the choice and the
update of the current animation (lines 85-103) touch none of them. -/
def on_update (sqrt : ℚ → ℚ) (rect_tile_map : SDL_Rect) (e : Enemy) (delta : ℚ) : Enemy :=
  on_update_move sqrt rect_tile_map (on_update_timers sqrt e delta) delta

end Enemy

/-- The test of `Enemy::on_update` (enemy.h 68-72) that the enemy has arrived
at its target: `(position_target - position).approx_zero()`. -/
def Enemy.stands_on_target (sqrt : ℚ → ℚ) (e : Enemy) : Bool :=
  (e.position_target.sub e.position).approx_zero sqrt

/-- One call made on an enemy by the managers. -/
inductive EnemyCall where
  | increase_hp (val : ℚ)
  | decrease_hp (val : ℚ)
  | make_invalid
  | slow_down
  | on_update (delta : ℚ)
deriving DecidableEq

namespace Enemy

/-- The effect of one call. -/
def call (sqrt : ℚ → ℚ) (rect_tile_map : SDL_Rect) (e : Enemy) : EnemyCall → Enemy
  | EnemyCall.increase_hp val => e.increase_hp val
  | EnemyCall.decrease_hp val => e.decrease_hp val
  | EnemyCall.make_invalid => e.make_invalid
  | EnemyCall.slow_down => e.slow_down
  | EnemyCall.on_update delta => e.on_update sqrt rect_tile_map delta

/-- A sequence of calls, from left to right. -/
def run (sqrt : ℚ → ℚ) (rect_tile_map : SDL_Rect) (e : Enemy) (calls : List EnemyCall) : Enemy :=
  calls.foldl (call sqrt rect_tile_map) e

/-- A sequence of `on_update` calls with the given frame times. -/
def updates (sqrt : ℚ → ℚ) (rect_tile_map : SDL_Rect) (e : Enemy) (deltas : List ℚ) : Enemy :=
  deltas.foldl (on_update sqrt rect_tile_map) e

end Enemy

/-! ## map.h: the cache -/

namespace Map

/-- `Map::get_width` (map.h 69-74). -/
def get_width (m : Map) : Nat :=
  match m.tile_map with
  | [] => 0
  | row0 :: _ => row0.length

/-- `Map::get_height` (map.h 77-80). -/
def get_height (m : Map) : Nat :=
  m.tile_map.length

/-- The cells `(x, y)` in the order in which the two nested `for` loops of
`generate_map_cache` (map.h 162-164) visit them: `y` from `0` to the height,
and for each `y`, `x` from `0` to the width. -/
def scan_order (width height : Nat) : List SDL_Point :=
  (List.range height).flatMap fun (y : Nat) =>
    (List.range width).map fun (x : Nat) => ({ x := (x : Int), y := (y : Int) } : SDL_Point)

/-- The body of the inner loop of `generate_map_cache` (map.h 166-180) at one
cell.  `none` is a read outside a vector, here or in the constructor of the
route. -/
def cache_tile (m : Map) (idx : SDL_Point) : Option Map :=
  match Route.tile_at m.tile_map idx with
  | none => none
  | some tile =>
    if tile.special_flag < 0 then some m
    else if tile.special_flag = 0 then some { m with idx_home := { x := idx.x, y := idx.y } }
    else
      match Route.construct m.tile_map idx with
      | (_, Route.Exit.bad_index) => none
      | (route, _) =>
        some { m with spawner_route_pool := fun key =>
          if key = tile.special_flag then some route else m.spawner_route_pool key }

/-- The loops of `generate_map_cache` over a list of cells. -/
def cache_cells : Map → List SDL_Point → Option Map
  | m, [] => some m
  | m, idx :: rest =>
    match cache_tile m idx with
    | none => none
    | some m1 => cache_cells m1 rest

/-- `Map::generate_map_cache` (map.h 159-183). -/
def generate_map_cache (m : Map) : Option Map :=
  cache_cells m (scan_order m.get_width m.get_height)

/-- Whether the cell carries a tile with special flag 0. -/
def is_home (tile_map : TileMap) (idx : SDL_Point) : Bool :=
  match Route.tile_at tile_map idx with
  | some tile => decide (tile.special_flag = 0)
  | none => false

/-- The home cells of the grid in scan order. -/
def home_cells (m : Map) : List SDL_Point :=
  (scan_order m.get_width m.get_height).filter (is_home m.tile_map)

end Map

/-! ## The sweeps: enemy_manager.h, bullet_manager.h, coin_manager.h, coin_prop.h -/

/-- The data members of `class CoinProp` (coin_prop.h 108-120) that the sweep
and its callers read or write. -/
structure CoinProp where
  position : Vector2 := {}
  velocity : Vector2 := {}
  timer_jump : Timer := {}
  timer_disappear : Timer := {}
  is_valid : Bool := true
  is_jumping : Bool := true
deriving DecidableEq

namespace CoinProp

/-- `CoinProp::make_invalid` (coin_prop.h 54-57). -/
def make_invalid (c : CoinProp) : CoinProp :=
  { c with is_valid := false }

/-- `CoinProp::can_remove` (coin_prop.h 59-62). -/
def can_remove (c : CoinProp) : Bool :=
  !c.is_valid

end CoinProp

/-- The idiom `v.erase(std::remove_if(v.begin(), v.end(), pred), v.end())`: the
elements for which `pred` returns false, in their order.  `pred` returns `none`
when control leaves it without a `return` statement, and then the result is
`none`. -/
def erase_remove_if {α : Type} (pred : α → Option Bool) : List α → Option (List α)
  | [] => some []
  | a :: rest =>
    match pred a with
    | none => none
    | some deletable =>
      match erase_remove_if pred rest with
      | none => none
      | some kept => some (if deletable then kept else a :: kept)

/-- `EnemyManager::remove_invalid_enemy` (enemy_manager.h 273-285). -/
def EnemyManager.remove_invalid_enemy (enemy_list : List Enemy) : Option (List Enemy) :=
  erase_remove_if
    (fun enemy =>
      let deletable := enemy.can_remove
      some deletable)
    enemy_list

/-- The sweep of `BulletManager::on_update` (bullet_manager.h 50-62). -/
def BulletManager.sweep (bullet_list : List Bullet) : Option (List Bullet) :=
  erase_remove_if
    (fun bullet =>
      let deletable := bullet.can_remove
      some deletable)
    bullet_list

/-- The sweep of `CoinManager::on_update` (coin_manager.h 62-71).  The lambda
has a `return` statement only inside `if (deletable)`. -/
def CoinManager.sweep (coin_prop_list : List CoinProp) : Option (List CoinProp) :=
  erase_remove_if
    (fun coin_prop =>
      let deletable := coin_prop.can_remove
      if deletable then some deletable else none)
    coin_prop_list

/-! ## tower_manager.h -/

/-- The level member of the configuration that belongs to a tower type. -/
def ConfigManager.level_of (config : ConfigManager) : TowerType → Int
  | TowerType.Archer => config.level_archer
  | TowerType.Axeman => config.level_axeman
  | TowerType.Gunner => config.level_gunner

namespace TowerManager

/-- `TowerManager::upgrade_tower` (tower_manager.h 156-177) on the
configuration, without the sound. -/
def upgrade_tower (config : ConfigManager) (type : TowerType) : ConfigManager :=
  match type with
  | TowerType.Archer =>
    { config with level_archer := if config.level_archer ≥ 9 then 9 else config.level_archer + 1 }
  | TowerType.Axeman =>
    { config with level_axeman := if config.level_axeman ≥ 9 then 9 else config.level_axeman + 1 }
  | TowerType.Gunner =>
    { config with level_gunner := if config.level_gunner ≥ 9 then 9 else config.level_gunner + 1 }

/-- A sequence of upgrade commands, from left to right. -/
def upgrades (config : ConfigManager) (types : List TowerType) : ConfigManager :=
  types.foldl upgrade_tower config

end TowerManager

/-! ## config_manager.h: the level file -/

/-- A node of the document tree that `cJSON_Parse` returns (the cJSON library is
not among the sources): its `type` with the members the loader reads, that is
`valuedouble` and `valueint` of a number, `valuestring` of a string, the
children of an array, and the children of an object with their names.  `cJSON_NULL`
stands for the remaining types too (true, false, raw). -/
inductive cJSON where
  | cJSON_Number (valuedouble : ℚ) (valueint : Int)
  | cJSON_String (valuestring : String)
  | cJSON_Array (children : List cJSON)
  | cJSON_Object (children : List (String × cJSON))
  | cJSON_NULL

namespace cJSON

/-- The comparison of names that `cJSON_GetObjectItem` uses: equality after
`tolower` on every character. -/
def same_name (a b : String) : Bool :=
  decide (a.data.map Char.toLower = b.data.map Char.toLower)

/-- The search of `cJSON_GetObjectItem` through the children of an object: the
first one with the name. -/
def find_item (name : String) : List (String × cJSON) → Option cJSON
  | [] => none
  | (key, item) :: rest => if same_name name key then some item else find_item name rest

/-- `cJSON_GetObjectItem` on a node that is an object; `none` is the null
pointer. -/
def GetObjectItem (object : cJSON) (name : String) : Option cJSON :=
  match object with
  | cJSON_Object children => find_item name children
  | _ => none

end cJSON

namespace ConfigManager

/-- The enemy type named by a string (config_manager.h 211-220); an unknown
name leaves the type as it is. -/
def parse_enemy_type (enemy_type : EnemyType) (str_enemy_type : String) : EnemyType :=
  if str_enemy_type = "Slim" then EnemyType.Slim
  else if str_enemy_type = "KingSlim" then EnemyType.KingSlim
  else if str_enemy_type = "Skeleton" then EnemyType.Skeleton
  else if str_enemy_type = "Goblin" then EnemyType.Goblin
  else if str_enemy_type = "GoblinPriest" then EnemyType.GoblinPriest
  else enemy_type

/-- The spawn event read from an object node (config_manager.h 192-221). -/
def load_spawn_event (json_spawn_event : cJSON) : Wave.SpawnEvent :=
  let spawn_event : Wave.SpawnEvent := {}
  let spawn_event1 : Wave.SpawnEvent :=
    match json_spawn_event.GetObjectItem "interval" with
    | some (cJSON.cJSON_Number valuedouble _) => { spawn_event with interval := valuedouble }
    | _ => spawn_event
  let spawn_event2 : Wave.SpawnEvent :=
    match json_spawn_event.GetObjectItem "point" with
    | some (cJSON.cJSON_Number _ valueint) => { spawn_event1 with spawn_point := valueint }
    | _ => spawn_event1
  match json_spawn_event.GetObjectItem "enemy" with
  | some (cJSON.cJSON_String valuestring) =>
    { spawn_event2 with enemy_type := parse_enemy_type spawn_event2.enemy_type valuestring }
  | _ => spawn_event2

/-- The loop over the children of the `spawn_list` array (config_manager.h
186-222): every object node appends a spawn event, other nodes are skipped. -/
def load_spawn_list (spawn_event_list : List Wave.SpawnEvent) :
    List cJSON → List Wave.SpawnEvent
  | [] => spawn_event_list
  | cJSON.cJSON_Object children :: rest =>
    load_spawn_list (spawn_event_list ++ [load_spawn_event (cJSON.cJSON_Object children)]) rest
  | _ :: rest => load_spawn_list spawn_event_list rest

/-- The body of the loop over the children of the root (config_manager.h
162-226) for one child. -/
def load_wave (wave_list : List Wave) (json_wave : cJSON) : List Wave :=
  match json_wave with
  | cJSON.cJSON_Object children =>
    let wave : Wave := {}
    let wave1 : Wave :=
      match (cJSON.cJSON_Object children).GetObjectItem "rewards" with
      | some (cJSON.cJSON_Number valuedouble _) => { wave with rewards := valuedouble }
      | _ => wave
    let wave2 : Wave :=
      match (cJSON.cJSON_Object children).GetObjectItem "interval" with
      | some (cJSON.cJSON_Number valuedouble _) => { wave1 with interval := valuedouble }
      | _ => wave1
    match (cJSON.cJSON_Object children).GetObjectItem "spawn_list" with
    | some (cJSON.cJSON_Array events) =>
      let wave3 : Wave :=
        { wave2 with spawn_event_list := load_spawn_list wave2.spawn_event_list events }
      if wave3.spawn_event_list.isEmpty then wave_list else wave_list ++ [wave3]
    | _ => wave_list ++ [wave2]
  | _ => wave_list

/-- `ConfigManager::load_level_config` (config_manager.h 116-243) from the
parsed document on (`none`: the file could not be opened or parsed): the
configuration afterwards and the value returned. -/
def load_level_config (config : ConfigManager) (json_root : Option cJSON) :
    ConfigManager × Bool :=
  match json_root with
  | some (cJSON.cJSON_Array children) =>
    let config1 : ConfigManager :=
      { config with wave_list := children.foldl load_wave config.wave_list }
    if config1.wave_list.isEmpty then (config1, false) else (config1, true)
  | _ => (config, false)

end ConfigManager

/-- The spawn timer is ready: it is not paused, and in a started wave that has
events left it has not fired since it was armed. -/
def WaveManager.Armed (w : WaveWorld) : Prop :=
  w.wave_manager.timer_spawn_enemy.paused = false ∧
  (w.wave_manager.is_wave_started = true → w.wave_manager.is_spawned_last_enemy = false →
    w.wave_manager.timer_spawn_enemy.shotted = false)

/-! ## Sample scene -/

/-- A configuration with the built-in defaults (archer view range 5 at level
0). -/
def Tower.sample_config : ConfigManager := {}

/-- An archer tower at (10, 10). -/
def Tower.sample_tower : Tower :=
  { position := { x := 10, y := 10 } }

/-- Three enemies on a three-waypoint route: two at distance 5 and 0 from the
sample tower with the same progress, one far away with greater progress. -/
def Tower.sample_enemies : List Enemy :=
  [{ position := { x := 13, y := 14 }, idx_target := 1,
     route := { idx_list := [⟨0, 0⟩, ⟨1, 0⟩, ⟨2, 0⟩] } },
   { position := { x := 10, y := 10 }, idx_target := 1,
     route := { idx_list := [⟨0, 0⟩, ⟨1, 0⟩, ⟨2, 0⟩] } },
   { position := { x := 1000, y := 10 }, idx_target := 2,
     route := { idx_list := [⟨0, 0⟩, ⟨1, 0⟩, ⟨2, 0⟩] } }]

/-- A live enemy of 100 hp at the origin, with a 48 by 48 box. -/
def EnemyManager.sample_struck : Enemy :=
  { hp := 100, max_hp := 100, size := { x := 48, y := 48 } }

/-- A live enemy of 60 hp at distance 96 from the origin. -/
def EnemyManager.sample_near : Enemy :=
  { hp := 60, max_hp := 100, size := { x := 48, y := 48 }, position := { x := 0, y := 96 } }

/-- A live enemy of 80 hp at distance 150 from the origin. -/
def EnemyManager.sample_far : Enemy :=
  { hp := 80, max_hp := 100, size := { x := 48, y := 48 }, position := { x := 150, y := 0 } }

/-- A shell (damage radius 96) of damage 25 at the origin. -/
def EnemyManager.sample_shell : Bullet :=
  { Bullet.ShellBullet with damage := 25 }

/-- A wounded enemy at the origin that heals by 25 within 2 tiles. -/
def EnemyManager.sample_priest : Enemy :=
  { hp := 90, max_hp := 100, recover_range := 2, recover_intensity := 25,
    size := { x := 48, y := 48 } }

/-- Three frames around the sample tower, of 0, 1/2 and 1/2 seconds, with the
sample enemies in view. -/
def Tower.sample_ticks : List Tower.Tick :=
  [{ delta := 0, config := Tower.sample_config, enemy_list := Tower.sample_enemies },
   { delta := 1 / 2, config := Tower.sample_config, enemy_list := Tower.sample_enemies },
   { delta := 1 / 2, config := Tower.sample_config, enemy_list := Tower.sample_enemies }]

/-- A route pool with one route of two waypoints, for spawn point 1. -/
def WaveManager.sample_pool : Int → Option Route :=
  fun key => if key = 1 then some { idx_list := [⟨0, 0⟩, ⟨1, 0⟩] } else none

/-- A wave of reward 50 that starts at once and has two spawn events, each one
second after the previous one. -/
def WaveManager.sample_wave : Wave :=
  { rewards := 50, interval := 0, spawn_event_list := [{ interval := 1 }, { interval := 1 }] }

/-- A level with the sample wave only. -/
def WaveManager.sample_level : ConfigManager :=
  { wave_list := [WaveManager.sample_wave],
    map := { spawner_route_pool := WaveManager.sample_pool } }

/-- A frame of `delta` seconds that finds one enemy alive. -/
def WaveManager.busy (delta : ℚ) : WaveManager.Tick :=
  { delta := delta, enemy_list := [{}] }

/-- A frame of `delta` seconds that finds the registry empty. -/
def WaveManager.idle (delta : ℚ) : WaveManager.Tick :=
  { delta := delta, enemy_list := [] }

/-- What is observed of a world: the spawn calls, the credits, the accumulator
of the spawn timer, the wave index and the two game flags. -/
structure WaveManager.Summary where
  spawns : List (EnemyType × Int)
  credits : List ℚ
  pass_time : ℚ
  idx_wave : Int
  is_game_win : Bool
  is_game_over : Bool
deriving DecidableEq

/-- The summary of a world. -/
def WaveManager.summary (w : WaveWorld) : WaveManager.Summary :=
  { spawns := WaveEvent.spawns w.events, credits := WaveEvent.credits w.events,
    pass_time := w.wave_manager.timer_spawn_enemy.pass_time,
    idx_wave := w.wave_manager.idx_wave,
    is_game_win := w.config.is_game_win, is_game_over := w.config.is_game_over }

/-- The sample level played from its start through the given frames, in
summary. -/
def WaveManager.sample_play (ticks : List WaveManager.Tick) : Option WaveManager.Summary :=
  match WaveManager.start WaveManager.sample_level with
  | none => none
  | some w0 =>
    match WaveManager.run (fun _ => {}) w0 ticks with
    | none => none
    | some w => some (WaveManager.summary w)

/-- A grid of one row: a road tile pointing right, then the home tile. -/
def Enemy.sample_map : TileMap :=
  [[{ direction := Tile.Direction.Right }, { special_flag := 0 }]]

/-- The route from the left tile of the sample grid: two waypoints. -/
def Enemy.sample_route : Route :=
  (Route.construct Enemy.sample_map { x := 0, y := 0 }).1

/-- An enemy of speed 1 as `EnemyManager::spawn_enemy` leaves it at the start
of the sample route, the tile map drawn at the origin. -/
def Enemy.sample_walker : Enemy :=
  (({ speed := 1, max_speed := 1, hp := 10, max_hp := 10 } : Enemy).set_position
    { x := 24, y := 24 }).set_route { x := 0, y := 0, w := 96, h := 48 } Enemy.sample_route

/-- The rational square root `Rat.sqrt`, with the two values the sample walk
needs written out. -/
def Enemy.sample_sqrt (q : ℚ) : ℚ :=
  if q = 0 then 0 else if q = 2304 then 48 else Rat.sqrt q

/-- A map of one row with two home tiles. -/
def Map.sample_two_homes : Map :=
  { tile_map := [[{ special_flag := 0 }, { special_flag := 0 }]] }

/-- The document `[{"rewards": 10, "interval": 1}]`: one wave object without a
`spawn_list`. -/
def ConfigManager.sample_document : cJSON :=
  cJSON.cJSON_Array [cJSON.cJSON_Object [("rewards", cJSON.cJSON_Number 10 10), ("interval", cJSON.cJSON_Number 1 1)]]

/-- The world of the sample level right after its wave has started: the spawn
timer is armed with the first event's interval, one enemy of an earlier frame
is alive. -/
def WaveManager.sample_started : WaveWorld :=
  { wave_manager :=
      { is_wave_started := true,
        timer_start_wave := { one_shot := true, shotted := true },
        timer_spawn_enemy := { one_shot := true, wait_time := 1 } },
    config := WaveManager.sample_level,
    enemy_list := [{}] }

/-- The world of the sample level after both events of its wave have fired,
as a frame finds it in which the registry is empty. -/
def WaveManager.sample_spawned : WaveWorld :=
  { wave_manager :=
      { idx_spawn_event := 2, is_wave_started := true, is_spawned_last_enemy := true,
        timer_start_wave := { one_shot := true, shotted := true },
        timer_spawn_enemy := { one_shot := true, wait_time := 1, shotted := true } },
    config := WaveManager.sample_level,
    events := [WaveEvent.spawn EnemyType.Slim 1, WaveEvent.spawn EnemyType.Slim 1] }

/-- What is compared of two worlds: everything but the level data of the
configuration. -/
structure WaveManager.Snapshot where
  wave_manager : WaveManager
  enemy_list : List Enemy
  coin_manager : CoinManager
  events : List WaveEvent
  is_game_win : Bool
  is_game_over : Bool
deriving DecidableEq

/-- The snapshot of a world. -/
def WaveManager.snapshot (w : WaveWorld) : WaveManager.Snapshot :=
  { wave_manager := w.wave_manager, enemy_list := w.enemy_list,
    coin_manager := w.coin_manager, events := w.events,
    is_game_win := w.config.is_game_win, is_game_over := w.config.is_game_over }

/-- The world of the sample level after the first event of its wave has fired,
as a later frame with one enemy alive finds it: the spawn timer is armed with
the second event's interval and its accumulator stands at `-1`. -/
def WaveManager.sample_between : WaveWorld :=
  { wave_manager :=
      { idx_spawn_event := 1, is_wave_started := true,
        timer_start_wave := { one_shot := true, shotted := true },
        timer_spawn_enemy := { one_shot := true, wait_time := 1, pass_time := -1 } },
    config := WaveManager.sample_level,
    enemy_list := [{}],
    events := [WaveEvent.spawn EnemyType.Slim 1] }

/-! # Theorems -/

/-! ## Timer -/

/-- C1: one `Timer::on_update` call invokes the timeout callback at most once,
for every timer state, every callback and every delta; a fresh one-shot timer
with wait time 1 that is updated once by 2.5 invokes its callback exactly
once. -/
theorem timer_on_update_fires_at_most_once :
    (∀ (on_timeout : Option (Timer → Timer)) (t : Timer) (delta : ℚ),
        (t.on_update on_timeout delta).2 ≤ 1) ∧
    (∀ f : Timer → Timer,
        (Timer.on_update (some f) { wait_time := 1, one_shot := true } (5 / 2)).2 = 1) := by
  constructor
  · intro on_timeout t delta
    unfold Timer.on_update
    by_cases hp : t.paused = true
    · simp [hp]
    · rw [if_neg hp]
      dsimp only
      by_cases hw : t.pass_time + delta ≥ t.wait_time
      · rw [if_pos hw]
        split <;> simp
      · rw [if_neg hw]
        simp
  · intro f
    norm_num [Timer.on_update]

/-- C2: for an unpaused timer whose callback leaves the timer alone, the
accumulator after `on_update(delta)` is `a + delta - wait_time` when
`a + delta >= wait_time` and `a + delta` otherwise. -/
theorem timer_on_update_carry_over (on_timeout : Option (Timer → Timer)) (t : Timer)
    (delta : ℚ) (hcb : ∀ f, on_timeout = some f → ∀ u : Timer, f u = u)
    (hp : t.paused = false) :
    (t.on_update on_timeout delta).1.pass_time =
      if t.pass_time + delta ≥ t.wait_time then t.pass_time + delta - t.wait_time
      else t.pass_time + delta := by
  unfold Timer.on_update
  rw [if_neg (by simp [hp])]
  dsimp only
  by_cases h : t.pass_time + delta ≥ t.wait_time
  · rw [if_pos h, if_pos h]
    split
    · next f _ =>
      have hf := hcb f rfl
      simp [hf]
    · rfl
  · rw [if_neg h, if_neg h]

theorem timer_on_update_carry_over_witness :
    (Timer.on_update (some id) { pass_time := 1 / 2, wait_time := 1 } 2).1.pass_time = 3 / 2 := by
  have h := timer_on_update_carry_over (some id) { pass_time := 1 / 2, wait_time := 1 } 2
    (by intro f hf u; cases hf; rfl) rfl
  rw [h]
  norm_num

theorem Timer.on_update_with_exact (on_timeout : Option (Timer → Timer)) (t : Timer) (delta : ℚ) :
    Timer.on_update_with (fun x y => x + y) (fun x y => x - y) on_timeout t delta =
      t.on_update on_timeout delta := rfl

theorem CoinManager.call_nonneg (m : CoinManager) (c : CoinCall) (hm : 0 ≤ m.num_coin)
    (hc : ∀ v, c = CoinCall.increase_coin v → 0 ≤ v) : 0 ≤ (m.call c).num_coin := by
  cases c with
  | increase_coin v =>
    have := hc v rfl
    simp only [CoinManager.call, CoinManager.increase_coin]
    linarith
  | decrease_coin v =>
    simp only [CoinManager.call, CoinManager.decrease_coin]
    split_ifs with h
    · exact le_refl _
    · exact le_of_lt (not_le.mp h)

/-- C8, as stated, fails: crediting a negative amount to an empty ledger leaves
a negative balance. -/
theorem coin_balance_negative_counterexample :
    0 ≤ ({ num_coin := 0 } : CoinManager).num_coin ∧
      (CoinManager.run { num_coin := 0 } [CoinCall.increase_coin (-5)]).num_coin < 0 := by
  norm_num [CoinManager.run, CoinManager.call, CoinManager.increase_coin]

/-- C8 (amended): starting from a non-negative balance, after every finite
sequence of `increase_coin(a)` calls with `a >= 0` and `decrease_coin(a)` calls
with arbitrary `a`, the balance is non-negative. -/
theorem coin_balance_nonneg (m : CoinManager) (calls : List CoinCall) (hm : 0 ≤ m.num_coin)
    (hc : ∀ v, CoinCall.increase_coin v ∈ calls → 0 ≤ v) :
    0 ≤ (m.run calls).get_current_coin_num := by
  unfold CoinManager.get_current_coin_num CoinManager.run
  induction calls generalizing m with
  | nil => simpa using hm
  | cons c cs ih =>
    simp only [List.foldl_cons]
    apply ih
    · apply CoinManager.call_nonneg m c hm
      intro v hv
      exact hc v (by simp [hv])
    · intro v hv
      exact hc v (List.mem_cons_of_mem _ hv)

theorem coin_balance_nonneg_witness :
    0 ≤ (CoinManager.run { num_coin := 100 }
      [CoinCall.decrease_coin 150, CoinCall.increase_coin 15,
        CoinCall.decrease_coin (-3)]).get_current_coin_num :=
  coin_balance_nonneg { num_coin := 100 }
    [CoinCall.decrease_coin 150, CoinCall.increase_coin 15, CoinCall.decrease_coin (-3)]
    (by norm_num)
    (by
      intro v hv
      simp at hv
      rw [hv]
      norm_num)

/-- C9: `decrease_coin(a)` is total and leaves the balance `max(0, b - a)` (for
every balance `b` and amount `a`, in particular for non-negative ones);
debiting 150 from 100 leaves 0. -/
theorem coin_decrease_clamps :
    (∀ b a : ℚ, 0 ≤ b → 0 ≤ a →
        (CoinManager.decrease_coin { num_coin := b } a).get_current_coin_num = max 0 (b - a)) ∧
    (CoinManager.decrease_coin { num_coin := 100 } 150).get_current_coin_num = 0 := by
  have key : ∀ b a : ℚ,
      (CoinManager.decrease_coin { num_coin := b } a).get_current_coin_num = max 0 (b - a) := by
    intro b a
    simp only [CoinManager.decrease_coin, CoinManager.get_current_coin_num]
    split_ifs with h
    · exact (max_eq_left h).symm
    · exact (max_eq_right (le_of_lt (not_le.mp h))).symm
  refine ⟨fun b a _ _ => key b a, ?_⟩
  rw [key]
  norm_num

theorem coin_decrease_clamps_witness :
    (CoinManager.decrease_coin { num_coin := 7 } 3).get_current_coin_num = max 0 (7 - 3) :=
  coin_decrease_clamps.1 7 3 (by norm_num) (by norm_num)

/-! ## Route -/

theorem Route.index_ge_false (i : Int) (n : Nat) :
    Route.index_ge i n = false ↔ 0 ≤ i ∧ i < n := by
  simp [Route.index_ge]

theorem Route.bounds_false (w h : Nat) (p : SDL_Point) :
    (Route.index_ge p.x w || Route.index_ge p.y h) = false ↔ Route.InBox w h p := by
  rw [Bool.or_eq_false_iff, Route.index_ge_false, Route.index_ge_false]
  unfold Route.InBox
  tauto

theorem Route.check_duplicate_idx_iff (l : IdxList) (p : SDL_Point) :
    Route.check_duplicate_idx l p = true ↔ p ∈ l := by
  induction l with
  | nil => simp [Route.check_duplicate_idx]
  | cons q rest ih =>
    unfold Route.check_duplicate_idx
    have hq : (q.x = p.x ∧ q.y = p.y) ↔ p = q := by
      constructor
      · rintro ⟨h1, h2⟩
        cases p; cases q
        simp_all
      · intro h
        subst h
        exact ⟨rfl, rfl⟩
    by_cases h : q.x = p.x ∧ q.y = p.y
    · rw [if_pos h]
      simp [hq.mp h]
    · rw [if_neg h, ih]
      have : p ≠ q := fun e => h (hq.mpr e)
      simp [this]

/-- Unfolding of one iteration of the loop that reaches the push. -/
theorem Route.loop_succ (map : TileMap) (w h fuel : Nat) (l : IdxList) (p : SDL_Point)
    (hb : Route.InBox w h p) (hd : p ∉ l) :
    Route.loop map w h (fuel + 1) l p =
      match Route.tile_at map p with
      | none => ({ idx_list := l ++ [p] }, Route.Exit.bad_index)
      | some tile =>
        if tile.special_flag = 0 then ({ idx_list := l ++ [p] }, Route.Exit.done)
        else
          match Route.next_idx tile.direction p with
          | some q => Route.loop map w h fuel (l ++ [p]) q
          | none => ({ idx_list := l ++ [p] }, Route.Exit.done) := by
  have h1 := (Route.bounds_false w h p).mpr hb
  have h2 : Route.check_duplicate_idx l p = false := by
    rw [← Bool.not_eq_true, Route.check_duplicate_idx_iff]
    exact hd
  rw [Route.loop]
  simp only [h1, h2]
  rfl

/-- Unfolding of one iteration of the loop that stops before the push. -/
theorem Route.loop_stop (map : TileMap) (w h fuel : Nat) (l : IdxList) (p : SDL_Point)
    (hs : ¬ Route.InBox w h p ∨ p ∈ l) :
    Route.loop map w h (fuel + 1) l p = ({ idx_list := l }, Route.Exit.done) := by
  rw [Route.loop]
  by_cases hb : Route.InBox w h p
  · have h1 := (Route.bounds_false w h p).mpr hb
    have h2 : Route.check_duplicate_idx l p = true := by
      rw [Route.check_duplicate_idx_iff]
      tauto
    simp [h1, h2]
  · have h1 : (Route.index_ge p.x w || Route.index_ge p.y h) = true := by
      rw [← Bool.not_eq_false, Route.bounds_false]
      exact hb
    simp [h1]

/-- The invariant of the loop: whatever holds of the list at entry, is kept by
a push of an in-box coordinate that is not yet in the list, holds at exit. -/
theorem Route.loop_invariant (map : TileMap) (w h : Nat) (P : IdxList → Prop)
    (hpush : ∀ l p, P l → Route.InBox w h p → p ∉ l → P (l ++ [p])) :
    ∀ (fuel : Nat) (l : IdxList) (p : SDL_Point), P l →
      P (Route.loop map w h fuel l p).1.idx_list := by
  intro fuel
  induction fuel with
  | zero => intro l p hl; simpa [Route.loop] using hl
  | succ n ih =>
    intro l p hl
    by_cases hs : ¬ Route.InBox w h p ∨ p ∈ l
    · rw [Route.loop_stop map w h n l p hs]
      exact hl
    · push_neg at hs
      rw [Route.loop_succ map w h n l p hs.1 hs.2]
      have hl1 := hpush l p hl hs.1 hs.2
      cases Route.tile_at map p with
      | none => exact hl1
      | some tile =>
        dsimp only
        split_ifs
        · exact hl1
        · cases Route.next_idx tile.direction p with
          | none => exact hl1
          | some q => exact ih _ q hl1

/-- A duplicate-free list of coordinates of the `w` by `h` box has at most
`w * h` members. -/
theorem Route.length_le_box (w h : Nat) (l : IdxList) (hn : l.Nodup)
    (hb : ∀ q ∈ l, Route.InBox w h q) : l.length ≤ w * h := by
  have hinj : ∀ a ∈ l, ∀ b ∈ l, (a.x.toNat, a.y.toNat) = (b.x.toNat, b.y.toNat) → a = b := by
    intro a ha b hb2 hab
    have ha1 := hb a ha
    have hb1 := hb b hb2
    unfold Route.InBox at ha1 hb1
    simp only [Prod.mk.injEq] at hab
    cases a with
    | mk ax ay =>
      cases b with
      | mk bx0 by0 =>
        simp only at ha1 hb1 hab
        have e1 : ax = bx0 := by omega
        have e2 : ay = by0 := by omega
        rw [e1, e2]
  have hmap : (l.map fun q : SDL_Point => (q.x.toNat, q.y.toNat)).Nodup :=
    List.Nodup.map_on hinj hn
  have hsub : (l.map fun q : SDL_Point => (q.x.toNat, q.y.toNat)).toFinset ⊆
      Finset.range w ×ˢ Finset.range h := by
    intro a ha
    simp only [List.mem_toFinset, List.mem_map] at ha
    obtain ⟨q, hq, rfl⟩ := ha
    have hq1 := hb q hq
    unfold Route.InBox at hq1
    simp only [Finset.mem_product, Finset.mem_range]
    omega
  have hcard := Finset.card_le_card hsub
  rw [List.toFinset_card_of_nodup hmap, Finset.card_product, Finset.card_range,
    Finset.card_range, List.length_map] at hcard
  exact hcard

theorem Route.loop_nodup (map : TileMap) (w h fuel : Nat) (l : IdxList) (p : SDL_Point)
    (hl : l.Nodup) : (Route.loop map w h fuel l p).1.idx_list.Nodup := by
  apply Route.loop_invariant map w h (fun l => l.Nodup) _ fuel l p hl
  intro l p hl _ hp
  exact List.Nodup.append hl (List.nodup_singleton p) (by simpa using hp)

theorem Route.loop_in_box (map : TileMap) (w h fuel : Nat) (l : IdxList) (p : SDL_Point)
    (hl : ∀ q ∈ l, Route.InBox w h q) :
    ∀ q ∈ (Route.loop map w h fuel l p).1.idx_list, Route.InBox w h q := by
  apply Route.loop_invariant map w h (fun l => ∀ q ∈ l, Route.InBox w h q) _ fuel l p hl
  intro l p hl hp _ q hq
  rcases List.mem_append.mp hq with h1 | h1
  · exact hl q h1
  · rw [List.mem_singleton.mp h1]
    exact hp

/-- The list at exit extends the list at entry. -/
theorem Route.loop_extends (map : TileMap) (w h fuel : Nat) (l : IdxList) (p : SDL_Point) :
    ∃ rest, (Route.loop map w h fuel l p).1.idx_list = l ++ rest := by
  apply Route.loop_invariant map w h (fun m => ∃ rest, m = l ++ rest) _ fuel l p ⟨[], by simp⟩
  rintro m q ⟨rest, rfl⟩ _ _
  exact ⟨rest ++ [q], by simp⟩

/-- The iteration budget is never used up: with more fuel than the box has
free cells the loop leaves through a `break` or a bad index. -/
theorem Route.loop_no_fuel (map : TileMap) (w h : Nat) :
    ∀ (fuel : Nat) (l : IdxList) (p : SDL_Point), l.Nodup →
      (∀ q ∈ l, Route.InBox w h q) → w * h + 1 ≤ l.length + fuel →
      (Route.loop map w h fuel l p).2 ≠ Route.Exit.no_fuel := by
  intro fuel
  induction fuel with
  | zero =>
    intro l p hn hb hlen
    have := Route.length_le_box w h l hn hb
    omega
  | succ n ih =>
    intro l p hn hb hlen
    by_cases hs : ¬ Route.InBox w h p ∨ p ∈ l
    · rw [Route.loop_stop map w h n l p hs]
      simp
    · push_neg at hs
      rw [Route.loop_succ map w h n l p hs.1 hs.2]
      cases Route.tile_at map p with
      | none => simp
      | some tile =>
        dsimp only
        split_ifs
        · simp
        · cases Route.next_idx tile.direction p with
          | none => simp
          | some q =>
            apply ih
            · exact List.Nodup.append hn (List.nodup_singleton p) (by simpa using hs.2)
            · intro r hr
              rcases List.mem_append.mp hr with h1 | h1
              · exact hb r h1
              · rw [List.mem_singleton.mp h1]
                exact hs.1
            · simp only [List.length_append, List.length_singleton]
              omega

theorem Route.construct_no_fuel (map : TileMap) (idx_origin : SDL_Point) :
    (Route.construct map idx_origin).2 ≠ Route.Exit.no_fuel := by
  cases map with
  | nil => simp [Route.construct]
  | cons row0 rows =>
    simp only [Route.construct]
    apply Route.loop_no_fuel
    · exact List.nodup_nil
    · intro q hq
      simp at hq
    · simp

/-- In a rectangular grid every coordinate of the box carries a tile, and only
those do. -/
theorem Route.tile_at_rectangular (map : TileMap) (w : Nat) (hr : Route.Rectangular map w)
    (p : SDL_Point) :
    (∃ tile, Route.tile_at map p = some tile) ↔ Route.InBox w map.length p := by
  unfold Route.tile_at Route.InBox
  by_cases hneg : p.x < 0 ∨ p.y < 0
  · rw [if_pos hneg]
    constructor
    · rintro ⟨_, h⟩
      exact absurd h (by simp)
    · intro h
      omega
  · rw [if_neg hneg]
    push_neg at hneg
    cases hrow : map.get? p.y.toNat with
    | none =>
      have := List.get?_eq_none.mp hrow
      constructor
      · rintro ⟨_, h⟩
        exact absurd h (by simp)
      · intro h
        omega
    | some row =>
      have hy : p.y.toNat < map.length := by
        by_contra hc
        have := List.get?_eq_none.mpr (not_lt.mp hc)
        rw [this] at hrow
        exact absurd hrow (by simp)
      have hlen : row.length = w := hr row (List.get?_mem hrow)
      dsimp only
      constructor
      · rintro ⟨t, ht⟩
        have hx : p.x.toNat < row.length := by
          by_contra hc
          have := List.get?_eq_none.mpr (not_lt.mp hc)
          rw [this] at ht
          exact absurd ht (by simp)
        omega
      · intro h
        have hx : p.x.toNat < row.length := by omega
        exact ⟨row.get ⟨p.x.toNat, hx⟩, List.get?_eq_get hx⟩

/-- When every coordinate of the box carries a tile, the loop never reads
outside the vectors. -/
theorem Route.loop_no_bad_index (map : TileMap) (w h : Nat)
    (ht : ∀ p, Route.InBox w h p → ∃ tile, Route.tile_at map p = some tile) :
    ∀ (fuel : Nat) (l : IdxList) (p : SDL_Point),
      (Route.loop map w h fuel l p).2 ≠ Route.Exit.bad_index := by
  intro fuel
  induction fuel with
  | zero => intro l p; simp [Route.loop]
  | succ n ih =>
    intro l p
    by_cases hs : ¬ Route.InBox w h p ∨ p ∈ l
    · rw [Route.loop_stop map w h n l p hs]
      simp
    · push_neg at hs
      rw [Route.loop_succ map w h n l p hs.1 hs.2]
      obtain ⟨tile, htile⟩ := ht p hs.1
      rw [htile]
      dsimp only
      split_ifs
      · simp
      · cases Route.next_idx tile.direction p with
        | none => simp
        | some q => exact ih _ q

theorem Route.construct_nodup (map : TileMap) (idx_origin : SDL_Point) :
    (Route.construct map idx_origin).1.idx_list.Nodup := by
  cases map with
  | nil => simp [Route.construct]
  | cons row0 rows =>
    simp only [Route.construct]
    exact Route.loop_nodup _ _ _ _ _ _ List.nodup_nil

/-- C4: for every tile grid and every origin, the waypoint list built by the
`Route` constructor contains no coordinate twice. -/
theorem route_no_duplicate (map : TileMap) (idx_origin : SDL_Point) :
    (Route.construct map idx_origin).1.idx_list.Nodup :=
  Route.construct_nodup map idx_origin

/-- C5: the waypoint list built by the `Route` constructor is non-empty, for
every grid and every origin that passes the constructor's bounds test (column
below the width of the first row, row below the height); in a rectangular grid
these are exactly the coordinates that carry a tile. -/
theorem route_nonempty :
    (∀ (row0 : List Tile) (rows : List (List Tile)) (idx_origin : SDL_Point),
        Route.InBox row0.length (row0 :: rows).length idx_origin →
        (Route.construct (row0 :: rows) idx_origin).1.idx_list ≠ []) ∧
    (∀ (map : TileMap) (w : Nat) (idx_origin : SDL_Point) (tile : Tile),
        Route.Rectangular map w → Route.tile_at map idx_origin = some tile →
        (Route.construct map idx_origin).1.idx_list ≠ []) := by
  have key : ∀ (row0 : List Tile) (rows : List (List Tile)) (idx_origin : SDL_Point),
      Route.InBox row0.length (row0 :: rows).length idx_origin →
      (Route.construct (row0 :: rows) idx_origin).1.idx_list ≠ [] := by
    intro row0 rows o hb
    simp only [Route.construct]
    rw [Route.loop_succ _ _ _ _ _ _ hb (by simp)]
    cases Route.tile_at (row0 :: rows) o with
    | none => simp
    | some tile =>
      dsimp only
      split_ifs
      · simp
      · cases Route.next_idx tile.direction o with
        | none => simp
        | some q =>
          dsimp only
          obtain ⟨rest, hrest⟩ := Route.loop_extends (row0 :: rows) row0.length
            (row0 :: rows).length (row0.length * (row0 :: rows).length) ([] ++ [o]) q
          rw [hrest]
          simp
  refine ⟨key, ?_⟩
  intro map w o tile hr ht
  cases map with
  | nil => simp [Route.tile_at] at ht
  | cons row0 rows =>
    have hw : row0.length = w := hr row0 (List.mem_cons_self _ _)
    have hb := (Route.tile_at_rectangular (row0 :: rows) w hr o).mp ⟨tile, ht⟩
    rw [← hw] at hb
    exact key row0 rows o hb

theorem route_nonempty_witness :
    (Route.construct [[{ direction := Tile.Direction.Left }, { special_flag := 0 }]]
      { x := 0, y := 0 }).1.idx_list ≠ [] :=
  route_nonempty.1 [{ direction := Tile.Direction.Left }, { special_flag := 0 }] []
    { x := 0, y := 0 } (by simp [Route.InBox])

/-- C7: for every rectangular grid of width `w` and height `h` and every
origin, the loop of the `Route` constructor terminates through one of its
`break` statements within `w * h + 1` iterations, and the route has at most
`w * h` waypoints. -/
theorem route_terminates_bounded (map : TileMap) (w : Nat) (idx_origin : SDL_Point)
    (hne : map ≠ []) (hr : Route.Rectangular map w) :
    (Route.construct map idx_origin).2 = Route.Exit.done ∧
      (Route.construct map idx_origin).1.idx_list.length ≤ w * map.length := by
  cases map with
  | nil => exact absurd rfl hne
  | cons row0 rows =>
    have hw : row0.length = w := hr row0 (List.mem_cons_self _ _)
    constructor
    · have h1 := Route.construct_no_fuel (row0 :: rows) idx_origin
      have h2 : (Route.construct (row0 :: rows) idx_origin).2 ≠ Route.Exit.bad_index := by
        simp only [Route.construct]
        apply Route.loop_no_bad_index
        intro p hp
        rw [hw] at hp
        exact (Route.tile_at_rectangular (row0 :: rows) w hr p).mpr hp
      cases hx : (Route.construct (row0 :: rows) idx_origin).2 with
      | done => rfl
      | bad_index => exact absurd hx h2
      | no_fuel => exact absurd hx h1
    · rw [← hw]
      apply Route.length_le_box
      · exact Route.construct_nodup (row0 :: rows) idx_origin
      · simp only [Route.construct]
        apply Route.loop_in_box
        intro q hq
        simp at hq

theorem route_terminates_bounded_witness :
    (Route.construct [[{ direction := Tile.Direction.Right }, { direction := Tile.Direction.Left }]]
        { x := 0, y := 0 }).2 = Route.Exit.done ∧
      (Route.construct [[{ direction := Tile.Direction.Right }, { direction := Tile.Direction.Left }]]
        { x := 0, y := 0 }).1.idx_list.length ≤ 2 * 1 :=
  route_terminates_bounded
    [[{ direction := Tile.Direction.Right }, { direction := Tile.Direction.Left }]] 2
    { x := 0, y := 0 } (by simp)
    (by
      intro row hrow
      simp only [List.mem_singleton] at hrow
      rw [hrow]
      rfl)

/-- What `follows_markers` says about the first coordinate of a walk. -/
theorem Route.follows_markers_head (map : TileMap) (w h : Nat) (p : SDL_Point)
    (rest : List SDL_Point) (hf : Route.follows_markers map w h (p :: rest) = true) :
    Route.InBox w h p ∧ ∃ tile, Route.tile_at map p = some tile ∧
      match rest with
      | [] => tile.special_flag = 0
      | q :: more => tile.special_flag ≠ 0 ∧ Route.next_idx tile.direction p = some q ∧
          Route.follows_markers map w h (q :: more) = true := by
  cases rest with
  | nil =>
    simp only [Route.follows_markers, Bool.and_eq_true, Bool.not_eq_true'] at hf
    refine ⟨(Route.bounds_false w h p).mp hf.1, ?_⟩
    cases ht : Route.tile_at map p with
    | none => simp [ht] at hf
    | some tile =>
      rw [ht] at hf
      exact ⟨tile, rfl, by simpa using hf.2⟩
  | cons q more =>
    simp only [Route.follows_markers, Bool.and_eq_true, Bool.not_eq_true'] at hf
    refine ⟨(Route.bounds_false w h p).mp hf.1.1, ?_⟩
    cases ht : Route.tile_at map p with
    | none => simp [ht] at hf
    | some tile =>
      rw [ht] at hf
      have h2 := hf.1.2
      simp only [Bool.and_eq_true, decide_eq_true_eq] at h2
      exact ⟨tile, rfl, h2.1, h2.2, hf.2⟩

theorem Route.follows_markers_in_box (map : TileMap) (w h : Nat) :
    ∀ (l : List SDL_Point), Route.follows_markers map w h l = true →
      ∀ q ∈ l, Route.InBox w h q := by
  intro l
  induction l with
  | nil => intro _ q hq; simp at hq
  | cons p rest ih =>
    intro hf q hq
    have hh := Route.follows_markers_head map w h p rest hf
    rcases List.mem_cons.mp hq with h1 | h1
    · rw [h1]
      exact hh.1
    · cases rest with
      | nil => simp at h1
      | cons r more =>
        obtain ⟨_, tile, _, _, _, hm⟩ := hh
        exact ih hm q h1

theorem Route.follows_markers_last (map : TileMap) (w h : Nat) :
    ∀ (l : List SDL_Point) (hne : l ≠ []), Route.follows_markers map w h l = true →
      ∃ tile, Route.tile_at map (l.getLast hne) = some tile ∧ tile.special_flag = 0 := by
  intro l
  induction l with
  | nil => intro hne; exact absurd rfl hne
  | cons p rest ih =>
    intro hne hf
    have hh := Route.follows_markers_head map w h p rest hf
    cases rest with
    | nil =>
      obtain ⟨_, tile, ht, h0⟩ := hh
      exact ⟨tile, by simpa using ht, h0⟩
    | cons r more =>
      obtain ⟨_, tile, _, _, _, hm⟩ := hh
      rw [List.getLast_cons (List.cons_ne_nil r more)]
      exact ih (List.cons_ne_nil r more) hm

/-- Along a walk that follows the markers over distinct tiles to a home tile,
the loop pushes exactly the coordinates of the walk. -/
theorem Route.loop_follows (map : TileMap) (w h : Nat) :
    ∀ (rest : List SDL_Point) (p : SDL_Point) (l : IdxList) (fuel : Nat),
      Route.follows_markers map w h (p :: rest) = true → (l ++ p :: rest).Nodup →
      rest.length < fuel →
      Route.loop map w h fuel l p = ({ idx_list := l ++ p :: rest }, Route.Exit.done) := by
  intro rest
  induction rest with
  | nil =>
    intro p l fuel hf hn hfuel
    obtain ⟨hb, tile, ht, h0⟩ := Route.follows_markers_head map w h p [] hf
    have hp : p ∉ l := by
      intro hmem
      have := List.disjoint_of_nodup_append hn hmem
      exact this (List.mem_cons_self _ _)
    cases fuel with
    | zero => simp at hfuel
    | succ n =>
      rw [Route.loop_succ map w h n l p hb hp, ht]
      simp [h0]
  | cons q more ih =>
    intro p l fuel hf hn hfuel
    obtain ⟨hb, tile, ht, h0, hnext, hm⟩ := Route.follows_markers_head map w h p (q :: more) hf
    have hp : p ∉ l := by
      intro hmem
      have := List.disjoint_of_nodup_append hn hmem
      exact this (List.mem_cons_self _ _)
    cases fuel with
    | zero => simp at hfuel
    | succ n =>
      rw [Route.loop_succ map w h n l p hb hp, ht]
      simp only [h0, if_false, hnext]
      have hlen : more.length < n := by
        simp only [List.length_cons] at hfuel
        omega
      have := ih q (l ++ [p]) n hm (by simpa using hn) hlen
      rw [this]
      simp

/-- The constructor on a walk that follows the markers to a home tile. -/
theorem Route.construct_follows (map : TileMap) (idx_origin : SDL_Point)
    (ps : List SDL_Point)
    (hf : Route.follows_markers map (map.headD []).length map.length (idx_origin :: ps) = true)
    (hn : (idx_origin :: ps).Nodup) :
    Route.construct map idx_origin = ({ idx_list := idx_origin :: ps }, Route.Exit.done) := by
  cases map with
  | nil =>
    have := (Route.follows_markers_head _ _ _ _ _ hf).1
    simp [Route.InBox] at this
    omega
  | cons row0 rows =>
    simp only [List.headD_cons] at hf
    simp only [Route.construct]
    have hlen := Route.length_le_box _ _ _ hn (Route.follows_markers_in_box _ _ _ _ hf)
    have := Route.loop_follows (row0 :: rows) row0.length (row0 :: rows).length ps idx_origin []
      (row0.length * (row0 :: rows).length + 1) hf (by simpa using hn)
      (by
        simp only [List.length_cons] at hlen ⊢
        omega)
    simpa using this

theorem Route.follows_markers_home (map : TileMap) (w h : Nat) (p : SDL_Point) (tile : Tile)
    (hb : Route.InBox w h p) (ht : Route.tile_at map p = some tile)
    (h0 : tile.special_flag = 0) : Route.follows_markers map w h [p] = true := by
  simp [Route.follows_markers, (Route.bounds_false w h p).mpr hb, ht, h0]

theorem Route.follows_markers_step (map : TileMap) (w h : Nat) (p q : SDL_Point)
    (rest : List SDL_Point) (tile : Tile)
    (hb : Route.InBox w h p) (ht : Route.tile_at map p = some tile)
    (h0 : tile.special_flag ≠ 0) (hq : Route.next_idx tile.direction p = some q)
    (hr : Route.follows_markers map w h (q :: rest) = true) :
    Route.follows_markers map w h (p :: q :: rest) = true := by
  simp [Route.follows_markers, (Route.bounds_false w h p).mpr hb, ht, h0, hq, hr]

theorem Route.width_of_rectangular (map : TileMap) (w : Nat) (hr : Route.Rectangular map w)
    (p : SDL_Point) (tile : Tile) (ht : Route.tile_at map p = some tile) :
    (map.headD []).length = w := by
  cases map with
  | nil => simp [Route.tile_at] at ht
  | cons row0 rows => exact hr row0 (List.mem_cons_self _ _)

/-- C6: when following the direction markers from the origin stays inside the
grid, passes only over distinct non-home tiles and arrives at a home tile, the
route is exactly the coordinates of that walk in walking order (one more than
the number of steps) and its last waypoint is the home tile; in a rectangular
grid the chain Right, Right, home gives exactly the three waypoints of the
chain, and an origin that is itself home gives the one-element route. -/
theorem route_follows_markers_to_home :
    (∀ (map : TileMap) (idx_origin : SDL_Point) (ps : List SDL_Point),
        Route.follows_markers map (map.headD []).length map.length (idx_origin :: ps) = true →
        (idx_origin :: ps).Nodup →
        Route.construct map idx_origin = ({ idx_list := idx_origin :: ps }, Route.Exit.done) ∧
        (Route.construct map idx_origin).1.idx_list.length = ps.length + 1 ∧
        ∃ tile, Route.tile_at map ((idx_origin :: ps).getLast (List.cons_ne_nil _ _)) = some tile ∧
          tile.special_flag = 0) ∧
    (∀ (map : TileMap) (w : Nat) (o : SDL_Point) (t0 t1 t2 : Tile),
        Route.Rectangular map w →
        Route.tile_at map o = some t0 → t0.special_flag ≠ 0 →
        t0.direction = Tile.Direction.Right →
        Route.tile_at map { x := o.x + 1, y := o.y } = some t1 → t1.special_flag ≠ 0 →
        t1.direction = Tile.Direction.Right →
        Route.tile_at map { x := o.x + 1 + 1, y := o.y } = some t2 → t2.special_flag = 0 →
        Route.construct map o =
          ({ idx_list := [o, { x := o.x + 1, y := o.y }, { x := o.x + 1 + 1, y := o.y }] },
            Route.Exit.done) ∧
        (Route.construct map o).1.idx_list.length = 3) ∧
    (∀ (map : TileMap) (w : Nat) (o : SDL_Point) (t0 : Tile),
        Route.Rectangular map w → Route.tile_at map o = some t0 → t0.special_flag = 0 →
        Route.construct map o = ({ idx_list := [o] }, Route.Exit.done)) := by
  refine ⟨?_, ?_, ?_⟩
  · intro map o ps hf hn
    have hc := Route.construct_follows map o ps hf hn
    refine ⟨hc, by rw [hc]; simp, ?_⟩
    exact Route.follows_markers_last map _ _ (o :: ps) (List.cons_ne_nil _ _) hf
  · intro map w o t0 t1 t2 hr ht0 hs0 hd0 ht1 hs1 hd1 ht2 hs2
    have hw := Route.width_of_rectangular map w hr o t0 ht0
    have hb0 := (Route.tile_at_rectangular map w hr o).mp ⟨t0, ht0⟩
    have hb1 := (Route.tile_at_rectangular map w hr _).mp ⟨t1, ht1⟩
    have hb2 := (Route.tile_at_rectangular map w hr _).mp ⟨t2, ht2⟩
    have hf : Route.follows_markers map (map.headD []).length map.length
        [o, { x := o.x + 1, y := o.y }, { x := o.x + 1 + 1, y := o.y }] = true := by
      rw [hw]
      apply Route.follows_markers_step map w map.length _ _ _ t0 hb0 ht0 hs0
        (by rw [hd0]; rfl)
      apply Route.follows_markers_step map w map.length _ _ _ t1 hb1 ht1 hs1
        (by rw [hd1]; rfl)
      exact Route.follows_markers_home map w map.length _ t2 hb2 ht2 hs2
    have hn : [o, ({ x := o.x + 1, y := o.y } : SDL_Point),
        { x := o.x + 1 + 1, y := o.y }].Nodup := by
      cases o with
      | mk ox oy =>
        have e1 : ¬ ox = ox + 1 := by omega
        have e2 : ¬ ox = ox + 1 + 1 := by omega
        have e3 : ¬ ox + 1 = ox + 1 + 1 := by omega
        simp [e1, e2, e3]
    have hc := Route.construct_follows map o _ hf hn
    exact ⟨hc, by rw [hc]; rfl⟩
  · intro map w o t0 hr ht0 hs0
    have hw := Route.width_of_rectangular map w hr o t0 ht0
    have hb0 := (Route.tile_at_rectangular map w hr o).mp ⟨t0, ht0⟩
    apply Route.construct_follows map o []
    · rw [hw]
      exact Route.follows_markers_home map w map.length o t0 hb0 ht0 hs0
    · simp

theorem route_follows_markers_to_home_witness :
    (Route.construct
        [[{ special_flag := 1, direction := Tile.Direction.Right },
          { direction := Tile.Direction.Right }, { special_flag := 0 }]]
        { x := 0, y := 0 } =
      ({ idx_list := [{ x := 0, y := 0 }, { x := 0 + 1, y := 0 }, { x := 0 + 1 + 1, y := 0 }] },
        Route.Exit.done) ∧
      (Route.construct
        [[{ special_flag := 1, direction := Tile.Direction.Right },
          { direction := Tile.Direction.Right }, { special_flag := 0 }]]
        { x := 0, y := 0 }).1.idx_list.length = 3) ∧
    Route.construct [[{ special_flag := 0 }]] { x := 0, y := 0 } =
      ({ idx_list := [{ x := 0, y := 0 }] }, Route.Exit.done) :=
  ⟨route_follows_markers_to_home.2.1
      [[{ special_flag := 1, direction := Tile.Direction.Right },
        { direction := Tile.Direction.Right }, { special_flag := 0 }]] 3 { x := 0, y := 0 }
      { special_flag := 1, direction := Tile.Direction.Right }
      { direction := Tile.Direction.Right } { special_flag := 0 }
      (by intro row hrow; simp only [List.mem_singleton] at hrow; rw [hrow]; rfl)
      (by decide) (by decide) rfl (by decide) (by decide) rfl (by decide) rfl,
    route_follows_markers_to_home.2.2 [[{ special_flag := 0 }]] 1 { x := 0, y := 0 }
      { special_flag := 0 }
      (by intro row hrow; simp only [List.mem_singleton] at hrow; rw [hrow]; rfl)
      (by decide) rfl⟩

/-! ## Tower -/

theorem Enemy.get_route_process_nonneg (e : Enemy) (h : 0 ≤ e.idx_target) :
    0 ≤ e.get_route_process := by
  unfold Enemy.get_route_process
  split_ifs
  · norm_num
  · apply div_nonneg
    · exact_mod_cast h
    · exact Nat.cast_nonneg _

/-- What the loop of `find_target_enemy` returns on the rest of the list:
either nothing in range beats `process` and the target is unchanged, or the
target is the first of the in-range enemies of greatest progress. -/
theorem Tower.scan_spec (sqrt : ℚ → ℚ) (position : Vector2) (vr : ℚ) :
    ∀ (l : List Enemy) (i : Nat) (process : ℚ) (target : Option Nat),
      (Tower.scan sqrt position vr l i process target = target ∧
        ∀ e ∈ l, (e.get_position.sub position).length sqrt ≤ vr * SIZE_TILE →
          e.get_route_process ≤ process) ∨
      (∃ k e, l.get? k = some e ∧
        Tower.scan sqrt position vr l i process target = some (i + k) ∧
        (e.get_position.sub position).length sqrt ≤ vr * SIZE_TILE ∧
        process < e.get_route_process ∧
        ∀ j e2, l.get? j = some e2 →
          (e2.get_position.sub position).length sqrt ≤ vr * SIZE_TILE →
          e2.get_route_process ≤ e.get_route_process ∧
            (e2.get_route_process = e.get_route_process → k ≤ j)) := by
  intro l
  induction l with
  | nil =>
    intro i process target
    left
    exact ⟨rfl, by intro e he; simp at he⟩
  | cons a rest ih =>
    intro i process target
    by_cases hsel : (a.get_position.sub position).length sqrt ≤ vr * SIZE_TILE ∧
        a.get_route_process > process
    · have hstep : Tower.scan sqrt position vr (a :: rest) i process target =
          Tower.scan sqrt position vr rest (i + 1) a.get_route_process (some i) := by
        rw [Tower.scan]
        simp [hsel.1, hsel.2]
      right
      rcases ih (i + 1) a.get_route_process (some i) with ⟨hres, hall⟩ | ⟨k, e, hk, hres, hin, hgt, hall⟩
      · refine ⟨0, a, rfl, by rw [hstep, hres]; rfl, hsel.1, hsel.2, ?_⟩
        intro j e2 hj hin2
        cases j with
        | zero =>
          simp only [List.get?_cons_zero, Option.some.injEq] at hj
          rw [← hj]
          exact ⟨le_refl _, fun _ => le_refl _⟩
        | succ j2 =>
          simp only [List.get?_cons_succ] at hj
          exact ⟨hall e2 (List.get?_mem hj) hin2, fun _ => Nat.zero_le _⟩
      · refine ⟨k + 1, e, by simpa using hk, by rw [hstep, hres]; congr 1; omega, hin,
          lt_trans hsel.2 hgt, ?_⟩
        intro j e2 hj hin2
        cases j with
        | zero =>
          simp only [List.get?_cons_zero, Option.some.injEq] at hj
          rw [← hj]
          exact ⟨le_of_lt hgt, fun heq => absurd heq (ne_of_lt hgt)⟩
        | succ j2 =>
          simp only [List.get?_cons_succ] at hj
          have := hall j2 e2 hj hin2
          exact ⟨this.1, fun heq => Nat.succ_le_succ (this.2 heq)⟩
    · have hstep : Tower.scan sqrt position vr (a :: rest) i process target =
          Tower.scan sqrt position vr rest (i + 1) process target := by
        rw [Tower.scan]
        by_cases hin : (a.get_position.sub position).length sqrt ≤ vr * SIZE_TILE
        · have hng : ¬ a.get_route_process > process := fun hg => hsel ⟨hin, hg⟩
          simp [hin, hng]
        · simp [hin]
      have ha : (a.get_position.sub position).length sqrt ≤ vr * SIZE_TILE →
          a.get_route_process ≤ process := by
        intro hin
        by_contra hc
        exact hsel ⟨hin, not_le.mp hc⟩
      rcases ih (i + 1) process target with ⟨hres, hall⟩ | ⟨k, e, hk, hres, hin, hgt, hall⟩
      · left
        refine ⟨by rw [hstep, hres], ?_⟩
        intro e he hin
        rcases List.mem_cons.mp he with h1 | h1
        · rw [h1] at hin ⊢
          exact ha hin
        · exact hall e h1 hin
      · right
        refine ⟨k + 1, e, by simpa using hk, by rw [hstep, hres]; congr 1; omega, hin, hgt, ?_⟩
        intro j e2 hj hin2
        cases j with
        | zero =>
          simp only [List.get?_cons_zero, Option.some.injEq] at hj
          rw [← hj] at hin2 ⊢
          have hle := ha hin2
          exact ⟨le_of_lt (lt_of_le_of_lt hle hgt),
            fun heq => absurd heq (ne_of_lt (lt_of_le_of_lt hle hgt))⟩
        | succ j2 =>
          simp only [List.get?_cons_succ] at hj
          have := hall j2 e2 hj hin2
          exact ⟨this.1, fun heq => Nat.succ_le_succ (this.2 heq)⟩

/-- C10: `Tower::find_target_enemy` returns no enemy iff no enemy of the list
is within distance `view_range * SIZE_TILE` of the tower; otherwise it returns
an in-range enemy whose route progress is greatest among the in-range enemies,
and among those of that greatest progress the one that comes first in the
list.  (The level of the tower's type indexes the `view_range` array, and the
waypoint index of every enemy is non-negative, as it is for every enemy the
game creates.) -/
theorem tower_find_target_enemy (sqrt : ℚ → ℚ) (config : ConfigManager) (tower : Tower)
    (enemy_list : List Enemy) (vr : ℚ)
    (hv : Tower.view_range config tower = some vr)
    (hidx : ∀ e ∈ enemy_list, 0 ≤ e.idx_target) :
    ∃ r, Tower.find_target_enemy sqrt config tower enemy_list = some r ∧
      (r = none ↔ ∀ e ∈ enemy_list, ¬ Tower.in_range sqrt tower vr e) ∧
      (∀ i, r = some i → ∃ e, enemy_list.get? i = some e ∧ Tower.in_range sqrt tower vr e ∧
        ∀ j e2, enemy_list.get? j = some e2 → Tower.in_range sqrt tower vr e2 →
          e2.get_route_process ≤ e.get_route_process ∧
            (e2.get_route_process = e.get_route_process → i ≤ j)) := by
  refine ⟨Tower.scan sqrt tower.position vr enemy_list 0 (-1) none, ?_, ?_⟩
  · simp only [Tower.find_target_enemy, hv]
  · unfold Tower.in_range
    rcases Tower.scan_spec sqrt tower.position vr enemy_list 0 (-1) none with
      ⟨hres, hall⟩ | ⟨k, e, hk, hres, hin, hgt, hall⟩
    · rw [hres]
      refine ⟨⟨fun _ => ?_, fun _ => rfl⟩, fun i hi => absurd hi (by simp)⟩
      intro e he hin
      have h1 := hall e he hin
      have h2 := Enemy.get_route_process_nonneg e (hidx e he)
      linarith
    · rw [hres]
      refine ⟨⟨fun h => absurd h (by simp), fun h => absurd hin (h e (List.get?_mem hk))⟩, ?_⟩
      intro i hi
      simp only [Option.some.injEq, Nat.zero_add] at hi
      rw [← hi]
      exact ⟨e, hk, hin, hall⟩

theorem tower_find_target_enemy_witness :
    ∃ r, Tower.find_target_enemy Rat.sqrt Tower.sample_config Tower.sample_tower
        Tower.sample_enemies = some r ∧
      (r = none ↔ ∀ e ∈ Tower.sample_enemies,
        ¬ Tower.in_range Rat.sqrt Tower.sample_tower 5 e) ∧
      (∀ i, r = some i → ∃ e, Tower.sample_enemies.get? i = some e ∧
        Tower.in_range Rat.sqrt Tower.sample_tower 5 e ∧
        ∀ j e2, Tower.sample_enemies.get? j = some e2 →
          Tower.in_range Rat.sqrt Tower.sample_tower 5 e2 →
          e2.get_route_process ≤ e.get_route_process ∧
            (e2.get_route_process = e.get_route_process → i ≤ j)) :=
  tower_find_target_enemy Rat.sqrt Tower.sample_config Tower.sample_tower
    Tower.sample_enemies 5
    (by simp [Tower.view_range, Tower.sample_config, Tower.sample_tower, array_at])
    (by
      intro e he
      simp only [Tower.sample_enemies, List.mem_cons, List.mem_singleton, List.not_mem_nil,
        or_false] at he
      rcases he with h | h | h <;> rw [h] <;> decide)

/-! ## HomeManager -/

/-- C20 (the code at the failing input): with home hp 10, `decrease_hp(10)`
brings the hp to exactly 0 but declares no defeat, `is_game_over` stays false
and `is_game_win` stays true; only a damage that would take the hp below 0
declares defeat. -/
theorem home_decrease_hp_to_zero_no_defeat :
    ((HomeManager.decrease_hp { num_hp := 10 } {} 10).1.get_current_hp_num = 0 ∧
      (HomeManager.decrease_hp { num_hp := 10 } {} 10).2.is_game_over = false ∧
      (HomeManager.decrease_hp { num_hp := 10 } {} 10).2.is_game_win = true) ∧
    (∀ (h d : ℚ) (config : ConfigManager), h - d < 0 →
      (HomeManager.decrease_hp { num_hp := h } config d).1.get_current_hp_num = 0 ∧
      (HomeManager.decrease_hp { num_hp := h } config d).2.is_game_over = true ∧
      (HomeManager.decrease_hp { num_hp := h } config d).2.is_game_win = false) ∧
    (∀ (h d : ℚ) (config : ConfigManager), h - d = 0 →
      (HomeManager.decrease_hp { num_hp := h } config d).1.get_current_hp_num = 0 ∧
      (HomeManager.decrease_hp { num_hp := h } config d).2.is_game_over = config.is_game_over ∧
      (HomeManager.decrease_hp { num_hp := h } config d).2.is_game_win = config.is_game_win) := by
  refine ⟨?_, ?_, ?_⟩
  · norm_num [HomeManager.decrease_hp, HomeManager.get_current_hp_num]
  · intro h d config hlt
    simp [HomeManager.decrease_hp, HomeManager.get_current_hp_num, hlt]
  · intro h d config heq
    simp [HomeManager.decrease_hp, HomeManager.get_current_hp_num, heq]

theorem home_decrease_hp_to_zero_no_defeat_witness :
    (HomeManager.decrease_hp { num_hp := 3 } {} 5).1.get_current_hp_num = 0 ∧
      (HomeManager.decrease_hp { num_hp := 3 } {} 5).2.is_game_over = true ∧
      (HomeManager.decrease_hp { num_hp := 3 } {} 5).2.is_game_win = false :=
  home_decrease_hp_to_zero_no_defeat.2.1 3 5 {} (by norm_num)

/-! ## Bullets and the collision pass -/

theorem EnemyManager.splash_loop_length (sqrt : ℚ → ℚ) (pos : Vector2) (d r : ℚ) :
    ∀ (l : List Enemy) (k : Nat),
      (EnemyManager.splash_loop sqrt pos d r l k).1.length = l.length := by
  intro l
  induction l with
  | nil => intro k; rfl
  | cons e rest ih =>
    intro k
    simp only [EnemyManager.splash_loop]
    split_ifs <;> simp [ih]

theorem EnemyManager.splash_loop_events (sqrt : ℚ → ℚ) (pos : Vector2) (d r : ℚ) :
    ∀ (l : List Enemy) (k j : Nat),
      (EnemyManager.splash_loop sqrt pos d r l k).2.countP (CollisionEvent.is_hit_of j) = 0 := by
  intro l
  induction l with
  | nil => intro k j; rfl
  | cons e rest ih =>
    intro k j
    simp only [EnemyManager.splash_loop]
    split_ifs <;> simp [ih, CollisionEvent.is_hit_of]

/-- The bullet part of `on_collide` is never collidable. -/
theorem Bullet.on_collide_not_collidable (b : Bullet) (enemy : Enemy) :
    (b.on_collide enemy).1.can_collide = false := by
  unfold Bullet.on_collide
  cases b.kind <;> rfl

theorem EnemyManager.apply_damage_spec (sqrt : ℚ → ℚ) (i j : Nat) (enemy : Enemy)
    (bullet : Bullet) (s : CollisionPass) :
    (EnemyManager.apply_damage sqrt i j enemy bullet s).bullet_list = s.bullet_list ∧
    (EnemyManager.apply_damage sqrt i j enemy bullet s).enemy_list.length =
      s.enemy_list.length ∧
    ∀ j2, (EnemyManager.apply_damage sqrt i j enemy bullet s).hit_count j2 =
      s.hit_count j2 + if j = j2 then 1 else 0 := by
  unfold EnemyManager.apply_damage
  by_cases hneg : bullet.get_damage_range < 0
  · rw [if_pos hneg]
    refine ⟨rfl, by simp, ?_⟩
    intro j2
    simp only [CollisionPass.hit_count, List.countP_append, List.countP_cons]
    by_cases hr : (enemy.decrease_hp bullet.get_damage).can_remove = true
    · by_cases hj : j = j2 <;> simp [hr, hj, CollisionEvent.is_hit_of]
    · by_cases hj : j = j2 <;> simp [hr, hj, CollisionEvent.is_hit_of]
  · rw [if_neg hneg]
    refine ⟨rfl, EnemyManager.splash_loop_length _ _ _ _ _ _, ?_⟩
    intro j2
    simp only [CollisionPass.hit_count, List.countP_append, List.countP_cons,
      EnemyManager.splash_loop_events]
    by_cases hj : j = j2 <;> simp [hj, CollisionEvent.is_hit_of]

theorem EnemyManager.apply_on_collide_spec (i j : Nat) (bullet : Bullet) (s : CollisionPass)
    (hi : i < s.enemy_list.length) :
    ∃ b2, b2.can_collide = false ∧
      (EnemyManager.apply_on_collide i j bullet s).bullet_list = s.bullet_list.set j b2 ∧
      (EnemyManager.apply_on_collide i j bullet s).enemy_list.length = s.enemy_list.length ∧
      (EnemyManager.apply_on_collide i j bullet s).events = s.events := by
  unfold EnemyManager.apply_on_collide
  rw [List.get?_eq_get hi]
  exact ⟨_, Bullet.on_collide_not_collidable bullet _, rfl, by simp, rfl⟩

/-- One step of the inner loop either changes nothing, or handles a hit of a
collidable bullet: the bullet at place `j` is replaced by a non-collidable one,
the other bullets stay, and exactly one hit event, of bullet `j`, is added. -/
theorem EnemyManager.collide_cases (sqrt : ℚ → ℚ) (i : Nat) (s : CollisionPass) (j : Nat) :
    EnemyManager.collide sqrt i s j = s ∨
    (∃ b b2, s.bullet_list.get? j = some b ∧ b.can_collide = true ∧
      b2.can_collide = false ∧
      (EnemyManager.collide sqrt i s j).bullet_list = s.bullet_list.set j b2 ∧
      (EnemyManager.collide sqrt i s j).enemy_list.length = s.enemy_list.length ∧
      ∀ j2, (EnemyManager.collide sqrt i s j).hit_count j2 =
        s.hit_count j2 + if j = j2 then 1 else 0) := by
  unfold EnemyManager.collide
  cases he : s.enemy_list.get? i with
  | none => left; rfl
  | some enemy =>
    cases hb : s.bullet_list.get? j with
    | none => left; rfl
    | some bullet =>
      dsimp only
      by_cases hc : bullet.can_collide = true
      · simp only [hc, Bool.not_true, Bool.false_eq_true, if_false]
        by_cases hbox : EnemyManager.box_test enemy bullet = true
        · rw [if_pos hbox]
          right
          have hi : i < s.enemy_list.length := by
            by_contra hcon
            rw [List.get?_eq_none.mpr (not_lt.mp hcon)] at he
            exact absurd he (by simp)
          obtain ⟨hd1, hd2, hd3⟩ := EnemyManager.apply_damage_spec sqrt i j enemy bullet s
          obtain ⟨b2, hb2, hc1, hc2, hc3⟩ := EnemyManager.apply_on_collide_spec i j bullet
            (EnemyManager.apply_damage sqrt i j enemy bullet s) (by rw [hd2]; exact hi)
          refine ⟨bullet, b2, rfl, hc, hb2, by rw [hc1, hd1], by rw [hc2, hd2], ?_⟩
          intro j2
          rw [← hd3 j2]
          simp only [CollisionPass.hit_count, hc3]
        · rw [if_neg hbox]
          left; rfl
      · left
        simp [hc]

theorem CollisionPass.foldl_preserves {ι : Type} (P : CollisionPass → Prop)
    (f : CollisionPass → ι → CollisionPass) (hstep : ∀ s x, P s → P (f s x)) :
    ∀ (l : List ι) (s : CollisionPass), P s → P (l.foldl f s) := by
  intro l
  induction l with
  | nil => intro s hs; exact hs
  | cons x rest ih => intro s hs; exact ih _ (hstep s x hs)

/-- A property of the pass state that every step of the inner loop keeps is
kept by the whole pass. -/
theorem EnemyManager.pass_preserves (sqrt : ℚ → ℚ) (P : CollisionPass → Prop)
    (hstep : ∀ i s j, P s → P (EnemyManager.collide sqrt i s j))
    (enemy_list : List Enemy) (bullet_list : List Bullet)
    (h0 : P { enemy_list := enemy_list, bullet_list := bullet_list, events := [] }) :
    P (EnemyManager.process_bullet_collision sqrt enemy_list bullet_list) := by
  unfold EnemyManager.process_bullet_collision
  apply CollisionPass.foldl_preserves P _ _ _ _ h0
  intro s i hs
  unfold EnemyManager.collide_enemy
  cases s.enemy_list.get? i with
  | none => exact hs
  | some enemy =>
    dsimp only
    split_ifs
    · exact hs
    · exact CollisionPass.foldl_preserves P _ (hstep i) _ _ hs

/-- During a pass every bullet has had no hit, or one hit after which it is
not collidable. -/
theorem EnemyManager.pass_hit_invariant (sqrt : ℚ → ℚ) (enemy_list : List Enemy)
    (bullet_list : List Bullet) :
    ∀ j, (EnemyManager.process_bullet_collision sqrt enemy_list bullet_list).hit_count j = 0 ∨
      ((EnemyManager.process_bullet_collision sqrt enemy_list bullet_list).hit_count j = 1 ∧
        ∀ b, (EnemyManager.process_bullet_collision sqrt enemy_list
          bullet_list).bullet_list.get? j = some b → b.can_collide = false) := by
  apply EnemyManager.pass_preserves sqrt
    (fun s => ∀ j, s.hit_count j = 0 ∨
      (s.hit_count j = 1 ∧ ∀ b, s.bullet_list.get? j = some b → b.can_collide = false))
  · intro i s j hs j2
    rcases EnemyManager.collide_cases sqrt i s j with h | ⟨b, b2, hb, hc, hb2, hbl, _, hcount⟩
    · rw [h]; exact hs j2
    · rw [hcount j2, hbl]
      by_cases hj : j = j2
      · subst hj
        rcases hs j with h0 | ⟨_, hnc⟩
        · right
          refine ⟨by simp [h0], ?_⟩
          intro b3 hb3
          have hlt : j < s.bullet_list.length := by
            by_contra hcon
            rw [List.get?_eq_none.mpr (not_lt.mp hcon)] at hb
            exact absurd hb (by simp)
          rw [List.get?_eq_getElem?, List.getElem?_set_self hlt] at hb3
          cases hb3
          exact hb2
        · have := hnc b hb
          rw [hc] at this
          exact absurd this (by simp)
      · simp only [hj, if_false, Nat.add_zero]
        rcases hs j2 with h0 | ⟨h1, hnc⟩
        · left; exact h0
        · right
          refine ⟨h1, ?_⟩
          intro b3 hb3
          rw [List.get?_eq_getElem?, List.getElem?_set_ne hj] at hb3
          exact hnc b3 (by rw [List.get?_eq_getElem?]; exact hb3)
  · intro j
    left
    rfl

theorem EnemyManager.pass_hit_count_le_one (sqrt : ℚ → ℚ) (enemy_list : List Enemy)
    (bullet_list : List Bullet) (j : Nat) :
    (EnemyManager.process_bullet_collision sqrt enemy_list bullet_list).hit_count j ≤ 1 := by
  rcases EnemyManager.pass_hit_invariant sqrt enemy_list bullet_list j with h | ⟨h, _⟩
  · rw [h]; simp
  · rw [h]

/-- A bullet that is not collidable when the pass starts is left as it is and
gets no hit event. -/
theorem EnemyManager.pass_skips_resolving (sqrt : ℚ → ℚ) (enemy_list : List Enemy)
    (bullet_list : List Bullet) (j : Nat) (b : Bullet) (hb : bullet_list.get? j = some b)
    (hc : b.can_collide = false) :
    (EnemyManager.process_bullet_collision sqrt enemy_list bullet_list).bullet_list.get? j =
        some b ∧
      (EnemyManager.process_bullet_collision sqrt enemy_list bullet_list).hit_count j = 0 := by
  apply EnemyManager.pass_preserves sqrt
    (fun s => s.bullet_list.get? j = some b ∧ s.hit_count j = 0)
  · intro i s j1 hs
    rcases EnemyManager.collide_cases sqrt i s j1 with h | ⟨b1, b2, hb1, hc1, _, hbl, _, hcount⟩
    · rw [h]; exact hs
    · have hne : j1 ≠ j := by
        intro heq
        subst heq
        rw [hs.1] at hb1
        cases hb1
        rw [hc] at hc1
        exact absurd hc1 (by simp)
      rw [hcount j, hbl]
      refine ⟨?_, by simp [hne, hs.2]⟩
      rw [List.get?_eq_getElem?, List.getElem?_set_ne hne, ← List.get?_eq_getElem?]
      exact hs.1
  · exact ⟨hb, rfl⟩

theorem Bullet.base_on_update_collidable (rect_map : SDL_Rect) (b : Bullet) (delta : ℚ) :
    (Bullet.base_on_update rect_map b delta).is_collisionable = b.is_collisionable := by
  unfold Bullet.base_on_update
  dsimp only
  split_ifs <;> rfl

/-- No call on a bullet makes a non-collidable bullet collidable. -/
theorem Bullet.call_not_collidable (b : Bullet) (c : BulletCall)
    (h : b.can_collide = false) : (b.call c).can_collide = false := by
  unfold Bullet.can_collide at h ⊢
  cases c with
  | set_velocity_and_rotation v => exact h
  | set_position p => exact h
  | set_damage d => exact h
  | disable_collide => rfl
  | make_invalid => rfl
  | on_update rect_map delta =>
    simp only [Bullet.call, Bullet.on_update]
    cases b.kind with
    | Shell =>
      dsimp only
      simp only [Bullet.can_collide, h, Bool.false_eq_true, if_false]
      split_ifs <;> rfl
    | Arrow => dsimp only; rw [Bullet.base_on_update_collidable]; exact h
    | Axe => dsimp only; rw [Bullet.base_on_update_collidable]; exact h
  | on_collide enemy => exact Bullet.on_collide_not_collidable b enemy

/-- C13, as stated, fails: there is no configuration (of square-root function,
enemies and bullets) in which a pass of
`EnemyManager::process_bullet_collision` handles more than one hit of the same
bullet. -/
theorem bullet_multi_hit_counterexample :
    ¬ ∃ (sqrt : ℚ → ℚ) (enemy_list : List Enemy) (bullet_list : List Bullet) (j : Nat),
      1 < (EnemyManager.process_bullet_collision sqrt enemy_list bullet_list).hit_count j := by
  rintro ⟨sqrt, enemy_list, bullet_list, j, h⟩
  have := EnemyManager.pass_hit_count_le_one sqrt enemy_list bullet_list j
  omega

/-- C13 (amended): in every configuration, also when the centre of a bullet
lies inside the bounding boxes of several live enemies, a pass of
`EnemyManager::process_bullet_collision` handles at most one hit of that
bullet, and a bullet that was hit is not collidable afterwards; an arrow whose
centre lies in the boxes of two live enemies hits only the first of them. -/
theorem bullet_single_hit_per_pass :
    (∀ (sqrt : ℚ → ℚ) (enemy_list : List Enemy) (bullet_list : List Bullet) (j : Nat),
      (EnemyManager.process_bullet_collision sqrt enemy_list bullet_list).hit_count j ≤ 1 ∧
      ((EnemyManager.process_bullet_collision sqrt enemy_list bullet_list).hit_count j = 1 →
        ∀ b, (EnemyManager.process_bullet_collision sqrt enemy_list
          bullet_list).bullet_list.get? j = some b → b.can_collide = false)) ∧
    (EnemyManager.process_bullet_collision Rat.sqrt
        [{ hp := 100, size := { x := 48, y := 48 } },
         { hp := 100, size := { x := 48, y := 48 }, position := { x := 3, y := 4 } }]
        [{ Bullet.ArrowBullet with damage := 25 }]).events = [CollisionEvent.hit 0 0] := by
  constructor
  · intro sqrt enemy_list bullet_list j
    refine ⟨EnemyManager.pass_hit_count_le_one sqrt enemy_list bullet_list j, ?_⟩
    intro h1
    rcases EnemyManager.pass_hit_invariant sqrt enemy_list bullet_list j with h | ⟨_, h⟩
    · rw [h] at h1
      exact absurd h1 (by simp)
    · exact h
  · decide!

/-- C14: handling a hit leaves an arrow or axe bullet invalid and
non-collidable and a shell bullet non-collidable with its validity unchanged
(still valid, resolving); no call on a bullet turns the collidable flag from
false back to true; a bullet that is non-collidable when a collision pass
starts is skipped by the pass: it is unchanged and no hit is handled for it. -/
theorem bullet_collidable_never_restored :
    (∀ (b : Bullet) (enemy : Enemy), b.kind = BulletType.Arrow ∨ b.kind = BulletType.Axe →
      (b.on_collide enemy).1.can_remove = true ∧ (b.on_collide enemy).1.can_collide = false) ∧
    (∀ (b : Bullet) (enemy : Enemy), b.kind = BulletType.Shell →
      (b.on_collide enemy).1.can_collide = false ∧
      (b.on_collide enemy).1.can_remove = b.can_remove) ∧
    (∀ (b : Bullet) (calls : List BulletCall), b.can_collide = false →
      (calls.foldl Bullet.call b).can_collide = false) ∧
    (∀ (sqrt : ℚ → ℚ) (enemy_list : List Enemy) (bullet_list : List Bullet) (j : Nat)
      (b : Bullet), bullet_list.get? j = some b → b.can_collide = false →
      (EnemyManager.process_bullet_collision sqrt enemy_list bullet_list).bullet_list.get? j =
        some b ∧
      (EnemyManager.process_bullet_collision sqrt enemy_list bullet_list).hit_count j = 0) := by
  refine ⟨?_, ?_, ?_, ?_⟩
  · intro b enemy hk
    rcases hk with hk | hk <;> simp [Bullet.on_collide, hk, Bullet.base_on_collide,
      Bullet.can_remove, Bullet.can_collide]
  · intro b enemy hk
    simp [Bullet.on_collide, hk, Bullet.disable_collide, Bullet.can_remove, Bullet.can_collide]
  · intro b calls
    induction calls generalizing b with
    | nil => intro h; exact h
    | cons c cs ih =>
      intro h
      exact ih (b.call c) (Bullet.call_not_collidable b c h)
  · intro sqrt enemy_list bullet_list j b hb hc
    exact EnemyManager.pass_skips_resolving sqrt enemy_list bullet_list j b hb hc

theorem bullet_collidable_never_restored_witness :
    ((Bullet.on_collide Bullet.ShellBullet {}).1.can_collide = false ∧
      (Bullet.on_collide Bullet.ShellBullet {}).1.can_remove = Bullet.ShellBullet.can_remove) ∧
    (([BulletCall.on_update {} 1, BulletCall.set_damage 3].foldl Bullet.call
      (Bullet.on_collide Bullet.ShellBullet {}).1).can_collide = false) :=
  ⟨bullet_collidable_never_restored.2.1 Bullet.ShellBullet {} rfl,
    bullet_collidable_never_restored.2.2.1 (Bullet.on_collide Bullet.ShellBullet {}).1
      [BulletCall.on_update {} 1, BulletCall.set_damage 3] rfl⟩

/-- C15 (the code at the failing inputs): the pass rolls for a coin twice for
one enemy killed by the first of two arrows that both lie in its box, and it
rolls for an enemy that was already invalid before a shell's splash damage
reached it and whose hp the damage does not bring to 0. -/
theorem coin_roll_for_already_dead_enemy :
    (EnemyManager.process_bullet_collision Rat.sqrt
        [{ hp := 10, size := { x := 48, y := 48 } }]
        [{ Bullet.ArrowBullet with damage := 25 },
         { Bullet.ArrowBullet with damage := 25, position := { x := 1, y := 1 } }]).events =
      [CollisionEvent.hit 0 0, CollisionEvent.coin_roll 0,
        CollisionEvent.hit 1 0, CollisionEvent.coin_roll 0] ∧
    (EnemyManager.process_bullet_collision Rat.sqrt
        [{ hp := 100, size := { x := 48, y := 48 } },
         { hp := 50, size := { x := 48, y := 48 }, position := { x := 3, y := 4 },
           is_valid := false }]
        [{ Bullet.ShellBullet with damage := 25 }]).events =
      [CollisionEvent.hit 0 0, CollisionEvent.coin_roll 1] ∧
    (EnemyManager.process_bullet_collision Rat.sqrt
        [{ hp := 100, size := { x := 48, y := 48 } },
         { hp := 50, size := { x := 48, y := 48 }, position := { x := 3, y := 4 },
           is_valid := false }]
        [{ Bullet.ShellBullet with damage := 25 }]).enemy_list.map Enemy.get_hp = [75, 25] := by
  decide!

/-- With no collidable bullet a step of the inner loop changes nothing. -/
theorem EnemyManager.collide_idle (sqrt : ℚ → ℚ) (i : Nat) (s : CollisionPass) (j : Nat)
    (h : ∀ b ∈ s.bullet_list, b.can_collide = false) : EnemyManager.collide sqrt i s j = s := by
  rcases EnemyManager.collide_cases sqrt i s j with h1 | ⟨b, _, hb, hc, _⟩
  · exact h1
  · have := h b (List.get?_mem hb)
    rw [hc] at this
    exact absurd this (by simp)

theorem EnemyManager.collide_enemy_idle (sqrt : ℚ → ℚ) (s : CollisionPass) (i : Nat)
    (h : ∀ b ∈ s.bullet_list, b.can_collide = false) :
    EnemyManager.collide_enemy sqrt s i = s := by
  unfold EnemyManager.collide_enemy
  cases s.enemy_list.get? i with
  | none => rfl
  | some enemy =>
    dsimp only
    split_ifs
    · rfl
    · exact CollisionPass.foldl_preserves (fun t => t = s) _
        (fun t j ht => by rw [ht]; exact EnemyManager.collide_idle sqrt i s j h) _ s rfl

theorem EnemyManager.pass_idle (sqrt : ℚ → ℚ) (s : CollisionPass) (l : List Nat)
    (h : ∀ b ∈ s.bullet_list, b.can_collide = false) :
    l.foldl (EnemyManager.collide_enemy sqrt) s = s :=
  CollisionPass.foldl_preserves (fun t => t = s) _
    (fun t i ht => by rw [ht]; exact EnemyManager.collide_enemy_idle sqrt s i h) _ s rfl

/-- With a single collidable bullet, the outer loop body for a live enemy whose
box holds the bullet's centre handles the hit; for any other enemy it changes
nothing. -/
theorem EnemyManager.collide_enemy_single (sqrt : ℚ → ℚ) (s : CollisionPass) (i : Nat)
    (bullet : Bullet) (hb : s.bullet_list = [bullet]) (hc : bullet.can_collide = true) :
    (∃ enemy, s.enemy_list.get? i = some enemy ∧ enemy.can_remove = false ∧
      EnemyManager.box_test enemy bullet = true ∧
      EnemyManager.collide_enemy sqrt s i =
        EnemyManager.apply_on_collide i 0 bullet
          (EnemyManager.apply_damage sqrt i 0 enemy bullet s)) ∨
    ((∀ enemy, s.enemy_list.get? i = some enemy →
        ¬ (enemy.can_remove = false ∧ EnemyManager.box_test enemy bullet = true)) ∧
      EnemyManager.collide_enemy sqrt s i = s) := by
  unfold EnemyManager.collide_enemy
  cases he : s.enemy_list.get? i with
  | none => right; exact ⟨by intro e h; exact absurd h (by simp), rfl⟩
  | some enemy =>
    dsimp only
    by_cases hr : enemy.can_remove = true
    · right
      rw [if_pos hr]
      refine ⟨?_, rfl⟩
      intro e h
      cases h
      simp [hr]
    · rw [if_neg hr]
      have hfold : (List.range s.bullet_list.length).foldl (EnemyManager.collide sqrt i) s =
          EnemyManager.collide sqrt i s 0 := by
        rw [hb]
        rfl
      rw [hfold]
      unfold EnemyManager.collide
      rw [he, hb]
      simp only [List.get?_cons_zero, hc, Bool.not_true, Bool.false_eq_true, if_false]
      by_cases hbox : EnemyManager.box_test enemy bullet = true
      · left
        rw [if_pos hbox]
        exact ⟨enemy, rfl, by simpa using hr, hbox, rfl⟩
      · right
        rw [if_neg hbox]
        refine ⟨?_, rfl⟩
        intro e h
        cases h
        simp [hbox]

/-- With a single collidable bullet whose centre lies in the box of a live
enemy among the places `l`, the outer loop over `l` handles exactly one hit. -/
theorem EnemyManager.pass_single (sqrt : ℚ → ℚ) (bullet : Bullet)
    (hc : bullet.can_collide = true) :
    ∀ (l : List Nat) (s : CollisionPass), s.bullet_list = [bullet] →
      (∃ i ∈ l, ∃ enemy, s.enemy_list.get? i = some enemy ∧ enemy.can_remove = false ∧
        EnemyManager.box_test enemy bullet = true) →
      ∃ i enemy, s.enemy_list.get? i = some enemy ∧ enemy.can_remove = false ∧
        EnemyManager.box_test enemy bullet = true ∧
        l.foldl (EnemyManager.collide_enemy sqrt) s =
          EnemyManager.apply_on_collide i 0 bullet
            (EnemyManager.apply_damage sqrt i 0 enemy bullet s) := by
  intro l
  induction l with
  | nil =>
    intro s _ hex
    obtain ⟨i, hi, _⟩ := hex
    simp at hi
  | cons i rest ih =>
    intro s hb hex
    rcases EnemyManager.collide_enemy_single sqrt s i bullet hb hc with
      ⟨enemy, he, hlive, hbox, hstep⟩ | ⟨hnot, hstep⟩
    · refine ⟨i, enemy, he, hlive, hbox, ?_⟩
      rw [List.foldl_cons, hstep]
      apply EnemyManager.pass_idle
      have hi : i < s.enemy_list.length := by
        by_contra hcon
        rw [List.get?_eq_none.mpr (not_lt.mp hcon)] at he
        exact absurd he (by simp)
      obtain ⟨hd1, hd2, _⟩ := EnemyManager.apply_damage_spec sqrt i 0 enemy bullet s
      obtain ⟨b2, hb2, hc1, _, _⟩ := EnemyManager.apply_on_collide_spec i 0 bullet
        (EnemyManager.apply_damage sqrt i 0 enemy bullet s) (by rw [hd2]; exact hi)
      rw [hc1, hd1, hb]
      intro b hmem
      simp only [List.set_cons_zero, List.mem_singleton] at hmem
      rw [hmem]
      exact hb2
    · rw [List.foldl_cons, hstep]
      apply ih s hb
      obtain ⟨k, hk, enemy, he, hlive, hbox⟩ := hex
      rcases List.mem_cons.mp hk with h1 | h1
      · subst h1
        exact absurd ⟨hlive, hbox⟩ (hnot enemy he)
      · exact ⟨k, h1, enemy, he, hlive, hbox⟩

theorem EnemyManager.splash_loop_map (sqrt : ℚ → ℚ) (pos : Vector2) (d r : ℚ) :
    ∀ (l : List Enemy) (k : Nat),
      (EnemyManager.splash_loop sqrt pos d r l k).1 =
        l.map fun e =>
          if (e.get_position.sub pos).length sqrt ≤ r then e.decrease_hp d else e := by
  intro l
  induction l with
  | nil => intro k; rfl
  | cons e rest ih =>
    intro k
    simp only [EnemyManager.splash_loop, List.map_cons]
    split_ifs <;> simp [ih]

theorem Enemy.decrease_hp_hp (e : Enemy) (d : ℚ) :
    (e.decrease_hp d).get_hp = max 0 (e.hp - d) := by
  unfold Enemy.decrease_hp Enemy.get_hp
  dsimp only
  by_cases h : e.hp - d ≤ 0
  · rw [if_pos h]
    exact (max_eq_left h).symm
  · rw [if_neg h]
    exact (max_eq_right (le_of_lt (not_le.mp h))).symm

theorem Bullet.on_collide_hp (b : Bullet) (enemy : Enemy) :
    (b.on_collide enemy).2.get_hp = enemy.get_hp := by
  unfold Bullet.on_collide
  cases b.kind <;> rfl

theorem EnemyManager.apply_on_collide_hp (i j : Nat) (bullet : Bullet) (s : CollisionPass) :
    (EnemyManager.apply_on_collide i j bullet s).enemy_list.map Enemy.get_hp =
      s.enemy_list.map Enemy.get_hp := by
  unfold EnemyManager.apply_on_collide
  cases he : s.enemy_list.get? i with
  | none => rfl
  | some enemy =>
    dsimp only
    apply List.ext_get?
    intro n
    simp only [List.get?_eq_getElem?, List.getElem?_map, List.getElem?_set]
    by_cases hn : i = n
    · subst hn
      rw [List.get?_eq_getElem?] at he
      by_cases hlt : i < s.enemy_list.length
      · simp [hlt, he, Bullet.on_collide_hp]
      · rw [List.getElem?_eq_none (not_lt.mp hlt)] at he
        exact absurd he (by simp)
    · simp [hn]

/-- The hp of the enemies after a pass with one collidable splash bullet that
hits a live enemy. -/
theorem EnemyManager.pass_splash_hp (sqrt : ℚ → ℚ) (enemy_list : List Enemy) (bullet : Bullet)
    (hc : bullet.can_collide = true) (hr : 0 ≤ bullet.get_damage_range)
    (hex : ∃ enemy ∈ enemy_list, enemy.can_remove = false ∧
      EnemyManager.box_test enemy bullet = true) :
    (EnemyManager.process_bullet_collision sqrt enemy_list [bullet]).enemy_list.map
        Enemy.get_hp =
      enemy_list.map fun e =>
        if (e.get_position.sub bullet.get_position).length sqrt ≤ bullet.get_damage_range then
          max 0 (e.get_hp - bullet.get_damage)
        else e.get_hp := by
  obtain ⟨enemy0, hmem, hlive0, hbox0⟩ := hex
  obtain ⟨n, hn⟩ := List.mem_iff_get?.mp hmem
  have hlt : n < enemy_list.length := by
    by_contra hcon
    rw [List.get?_eq_none.mpr (not_lt.mp hcon)] at hn
    exact absurd hn (by simp)
  obtain ⟨i, enemy, _, _, _, hpass⟩ := EnemyManager.pass_single sqrt bullet hc
    (List.range enemy_list.length)
    { enemy_list := enemy_list, bullet_list := [bullet], events := [] } rfl
    ⟨n, List.mem_range.mpr hlt, enemy0, hn, hlive0, hbox0⟩
  unfold EnemyManager.process_bullet_collision
  rw [hpass, EnemyManager.apply_on_collide_hp]
  unfold EnemyManager.apply_damage
  rw [if_neg (not_lt.mpr hr)]
  simp only [EnemyManager.splash_loop_map, List.map_map]
  apply List.map_congr_left
  intro e _
  simp only [Function.comp]
  split_ifs
  · exact Enemy.decrease_hp_hp e _
  · rfl

/-- C12: in a collision pass with one collidable splash bullet (damage `d`,
damage radius `r >= 0`) whose centre lies inside the bounding box of a live
enemy, every enemy within distance `r` of the bullet has its hp reduced by `d`
and clamped at 0, and every enemy farther away keeps its hp; with `r = 96`,
`d = 25`, two enemies of at least 25 hp within 96 and a third at distance 150,
exactly the first two lose 25. -/
theorem splash_damage_within_radius :
    (∀ (sqrt : ℚ → ℚ) (enemy_list : List Enemy) (bullet : Bullet),
      bullet.can_collide = true → 0 ≤ bullet.get_damage_range →
      (∃ enemy ∈ enemy_list, enemy.can_remove = false ∧
        EnemyManager.box_test enemy bullet = true) →
      (EnemyManager.process_bullet_collision sqrt enemy_list [bullet]).enemy_list.map
          Enemy.get_hp =
        enemy_list.map fun e =>
          if (e.get_position.sub bullet.get_position).length sqrt ≤ bullet.get_damage_range then
            max 0 (e.get_hp - bullet.get_damage)
          else e.get_hp) ∧
    (∀ (sqrt : ℚ → ℚ) (e1 e2 e3 : Enemy) (bullet : Bullet),
      bullet.can_collide = true → bullet.get_damage_range = 96 → bullet.get_damage = 25 →
      (∃ enemy ∈ [e1, e2, e3], enemy.can_remove = false ∧
        EnemyManager.box_test enemy bullet = true) →
      (e1.get_position.sub bullet.get_position).length sqrt ≤ 96 →
      (e2.get_position.sub bullet.get_position).length sqrt ≤ 96 →
      (e3.get_position.sub bullet.get_position).length sqrt = 150 →
      25 ≤ e1.get_hp → 25 ≤ e2.get_hp →
      (EnemyManager.process_bullet_collision sqrt [e1, e2, e3] [bullet]).enemy_list.map
          Enemy.get_hp =
        [e1.get_hp - 25, e2.get_hp - 25, e3.get_hp]) := by
  refine ⟨EnemyManager.pass_splash_hp, ?_⟩
  intro sqrt e1 e2 e3 bullet hc hr hd hex h1 h2 h3 hp1 hp2
  rw [EnemyManager.pass_splash_hp sqrt [e1, e2, e3] bullet hc (by rw [hr]; norm_num) hex]
  simp only [List.map_cons, List.map_nil, hr, hd, h1, h2, h3, if_true]
  have h150 : ¬ ((150 : ℚ) ≤ 96) := by norm_num
  rw [if_neg h150, max_eq_right (by linarith), max_eq_right (by linarith)]

theorem splash_damage_within_radius_witness :
    (EnemyManager.process_bullet_collision Rat.sqrt
        [EnemyManager.sample_struck, EnemyManager.sample_near, EnemyManager.sample_far]
        [EnemyManager.sample_shell]).enemy_list.map Enemy.get_hp =
      [EnemyManager.sample_struck.get_hp - 25, EnemyManager.sample_near.get_hp - 25,
        EnemyManager.sample_far.get_hp] :=
  splash_damage_within_radius.2 Rat.sqrt EnemyManager.sample_struck EnemyManager.sample_near
    EnemyManager.sample_far EnemyManager.sample_shell
    rfl rfl rfl
    ⟨EnemyManager.sample_struck, by simp, rfl, by decide!⟩
    (by
      simp only [Vector2.length, Vector2.sub, Enemy.get_position, Bullet.get_position,
        EnemyManager.sample_struck, EnemyManager.sample_shell, Bullet.ShellBullet]
      norm_num)
    (by
      simp only [Vector2.length, Vector2.sub, Enemy.get_position, Bullet.get_position,
        EnemyManager.sample_near, EnemyManager.sample_shell, Bullet.ShellBullet]
      norm_num)
    (by
      simp only [Vector2.length, Vector2.sub, Enemy.get_position, Bullet.get_position,
        EnemyManager.sample_far, EnemyManager.sample_shell, Bullet.ShellBullet]
      norm_num)
    (by simp only [Enemy.get_hp, EnemyManager.sample_struck]; norm_num)
    (by simp only [Enemy.get_hp, EnemyManager.sample_near]; norm_num)

/-! ## The recovery skill -/

theorem Enemy.increase_hp_eq (e : Enemy) (val : ℚ) :
    e.increase_hp val = { e with hp := min e.max_hp (e.hp + val) } := by
  unfold Enemy.increase_hp
  dsimp only
  by_cases h : e.hp + val > e.max_hp
  · rw [if_pos h, min_eq_left (le_of_lt h)]
  · rw [if_neg h, min_eq_right (not_lt.mp h)]

/-- C16: when the skill callback fires for an enemy `e` with recovery radius
`R = SIZE_TILE * recover_range`: if `R >= 0`, every enemy of the registry
within distance `R` of `e` gets hp `min(max_hp, hp + e's recover_intensity)` and
every other enemy is unchanged, and `e` itself, being at distance `sqrt 0 = 0`,
is among the healed; if `R < 0` no enemy changes. -/
theorem enemy_skill_heals_within_radius :
    (∀ (sqrt : ℚ → ℚ) (enemy_list : List Enemy) (e : Enemy), 0 ≤ e.get_recover_radius →
      EnemyManager.skill_released sqrt enemy_list e =
        enemy_list.map fun dst =>
          if (dst.get_position.sub e.get_position).length sqrt ≤ e.get_recover_radius then
            { dst with hp := min dst.max_hp (dst.hp + e.get_recover_intensity) }
          else dst) ∧
    (∀ (sqrt : ℚ → ℚ) (enemy_list : List Enemy) (e : Enemy) (k : Nat), sqrt 0 = 0 →
      0 ≤ e.get_recover_radius → enemy_list.get? k = some e →
      (EnemyManager.skill_released sqrt enemy_list e).get? k =
        some { e with hp := min e.max_hp (e.hp + e.get_recover_intensity) }) ∧
    (∀ (sqrt : ℚ → ℚ) (enemy_list : List Enemy) (e : Enemy), e.get_recover_radius < 0 →
      EnemyManager.skill_released sqrt enemy_list e = enemy_list) := by
  have key : ∀ (sqrt : ℚ → ℚ) (enemy_list : List Enemy) (e : Enemy), 0 ≤ e.get_recover_radius →
      EnemyManager.skill_released sqrt enemy_list e =
        enemy_list.map fun dst =>
          if (dst.get_position.sub e.get_position).length sqrt ≤ e.get_recover_radius then
            { dst with hp := min dst.max_hp (dst.hp + e.get_recover_intensity) }
          else dst := by
    intro sqrt enemy_list e hR
    unfold EnemyManager.skill_released
    dsimp only
    rw [if_neg (not_lt.mpr hR)]
    apply List.map_congr_left
    intro dst _
    split_ifs
    · exact Enemy.increase_hp_eq dst _
    · rfl
  refine ⟨key, ?_, ?_⟩
  · intro sqrt enemy_list e k h0 hR hk
    rw [key sqrt enemy_list e hR, List.get?_eq_getElem?, List.getElem?_map,
      ← List.get?_eq_getElem?, hk]
    have hd : (e.get_position.sub e.get_position).length sqrt = 0 := by
      simp [Vector2.length, Vector2.sub, h0]
    simp [hd, hR]
  · intro sqrt enemy_list e hR
    unfold EnemyManager.skill_released
    dsimp only
    rw [if_pos hR]

theorem enemy_skill_heals_within_radius_witness :
    (EnemyManager.skill_released Rat.sqrt
        [EnemyManager.sample_priest, EnemyManager.sample_far] EnemyManager.sample_priest).get? 0 =
      some { EnemyManager.sample_priest with
        hp := min EnemyManager.sample_priest.max_hp
          (EnemyManager.sample_priest.hp + EnemyManager.sample_priest.get_recover_intensity) } ∧
    EnemyManager.skill_released Rat.sqrt [EnemyManager.sample_priest, EnemyManager.sample_far]
        { EnemyManager.sample_priest with recover_range := -1 } =
      [EnemyManager.sample_priest, EnemyManager.sample_far] :=
  ⟨enemy_skill_heals_within_radius.2.1 Rat.sqrt
      [EnemyManager.sample_priest, EnemyManager.sample_far] EnemyManager.sample_priest 0
      (by decide!) (by decide!) rfl,
    enemy_skill_heals_within_radius.2.2 Rat.sqrt
      [EnemyManager.sample_priest, EnemyManager.sample_far]
      { EnemyManager.sample_priest with recover_range := -1 } (by decide!)⟩

/-! ## Tower fire cooldown -/

/-- One update of a timer whose callback leaves it alone: the wait time stays,
and either the accumulator with `delta` added reached the wait time, or nothing
was invoked and the accumulator had `delta` added or, paused, stayed. -/
theorem Timer.on_update_id (add sub : ℚ → ℚ → ℚ) (t : Timer) (delta : ℚ) :
    (t.on_update_with add sub (some id) delta).1.wait_time = t.wait_time ∧
      (t.wait_time ≤ add t.pass_time delta ∨
        ((t.on_update_with add sub (some id) delta).2 = 0 ∧
          ((t.on_update_with add sub (some id) delta).1.pass_time = add t.pass_time delta ∨
            (t.on_update_with add sub (some id) delta).1.pass_time = t.pass_time))) := by
  unfold Timer.on_update_with
  by_cases hp : t.paused = true
  · simp [hp]
  · rw [if_neg hp]
    dsimp only
    by_cases hw : add t.pass_time delta ≥ t.wait_time
    · rw [if_pos hw]
      refine ⟨?_, Or.inl hw⟩
      split
      · rename_i f _ hf
        cases hf
        rfl
      · rfl
    · rw [if_neg hw]
      exact ⟨rfl, Or.inr ⟨rfl, Or.inl rfl⟩⟩

/-- What `on_fire` returns: without a bullet the tower is unchanged; with a
bullet the tower cannot fire, its timer is restarted, and the wait time of the
timer is the interval of the tower's type at its level. -/
theorem Tower.on_fire_spec (sqrt : ℚ → ℚ) (config : ConfigManager) (enemy_list : List Enemy)
    (tower t2 : Tower) (ob : Option Bullet)
    (h : Tower.on_fire sqrt config enemy_list tower = some (t2, ob)) :
    (ob = none → t2 = tower) ∧
    (∀ b, ob = some b → t2.can_fire = false ∧ t2.timer_fire.pass_time = 0 ∧
      ∃ damage, Tower.fire_stats config t2 = some (t2.timer_fire.wait_time, damage)) := by
  unfold Tower.on_fire at h
  cases hf : Tower.find_target_enemy sqrt config tower enemy_list with
  | none => rw [hf] at h; exact absurd h (by simp)
  | some r =>
    rw [hf] at h
    cases r with
    | none =>
      simp only [Option.some.injEq, Prod.mk.injEq] at h
      refine ⟨fun _ => h.1.symm, ?_⟩
      intro b hb
      rw [← h.2] at hb
      exact absurd hb (by simp)
    | some idx =>
      dsimp only at h
      cases he : enemy_list.get? idx with
      | none => rw [he] at h; exact absurd h (by simp)
      | some target =>
        rw [he] at h
        dsimp only at h
        cases hs : Tower.fire_stats config { tower with can_fire := false } with
        | none => rw [hs] at h; exact absurd h (by simp)
        | some st =>
          obtain ⟨interval, damage⟩ := st
          rw [hs] at h
          simp only [Option.some.injEq, Prod.mk.injEq] at h
          obtain ⟨h1, h2⟩ := h
          refine ⟨?_, ?_⟩
          · intro hn
            rw [← h2] at hn
            exact absurd hn (by simp)
          · intro b _
            rw [← h1]
            refine ⟨rfl, rfl, damage, ?_⟩
            simp only [Timer.restart, Timer.set_wait_time]
            rw [← hs]
            rfl

/-- The cooldown invariant: relative to a wait time `w` armed some calls ago
and the frame time `S` accumulated since, either `S` has reached `w`, or the
tower cannot fire and its timer, armed with `w`, has accumulated at most `S`.
Of the addition only two properties are used: it is monotone in the
accumulator, and adding a non-negative delta does not decrease it. -/
theorem Tower.on_update_cooldown (add sub : ℚ → ℚ → ℚ) (sqrt : ℚ → ℚ) (config : ConfigManager)
    (enemy_list : List Enemy) (tower t2 : Tower) (ob : Option Bullet) (delta w S : ℚ)
    (hmono : ∀ x y d : ℚ, x ≤ y → add x d ≤ add y d)
    (hgrow : ∀ x d : ℚ, 0 ≤ d → x ≤ add x d)
    (hd : 0 ≤ delta)
    (hJ : w ≤ S ∨ (tower.can_fire = false ∧ tower.timer_fire.wait_time = w ∧
      tower.timer_fire.pass_time ≤ S))
    (h : Tower.on_update add sub sqrt config enemy_list tower delta = some (t2, ob)) :
    (∀ b, ob = some b → w ≤ add S delta) ∧
    (w ≤ add S delta ∨ (t2.can_fire = false ∧ t2.timer_fire.wait_time = w ∧
      t2.timer_fire.pass_time ≤ add S delta)) := by
  rcases hJ with hJ | ⟨hcf, hwt, hpt⟩
  · have : w ≤ add S delta := le_trans hJ (hgrow S delta hd)
    exact ⟨fun _ _ => this, Or.inl this⟩
  · obtain ⟨hw1, hcase⟩ := Timer.on_update_id add sub tower.timer_fire delta
    rcases hcase with hreach | ⟨hzero, hpass⟩
    · have : w ≤ add S delta := by
        rw [← hwt]
        exact le_trans hreach (hmono _ _ delta hpt)
      exact ⟨fun _ _ => this, Or.inl this⟩
    · unfold Tower.on_update at h
      simp only [hzero, if_true, hcf, Bool.false_eq_true, if_false, Option.some.injEq,
        Prod.mk.injEq] at h
      obtain ⟨h1, h2⟩ := h
      refine ⟨?_, Or.inr ?_⟩
      · intro b hb
        rw [← h2] at hb
        exact absurd hb (by simp)
      · rw [← h1]
        refine ⟨rfl, by rw [← hwt]; exact hw1, ?_⟩
        show (tower.timer_fire.on_update_with add sub (some id) delta).1.pass_time ≤ add S delta
        rcases hpass with hp | hp <;> rw [hp]
        · exact hmono _ _ delta hpt
        · exact le_trans hpt (hgrow S delta hd)

theorem Tower.run_cons (add sub : ℚ → ℚ → ℚ) (sqrt : ℚ → ℚ) (tower : Tower) (tick : Tower.Tick)
    (rest : List Tower.Tick) (trace : List (Tower × Option Bullet))
    (h : Tower.run add sub sqrt tower (tick :: rest) = some trace) :
    ∃ r tr, Tower.on_update add sub sqrt tick.config tick.enemy_list tower tick.delta = some r ∧
      Tower.run add sub sqrt r.1 rest = some tr ∧ trace = r :: tr := by
  rw [Tower.run] at h
  cases h1 : Tower.on_update add sub sqrt tick.config tick.enemy_list tower tick.delta with
  | none => rw [h1] at h; exact absurd h (by simp)
  | some r =>
    rw [h1] at h
    dsimp only at h
    cases h2 : Tower.run add sub sqrt r.1 rest with
    | none => rw [h2] at h; exact absurd h (by simp)
    | some tr =>
      rw [h2] at h
      simp only [Option.some.injEq] at h
      exact ⟨r, tr, rfl, h2, h.symm⟩

/-- Under the cooldown invariant, a bullet spawned in call `j` of a run comes
after the frame times, added one by one to the time `S` accumulated before the
run, have reached the armed wait time. -/
theorem Tower.run_cooldown (add sub : ℚ → ℚ → ℚ) (sqrt : ℚ → ℚ) (w : ℚ)
    (hmono : ∀ x y d : ℚ, x ≤ y → add x d ≤ add y d)
    (hgrow : ∀ x d : ℚ, 0 ≤ d → x ≤ add x d) :
    ∀ (ticks : List Tower.Tick) (tower : Tower) (S : ℚ)
      (trace : List (Tower × Option Bullet)),
      (∀ tick ∈ ticks, 0 ≤ tick.delta) →
      (w ≤ S ∨ (tower.can_fire = false ∧ tower.timer_fire.wait_time = w ∧
        tower.timer_fire.pass_time ≤ S)) →
      Tower.run add sub sqrt tower ticks = some trace →
      ∀ j tj b, trace.get? j = some (tj, some b) →
        w ≤ ((ticks.take (j + 1)).map Tower.Tick.delta).foldl add S := by
  intro ticks
  induction ticks with
  | nil =>
    intro tower S trace _ _ h j tj b hj
    simp only [Tower.run, Option.some.injEq] at h
    rw [← h] at hj
    exact absurd hj (by simp)
  | cons tick rest ih =>
    intro tower S trace hd hJ h j tj b hj
    obtain ⟨r, tr, h1, h2, h3⟩ := Tower.run_cons add sub sqrt tower tick rest trace h
    obtain ⟨hfire, hJ2⟩ := Tower.on_update_cooldown add sub sqrt tick.config tick.enemy_list tower r.1
      r.2 tick.delta w S hmono hgrow (hd tick (List.mem_cons_self _ _)) hJ h1
    rw [h3] at hj
    cases j with
    | zero =>
      simp only [List.get?_cons_zero, Option.some.injEq] at hj
      have := hfire b (by rw [hj])
      simpa using this
    | succ j2 =>
      simp only [List.get?_cons_succ] at hj
      have := ih r.1 (add S tick.delta) tr (fun t ht => hd t (List.mem_cons_of_mem _ ht)) hJ2 h2
        j2 tj b hj
      simpa only [List.take_succ_cons, List.map_cons, List.foldl_cons] using this

/-- The part of a run after call `i` is the run from the tower after call `i`,
and the entry of call `i` is the result of `on_update` on the tick of call
`i`. -/
theorem Tower.run_drop (add sub : ℚ → ℚ → ℚ) (sqrt : ℚ → ℚ) :
    ∀ (ticks : List Tower.Tick) (tower : Tower) (trace : List (Tower × Option Bullet))
      (i : Nat) (ti : Tower) (oi : Option Bullet),
      Tower.run add sub sqrt tower ticks = some trace → trace.get? i = some (ti, oi) →
      Tower.run add sub sqrt ti (ticks.drop (i + 1)) = some (trace.drop (i + 1)) ∧
      ∃ tick tprev, ticks.get? i = some tick ∧
        Tower.on_update add sub sqrt tick.config tick.enemy_list tprev tick.delta = some (ti, oi) := by
  intro ticks
  induction ticks with
  | nil =>
    intro tower trace i ti oi h hi
    simp only [Tower.run, Option.some.injEq] at h
    rw [← h] at hi
    exact absurd hi (by simp)
  | cons tick rest ih =>
    intro tower trace i ti oi h hi
    obtain ⟨r, tr, h1, h2, h3⟩ := Tower.run_cons add sub sqrt tower tick rest trace h
    rw [h3] at hi ⊢
    cases i with
    | zero =>
      simp only [List.get?_cons_zero, Option.some.injEq] at hi
      rw [hi] at h1 h2
      exact ⟨by simpa using h2, tick, tower, rfl, h1⟩
    | succ i2 =>
      simp only [List.get?_cons_succ] at hi
      obtain ⟨ha, tick2, tprev, hb, hc⟩ := ih r.1 tr i2 ti oi h2 hi
      exact ⟨by simpa using ha, tick2, tprev, by simpa using hb, hc⟩

theorem Tower.run_length (add sub : ℚ → ℚ → ℚ) (sqrt : ℚ → ℚ) :
    ∀ (ticks : List Tower.Tick) (tower : Tower) (trace : List (Tower × Option Bullet)),
      Tower.run add sub sqrt tower ticks = some trace → trace.length = ticks.length := by
  intro ticks
  induction ticks with
  | nil =>
    intro tower trace h
    simp only [Tower.run, Option.some.injEq] at h
    subst h
    rfl
  | cons tick rest ih =>
    intro tower trace h
    obtain ⟨r, tr, _, h2, h3⟩ := Tower.run_cons add sub sqrt tower tick rest trace h
    rw [h3, List.length_cons, List.length_cons, ih r.1 tr h2]

/-- A call that spawns a bullet leaves the cooldown armed. -/
theorem Tower.on_update_fired (add sub : ℚ → ℚ → ℚ) (sqrt : ℚ → ℚ) (config : ConfigManager)
    (enemy_list : List Enemy) (tower t2 : Tower) (b : Bullet) (delta : ℚ)
    (h : Tower.on_update add sub sqrt config enemy_list tower delta = some (t2, some b)) :
    t2.can_fire = false ∧ t2.timer_fire.pass_time = 0 ∧
      ∃ damage, Tower.fire_stats config t2 = some (t2.timer_fire.wait_time, damage) := by
  unfold Tower.on_update at h
  dsimp only at h
  split_ifs at h
  all_goals first
    | exact (Tower.on_fire_spec sqrt config enemy_list _ t2 (some b) h).2 b rfl
    | simp at h

theorem array_at_in_range {n : Nat} (arr : Fin n → ℚ) (level : Int) (h0 : 0 ≤ level)
    (h1 : level < n) : ∃ v, array_at arr level = some v := by
  unfold array_at
  have : 0 ≤ level ∧ level.toNat < n := ⟨h0, by omega⟩
  rw [dif_pos this]
  exact ⟨_, rfl⟩

theorem Tower.view_range_in_range (config : ConfigManager) (tower : Tower)
    (h : config.LevelsInRange) : ∃ v, Tower.view_range config tower = some v := by
  obtain ⟨ha, hx, hg⟩ := h
  unfold Tower.view_range
  cases tower.tower_type
  · exact array_at_in_range _ _ ha.1 (by exact_mod_cast ha.2)
  · exact array_at_in_range _ _ hx.1 (by exact_mod_cast hx.2)
  · exact array_at_in_range _ _ hg.1 (by exact_mod_cast hg.2)

theorem Tower.fire_stats_in_range (config : ConfigManager) (tower : Tower)
    (h : config.LevelsInRange) : ∃ st, Tower.fire_stats config tower = some st := by
  obtain ⟨ha, hx, hg⟩ := h
  unfold Tower.fire_stats
  cases tower.tower_type
  · obtain ⟨v1, h1⟩ := array_at_in_range config.archer_template.interval _ ha.1
      (by exact_mod_cast ha.2)
    obtain ⟨v2, h2⟩ := array_at_in_range config.archer_template.damage _ ha.1
      (by exact_mod_cast ha.2)
    simp only [h1, h2]
    exact ⟨_, rfl⟩
  · obtain ⟨v1, h1⟩ := array_at_in_range config.axeman_template.interval _ hx.1
      (by exact_mod_cast hx.2)
    obtain ⟨v2, h2⟩ := array_at_in_range config.axeman_template.damage _ hx.1
      (by exact_mod_cast hx.2)
    simp only [h1, h2]
    exact ⟨_, rfl⟩
  · obtain ⟨v1, h1⟩ := array_at_in_range config.gunner_template.interval _ hg.1
      (by exact_mod_cast hg.2)
    obtain ⟨v2, h2⟩ := array_at_in_range config.gunner_template.damage _ hg.1
      (by exact_mod_cast hg.2)
    simp only [h1, h2]
    exact ⟨_, rfl⟩

/-- With the levels inside the arrays `on_fire` reads nothing out of range. -/
theorem Tower.on_fire_total (sqrt : ℚ → ℚ) (config : ConfigManager) (enemy_list : List Enemy)
    (tower : Tower) (h : config.LevelsInRange) :
    ∃ r, Tower.on_fire sqrt config enemy_list tower = some r := by
  obtain ⟨vr, hvr⟩ := Tower.view_range_in_range config tower h
  unfold Tower.on_fire Tower.find_target_enemy
  rw [hvr]
  dsimp only
  rcases Tower.scan_spec sqrt tower.position vr enemy_list 0 (-1) none with
    ⟨hres, _⟩ | ⟨k, e, hk, hres, _⟩
  · rw [hres]
    exact ⟨_, rfl⟩
  · rw [hres]
    dsimp only
    rw [Nat.zero_add, hk]
    dsimp only
    obtain ⟨st, hst⟩ := Tower.fire_stats_in_range config { tower with can_fire := false } h
    rw [hst]
    exact ⟨_, rfl⟩

theorem Tower.run_total (add sub : ℚ → ℚ → ℚ) (sqrt : ℚ → ℚ) :
    ∀ (ticks : List Tower.Tick) (tower : Tower),
      (∀ tick ∈ ticks, tick.config.LevelsInRange) →
      ∃ trace, Tower.run add sub sqrt tower ticks = some trace := by
  intro ticks
  induction ticks with
  | nil => intro tower _; exact ⟨[], rfl⟩
  | cons tick rest ih =>
    intro tower hl
    have hstep : ∃ r, Tower.on_update add sub sqrt tick.config tick.enemy_list tower tick.delta =
        some r := by
      unfold Tower.on_update
      dsimp only
      split_ifs
      all_goals first
        | exact Tower.on_fire_total sqrt tick.config tick.enemy_list _
            (hl tick (List.mem_cons_self _ _))
        | exact ⟨_, rfl⟩
    obtain ⟨r, hr⟩ := hstep
    obtain ⟨tr, htr⟩ := ih r.1 (fun t ht => hl t (List.mem_cons_of_mem _ ht))
    exact ⟨r :: tr, by rw [Tower.run, hr]; dsimp only; rw [htr]⟩

/-- C11: over every sequence of `Tower::on_update` calls with non-negative
deltas (and tower levels inside the configuration arrays), the run is defined,
and whenever the tower spawns a bullet in call `i` and a bullet in a later call
`j`, the deltas of the calls `i+1 .. j`, added one by one in call order to an
accumulator that the shot of call `i` reset to 0, reach at least the fire
interval armed at call `i`, which is the interval of the tower's type at its
level at that call; so no bullet is spawned while the accumulator is below the
interval.  This holds for every addition `add` of the timer that is monotone in
the accumulator and does not decrease it when the delta is non-negative, and
for every subtraction `sub`. -/
theorem tower_fire_cooldown (add sub : ℚ → ℚ → ℚ) (sqrt : ℚ → ℚ) (tower : Tower)
    (ticks : List Tower.Tick)
    (hmono : ∀ x y d : ℚ, x ≤ y → add x d ≤ add y d)
    (hgrow : ∀ x d : ℚ, 0 ≤ d → x ≤ add x d)
    (hd : ∀ tick ∈ ticks, 0 ≤ tick.delta)
    (hl : ∀ tick ∈ ticks, tick.config.LevelsInRange) :
    ∃ trace, Tower.run add sub sqrt tower ticks = some trace ∧ trace.length = ticks.length ∧
      ∀ i j ti bi tj bj, i < j → trace.get? i = some (ti, some bi) →
        trace.get? j = some (tj, some bj) →
        (∃ tick damage, ticks.get? i = some tick ∧
          Tower.fire_stats tick.config ti = some (ti.timer_fire.wait_time, damage)) ∧
        ti.timer_fire.wait_time ≤
          Timer.accumulate add
            (((ticks.drop (i + 1)).take (j - i)).map Tower.Tick.delta) := by
  obtain ⟨trace, htrace⟩ := Tower.run_total add sub sqrt ticks tower hl
  refine ⟨trace, htrace, Tower.run_length add sub sqrt ticks tower trace htrace, ?_⟩
  intro i j ti bi tj bj hij hi hj
  obtain ⟨hdrop, tick, tprev, htick, hup⟩ := Tower.run_drop add sub sqrt ticks tower trace i ti
    (some bi) htrace hi
  obtain ⟨hcf, hpt, damage, hst⟩ := Tower.on_update_fired add sub sqrt tick.config tick.enemy_list
    tprev ti bi tick.delta hup
  refine ⟨⟨tick, damage, htick, hst⟩, ?_⟩
  have hj2 : (trace.drop (i + 1)).get? (j - i - 1) = some (tj, some bj) := by
    rw [List.get?_eq_getElem?, List.getElem?_drop, ← List.get?_eq_getElem?]
    have : i + 1 + (j - i - 1) = j := by omega
    rw [this]
    exact hj
  have := Tower.run_cooldown add sub sqrt ti.timer_fire.wait_time hmono hgrow
    (ticks.drop (i + 1)) ti 0
    (trace.drop (i + 1)) (fun t ht => hd t (List.mem_of_mem_drop ht))
    (Or.inr ⟨hcf, rfl, by rw [hpt]⟩) hdrop (j - i - 1) tj bj hj2
  have hidx : j - i - 1 + 1 = j - i := by omega
  rw [hidx] at this
  exact this

theorem tower_fire_cooldown_witness :
    ∃ trace, Tower.run (fun x y => x + y) (fun x y => x - y) Rat.sqrt Tower.sample_tower
        Tower.sample_ticks = some trace ∧
      trace.length = Tower.sample_ticks.length ∧
      ∀ i j ti bi tj bj, i < j → trace.get? i = some (ti, some bi) →
        trace.get? j = some (tj, some bj) →
        (∃ tick damage, Tower.sample_ticks.get? i = some tick ∧
          Tower.fire_stats tick.config ti = some (ti.timer_fire.wait_time, damage)) ∧
        ti.timer_fire.wait_time ≤
          Timer.accumulate (fun x y => x + y)
            (((Tower.sample_ticks.drop (i + 1)).take (j - i)).map Tower.Tick.delta) :=
  tower_fire_cooldown (fun x y => x + y) (fun x y => x - y) Rat.sqrt Tower.sample_tower
    Tower.sample_ticks
    (by intro x y d h; show x + d ≤ y + d; linarith)
    (by intro x d h; show x ≤ x + d; linarith)
    (by
      intro tick ht
      simp only [Tower.sample_ticks, List.mem_cons, List.mem_singleton, List.not_mem_nil,
        or_false] at ht
      rcases ht with h | h | h <;> rw [h] <;> norm_num)
    (by
      intro tick ht
      simp only [Tower.sample_ticks, List.mem_cons, List.mem_singleton, List.not_mem_nil,
        or_false] at ht
      rcases ht with h | h | h <;> rw [h] <;>
        simp [ConfigManager.LevelsInRange, Tower.sample_config])

/-! ## Wave scheduler -/

theorem vector_at_nat {α : Type} (v : List α) (n : Nat) : vector_at v (n : Int) = v.get? n := by
  unfold vector_at
  rw [if_neg (by omega)]
  simp

theorem Route.index_ge_nat (m n : Nat) : Route.index_ge (m : Int) n = decide (n ≤ m) := by
  unfold Route.index_ge
  have h1 : ¬ ((m : Int) < 0) := by omega
  simp [h1]

theorem WaveEvent.spawns_append (a b : List WaveEvent) :
    WaveEvent.spawns (a ++ b) = WaveEvent.spawns a ++ WaveEvent.spawns b := by
  induction a with
  | nil => rfl
  | cons e rest ih => cases e <;> simp [WaveEvent.spawns, ih]

theorem WaveEvent.credits_append (a b : List WaveEvent) :
    WaveEvent.credits (a ++ b) = WaveEvent.credits a ++ WaveEvent.credits b := by
  induction a with
  | nil => rfl
  | cons e rest ih => cases e <;> simp [WaveEvent.credits, ih]

theorem WaveManager.spawned_so_far_succ (wave_list : List Wave) (k m : Nat) (wave : Wave)
    (ev : Wave.SpawnEvent) (hw : wave_list.get? k = some wave)
    (he : wave.spawn_event_list.get? m = some ev) :
    WaveManager.spawned_so_far wave_list k (m + 1) =
      WaveManager.spawned_so_far wave_list k m ++ [WaveManager.spawn_args ev] := by
  unfold WaveManager.spawned_so_far
  rw [hw]
  dsimp only
  have hlt : m < wave.spawn_event_list.length := by
    by_contra hcon
    rw [List.get?_eq_none.mpr (not_lt.mp hcon)] at he
    exact absurd he (by simp)
  rw [List.get?_eq_getElem?, List.getElem?_eq_getElem hlt] at he
  rw [List.take_succ, List.getElem?_eq_getElem hlt]
  simp only [Option.some.injEq] at he
  simp [he]

theorem WaveManager.spawned_so_far_next (wave_list : List Wave) (k : Nat) (wave : Wave)
    (hw : wave_list.get? k = some wave) :
    WaveManager.spawned_so_far wave_list (k + 1) 0 =
      WaveManager.spawned_so_far wave_list k wave.spawn_event_list.length := by
  unfold WaveManager.spawned_so_far
  rw [hw]
  have hlt : k < wave_list.length := by
    by_contra hcon
    rw [List.get?_eq_none.mpr (not_lt.mp hcon)] at hw
    exact absurd hw (by simp)
  rw [List.get?_eq_getElem?, List.getElem?_eq_getElem hlt] at hw
  simp only [Option.some.injEq] at hw
  rw [List.take_succ, List.getElem?_eq_getElem hlt, hw]
  have htail : (match wave_list.get? (k + 1) with
      | some wave => (List.take 0 wave.spawn_event_list).map WaveManager.spawn_args
      | none => []) = [] := by
    cases wave_list.get? (k + 1) <;> rfl
  rw [htail]
  simp

/-- The outcomes of `on_update_in` for a member that `get` and `set` access
like a field: either the callback is not invoked and only the timer changes,
keeping `one_shot` and a set `shotted`, or the callback is invoked on the owner
whose timer has `shotted` set, which for a one-shot timer requires that it had
not fired. -/
theorem Timer.on_update_in_cases {σ : Type} (get : σ → Timer) (set : σ → Timer → σ)
    (cb : σ → Option σ) (s : σ) (delta : ℚ)
    (hgs : ∀ s t, get (set s t) = t) (hss : ∀ s a b, set (set s a) b = set s b)
    (hsg : ∀ s, set s (get s) = s) :
    (∃ t2, Timer.on_update_in get set cb s delta = some (set s t2, 0) ∧
      t2.one_shot = (get s).one_shot ∧ ((get s).shotted = true → t2.shotted = true)) ∨
    (∃ t2, t2.shotted = true ∧ t2.one_shot = (get s).one_shot ∧
      ((get s).one_shot = true → (get s).shotted = false) ∧
      Timer.on_update_in get set cb s delta =
        match cb (set s t2) with
        | none => none
        | some s3 =>
          some (set s3 { get s3 with pass_time := (get s3).pass_time - (get s3).wait_time },
            1)) := by
  unfold Timer.on_update_in
  by_cases hp : (get s).paused = true
  · left
    refine ⟨get s, ?_, rfl, fun h => h⟩
    rw [if_pos hp, hsg]
  · rw [if_neg hp]
    simp only [hgs, hss]
    by_cases hw : (get s).pass_time + delta ≥ (get s).wait_time
    · rw [if_pos hw]
      by_cases hc : (!(get s).one_shot || ((get s).one_shot && !(get s).shotted)) = true
      · right
        rw [if_pos hc]
        refine ⟨{ get s with pass_time := (get s).pass_time + delta, shotted := true },
          rfl, rfl, ?_, rfl⟩
        intro ho
        rw [ho] at hc
        simpa using hc
      · left
        rw [if_neg hc]
        exact ⟨{ get s with
            pass_time := (get s).pass_time + delta - (get s).wait_time, shotted := true },
          rfl, rfl, fun _ => rfl⟩
    · left
      rw [if_neg hw]
      exact ⟨{ get s with pass_time := (get s).pass_time + delta }, rfl, rfl, fun h => h⟩

theorem WaveManager.current_wave (wave_list : List Wave) (k m : Nat) (w : WaveWorld)
    (hI : WaveManager.Inv wave_list k m w) (hover : w.config.is_game_over = false) :
    ∃ wave, wave_list.get? k = some wave ∧ wave ∈ wave_list := by
  have hlt : k < wave_list.length := by
    rcases Nat.lt_or_ge k wave_list.length with h | h
    · exact h
    · have := hI.over (Nat.le_antisymm hI.wave_le h)
      rw [hover] at this
      exact absurd this (by simp)
  exact ⟨wave_list[k], by rw [List.get?_eq_getElem?, List.getElem?_eq_getElem hlt],
    List.getElem_mem hlt⟩

theorem WaveManager.first_event (wave_list : List Wave) (hwf : WaveManager.WellFormed wave_list)
    (wave : Wave) (hmem : wave ∈ wave_list) :
    ∃ ev, wave.spawn_event_list.get? 0 = some ev := by
  have hne := hwf.2 wave hmem
  cases h : wave.spawn_event_list with
  | nil => exact absurd h hne
  | cons ev rest => exact ⟨ev, rfl⟩

/-- The timer phase of `on_update` before the wave has started keeps the
invariant. -/
theorem WaveManager.start_phase (wave_list : List Wave) (k m : Nat) (w : WaveWorld)
    (delta : ℚ) (hwf : WaveManager.WellFormed wave_list)
    (hI : WaveManager.Inv wave_list k m w) (hover : w.config.is_game_over = false)
    (hs : w.wave_manager.is_wave_started = false) :
    ∃ w1 n, Timer.on_update_in (fun s : WaveWorld => s.wave_manager.timer_start_wave)
        (fun s t => { s with wave_manager := { s.wave_manager with timer_start_wave := t } })
        WaveManager.on_start_timeout w delta = some (w1, n) ∧
      WaveManager.Inv wave_list k m w1 ∧ w1.config = w.config ∧
      w1.enemy_list = w.enemy_list ∧ w1.events = w.events := by
  obtain ⟨wave, hwave, hmem⟩ := WaveManager.current_wave wave_list k m w hI hover
  obtain ⟨ev, hev⟩ := WaveManager.first_event wave_list hwf wave hmem
  rcases Timer.on_update_in_cases (fun s : WaveWorld => s.wave_manager.timer_start_wave)
      (fun s t => { s with wave_manager := { s.wave_manager with timer_start_wave := t } })
      WaveManager.on_start_timeout w delta (fun _ _ => rfl) (fun _ _ _ => rfl) (fun _ => rfl)
    with ⟨t2, hres, _, _⟩ | ⟨t2, _, _, _, hres⟩
  · refine ⟨_, 0, hres, ?_, rfl, rfl, rfl⟩
    exact ⟨hI.level, hI.pool, hI.idx_wave, hI.idx_spawn_event, hI.one_shot, hI.wave_le,
      hI.over, hI.in_wave, hI.spawns, hI.credits⟩
  · have hcb : WaveManager.on_start_timeout
        { w with wave_manager := { w.wave_manager with timer_start_wave := t2 } } =
        some { w with wave_manager :=
          { w.wave_manager with
            timer_start_wave := t2, is_wave_started := true,
            timer_spawn_enemy :=
              (w.wave_manager.timer_spawn_enemy.set_wait_time ev.interval).restart } } := by
      unfold WaveManager.on_start_timeout
      simp only [hI.level, hI.idx_wave, vector_at_nat, hwave]
      have h0 : vector_at wave.spawn_event_list 0 = some ev := by
        rw [← hev]
        exact vector_at_nat wave.spawn_event_list 0
      rw [h0]
    rw [hcb] at hres
    refine ⟨_, 1, hres, ?_, rfl, rfl, rfl⟩
    refine ⟨hI.level, hI.pool, hI.idx_wave, hI.idx_spawn_event, hI.one_shot, hI.wave_le,
      hI.over, ?_, hI.spawns, hI.credits⟩
    intro wave2 hw2
    obtain ⟨h1, h2, h3, _⟩ := hI.in_wave wave2 hw2
    refine ⟨h1, h2, fun h => absurd h (by simp), ?_⟩
    intro _ hmn
    have hm0 := h3 hs
    rw [hwave] at hw2
    cases hw2
    rw [hm0] at hmn
    have hne := hwf.2 wave hmem
    exact absurd (List.length_eq_zero.mp hmn.symm) hne

theorem EnemyManager.spawn_enemy_total (new_enemy : EnemyType → Enemy) (config : ConfigManager)
    (enemy_list : List Enemy) (type : EnemyType) (idx_spawn_point : Int)
    (hpool : WaveManager.PoolRoutesNonempty config) :
    ∃ l, EnemyManager.spawn_enemy new_enemy config enemy_list type idx_spawn_point = some l := by
  unfold EnemyManager.spawn_enemy
  cases hr : config.map.spawner_route_pool idx_spawn_point with
  | none => exact ⟨_, rfl⟩
  | some route =>
    dsimp only
    have hne := hpool idx_spawn_point route hr
    cases hl : route.idx_list with
    | nil => exact absurd hl hne
    | cons p rest =>
      have : vector_at (p :: rest) 0 = some p := by
        have := vector_at_nat (p :: rest) 0
        simpa using this
      rw [this]
      exact ⟨_, rfl⟩

/-- The spawn callback on a world whose current spawn event exists. -/
theorem WaveManager.on_spawn_timeout_eq (new_enemy : EnemyType → Enemy) (w : WaveWorld)
    (k m : Nat) (wave : Wave) (ev : Wave.SpawnEvent) (l1 : List Enemy)
    (hk : w.wave_manager.idx_wave = (k : Int))
    (hm : w.wave_manager.idx_spawn_event = (m : Int))
    (hwave : w.config.wave_list.get? k = some wave)
    (hev : wave.spawn_event_list.get? m = some ev)
    (hsp : EnemyManager.spawn_enemy new_enemy w.config w.enemy_list ev.enemy_type
      ev.spawn_point = some l1) :
    WaveManager.on_spawn_timeout new_enemy w =
      if wave.spawn_event_list.length ≤ m + 1 then
        some { w with
          enemy_list := l1,
          events := w.events ++ [WaveEvent.spawn ev.enemy_type ev.spawn_point],
          wave_manager := { w.wave_manager with
            idx_spawn_event := ((m + 1 : Nat) : Int), is_spawned_last_enemy := true } }
      else
        match wave.spawn_event_list.get? (m + 1) with
        | none => none
        | some next_event =>
          some { w with
            enemy_list := l1,
            events := w.events ++ [WaveEvent.spawn ev.enemy_type ev.spawn_point],
            wave_manager := { w.wave_manager with
              idx_spawn_event := ((m + 1 : Nat) : Int),
              timer_spawn_enemy :=
                (w.wave_manager.timer_spawn_enemy.set_wait_time next_event.interval).restart } } := by
  unfold WaveManager.on_spawn_timeout
  have hcast : (m : Int) + 1 = ((m + 1 : Nat) : Int) := by push_cast; rfl
  simp only [hk, hm, vector_at_nat, hwave, hev, hsp, hcast, Route.index_ge_nat,
    decide_eq_true_eq]

/-- The timer phase of `on_update` after the wave has started keeps the
invariant. -/
theorem WaveManager.spawn_phase (new_enemy : EnemyType → Enemy) (wave_list : List Wave)
    (k m : Nat) (w : WaveWorld) (delta : ℚ)
    (hI : WaveManager.Inv wave_list k m w) (hover : w.config.is_game_over = false)
    (hs : w.wave_manager.is_wave_started = true) :
    ∃ w1 n m1, Timer.on_update_in (fun s : WaveWorld => s.wave_manager.timer_spawn_enemy)
        (fun s t => { s with wave_manager := { s.wave_manager with timer_spawn_enemy := t } })
        (WaveManager.on_spawn_timeout new_enemy) w delta = some (w1, n) ∧
      WaveManager.Inv wave_list k m1 w1 ∧ w1.config = w.config ∧
      ((m1 = m ∧ ∃ t2, w1 =
          { w with wave_manager := { w.wave_manager with timer_spawn_enemy := t2 } }) ∨
        w.wave_manager.is_spawned_last_enemy = false) := by
  obtain ⟨wave, hwave, hmem⟩ := WaveManager.current_wave wave_list k m w hI hover
  obtain ⟨hmn, hlast, _, hshot⟩ := hI.in_wave wave hwave
  rcases Timer.on_update_in_cases (fun s : WaveWorld => s.wave_manager.timer_spawn_enemy)
      (fun s t => { s with wave_manager := { s.wave_manager with timer_spawn_enemy := t } })
      (WaveManager.on_spawn_timeout new_enemy) w delta (fun _ _ => rfl) (fun _ _ _ => rfl)
      (fun _ => rfl)
    with ⟨t2, hres, hone, hmono⟩ | ⟨t2, ht2s, ht2o, hfresh, hres⟩
  · refine ⟨_, 0, m, hres, ?_, rfl, Or.inl ⟨rfl, t2, rfl⟩⟩
    refine ⟨hI.level, hI.pool, hI.idx_wave, hI.idx_spawn_event, ?_, hI.wave_le,
      hI.over, ?_, hI.spawns, hI.credits⟩
    · show t2.one_shot = true
      rw [hone]
      exact hI.one_shot
    · intro wave2 hw2
      obtain ⟨h1, h2, h3, h4⟩ := hI.in_wave wave2 hw2
      exact ⟨h1, h2, h3, fun ha hb => hmono (h4 ha hb)⟩
  · have hnot : w.wave_manager.timer_spawn_enemy.shotted = false := hfresh hI.one_shot
    have hlt : m < wave.spawn_event_list.length := by
      rcases Nat.lt_or_ge m wave.spawn_event_list.length with h | h
      · exact h
      · have := hshot hs (Nat.le_antisymm hmn h)
        rw [hnot] at this
        exact absurd this (by simp)
    have hev : wave.spawn_event_list.get? m = some wave.spawn_event_list[m] := by
      rw [List.get?_eq_getElem?, List.getElem?_eq_getElem hlt]
    obtain ⟨l1, hl1⟩ := EnemyManager.spawn_enemy_total new_enemy w.config w.enemy_list
      wave.spawn_event_list[m].enemy_type wave.spawn_event_list[m].spawn_point hI.pool
    have hwave2 : w.config.wave_list.get? k = some wave := by rw [hI.level]; exact hwave
    have hcb := WaveManager.on_spawn_timeout_eq new_enemy
      { w with wave_manager := { w.wave_manager with timer_spawn_enemy := t2 } }
      k m wave wave.spawn_event_list[m] l1 hI.idx_wave hI.idx_spawn_event hwave2 hev hl1
    rw [hcb] at hres
    have hflag : w.wave_manager.is_spawned_last_enemy = false := by
      cases hf : w.wave_manager.is_spawned_last_enemy with
      | false => rfl
      | true => exact absurd (hlast.mp hf) (Nat.ne_of_lt hlt)
    have hsp : WaveEvent.spawns (w.events ++
        [WaveEvent.spawn wave.spawn_event_list[m].enemy_type
          wave.spawn_event_list[m].spawn_point]) =
        WaveManager.spawned_so_far wave_list k (m + 1) := by
      rw [WaveEvent.spawns_append, hI.spawns,
        WaveManager.spawned_so_far_succ wave_list k m wave _ hwave hev]
      rfl
    have hcr : WaveEvent.credits (w.events ++
        [WaveEvent.spawn wave.spawn_event_list[m].enemy_type
          wave.spawn_event_list[m].spawn_point]) =
        (wave_list.take k).map Wave.rewards := by
      rw [WaveEvent.credits_append, hI.credits]
      simp [WaveEvent.credits]
    by_cases hend : wave.spawn_event_list.length ≤ m + 1
    · rw [if_pos hend] at hres
      refine ⟨_, 1, m + 1, hres, ?_, rfl, Or.inr hflag⟩
      refine ⟨hI.level, hI.pool, hI.idx_wave, rfl, ?_, hI.wave_le, hI.over, ?_, hsp, hcr⟩
      · show t2.one_shot = true
        rw [ht2o]
        exact hI.one_shot
      · intro wave2 hw2
        rw [hwave] at hw2
        cases hw2
        refine ⟨hlt, ⟨fun _ => by omega, fun _ => rfl⟩, fun h => ?_, fun _ _ => ht2s⟩
        have : w.wave_manager.is_wave_started = false := h
        rw [hs] at this
        exact absurd this (by simp)
    · rw [if_neg hend] at hres
      have hlt2 : m + 1 < wave.spawn_event_list.length := by omega
      rw [List.get?_eq_getElem?, List.getElem?_eq_getElem hlt2] at hres
      refine ⟨_, 1, m + 1, hres, ?_, rfl, Or.inr hflag⟩
      refine ⟨hI.level, hI.pool, hI.idx_wave, rfl, ?_, hI.wave_le, hI.over, ?_, hsp, hcr⟩
      · show t2.one_shot = true
        rw [ht2o]
        exact hI.one_shot
      · intro wave2 hw2
        rw [hwave] at hw2
        cases hw2
        refine ⟨Nat.le_of_lt hlt2, ⟨fun h => ?_, fun h => by omega⟩, fun h => ?_,
          fun _ h => by omega⟩
        · have : w.wave_manager.is_spawned_last_enemy = true := h
          rw [hflag] at this
          exact absurd this (by simp)
        · have : w.wave_manager.is_wave_started = false := h
          rw [hs] at this
          exact absurd this (by simp)

/-- The completion poll keeps the invariant; it credits exactly when the last
enemy of the wave has been spawned and the registry is empty. -/
theorem WaveManager.poll_phase (wave_list : List Wave) (k m : Nat) (w : WaveWorld)
    (hwf : WaveManager.WellFormed wave_list)
    (hI : WaveManager.Inv wave_list k m w) (hover : w.config.is_game_over = false) :
    ∃ w2 k2 m2, WaveManager.poll w = some w2 ∧ WaveManager.Inv wave_list k2 m2 w2 ∧
      ((k2 = k ∧ m2 = m ∧ w2 = w ∧
          (w.wave_manager.is_spawned_last_enemy && EnemyManager.check_cleared w.enemy_list) =
            false) ∨
        (k2 = k + 1 ∧ w.wave_manager.is_spawned_last_enemy = true ∧ w.enemy_list = [] ∧
          (∃ wave, wave_list.get? k = some wave ∧
            w2.events = w.events ++ [WaveEvent.credit wave.rewards]) ∧
          (k + 1 = wave_list.length →
            w2.config.is_game_win = true ∧ w2.config.is_game_over = true))) := by
  obtain ⟨wave, hwave, hmem⟩ := WaveManager.current_wave wave_list k m w hI hover
  obtain ⟨hmn, hlast, _, _⟩ := hI.in_wave wave hwave
  have hklt : k < wave_list.length := by
    by_contra hcon
    rw [List.get?_eq_none.mpr (not_lt.mp hcon)] at hwave
    exact absurd hwave (by simp)
  unfold WaveManager.poll
  by_cases hc : (w.wave_manager.is_spawned_last_enemy &&
      EnemyManager.check_cleared w.enemy_list) = true
  · rw [if_pos hc]
    have hflag : w.wave_manager.is_spawned_last_enemy = true := by
      simp only [Bool.and_eq_true] at hc
      exact hc.1
    have hclear : w.enemy_list = [] := by
      simp only [Bool.and_eq_true, EnemyManager.check_cleared, List.isEmpty_iff] at hc
      exact hc.2
    have hm : m = wave.spawn_event_list.length := hlast.mp hflag
    have hcast : (k : Int) + 1 = ((k + 1 : Nat) : Int) := by push_cast; rfl
    simp only [hI.level, hI.idx_wave, vector_at_nat, hwave, hcast, Route.index_ge_nat]
    have hsp : WaveEvent.spawns (w.events ++ [WaveEvent.credit wave.rewards]) =
        WaveManager.spawned_so_far wave_list (k + 1) 0 := by
      rw [WaveEvent.spawns_append, hI.spawns,
        WaveManager.spawned_so_far_next wave_list k wave hwave, hm]
      simp [WaveEvent.spawns]
    have hcr : WaveEvent.credits (w.events ++ [WaveEvent.credit wave.rewards]) =
        (wave_list.take (k + 1)).map Wave.rewards := by
      rw [WaveEvent.credits_append, hI.credits, List.take_succ,
        List.getElem?_eq_getElem hklt]
      have hw : wave_list[k] = wave := by
        rw [List.get?_eq_getElem?, List.getElem?_eq_getElem hklt] at hwave
        exact Option.some.inj hwave
      simp [WaveEvent.credits, hw]
    by_cases hend : wave_list.length ≤ k + 1
    · have hnone : wave_list.get? (k + 1) = none := List.get?_eq_none.mpr hend
      simp only [hend, decide_True, if_true]
      refine ⟨_, k + 1, m, rfl, ?_,
        Or.inr ⟨rfl, hflag, hclear, ⟨wave, rfl, rfl⟩, fun _ => ⟨rfl, rfl⟩⟩⟩
      refine ⟨rfl, hI.pool, rfl, hI.idx_spawn_event, hI.one_shot, by omega,
        fun _ => rfl, ?_, ?_, hcr⟩
      · intro wave2 hw2
        rw [hnone] at hw2
        exact absurd hw2 (by simp)
      · rw [hsp]
        unfold WaveManager.spawned_so_far
        rw [hnone]
    · have hlt2 : k + 1 < wave_list.length := by omega
      simp only [hend, decide_False, Bool.false_eq_true, if_false]
      rw [List.get?_eq_getElem?, List.getElem?_eq_getElem hlt2]
      refine ⟨_, k + 1, 0, rfl, ?_,
        Or.inr ⟨rfl, hflag, hclear, ⟨wave, rfl, rfl⟩, fun h => by omega⟩⟩
      refine ⟨hI.level, hI.pool, rfl, rfl, hI.one_shot, Nat.le_of_lt hlt2,
        fun h => by omega, ?_, hsp, hcr⟩
      intro wave2 hw2
      have hmem2 : wave2 ∈ wave_list := List.get?_mem hw2
      have hne := hwf.2 wave2 hmem2
      have hpos : 0 < wave2.spawn_event_list.length := List.length_pos.mpr hne
      refine ⟨Nat.zero_le _, ⟨fun h => absurd h (by simp), fun h => by omega⟩,
        fun _ => rfl, fun h => absurd h (by simp)⟩
  · rw [if_neg hc]
    exact ⟨w, k, m, rfl, hI, Or.inl ⟨rfl, rfl, rfl, by simpa using hc⟩⟩

/-- One `on_update` call on a well-formed level is defined and keeps the
invariant. -/
theorem WaveManager.on_update_inv (new_enemy : EnemyType → Enemy) (wave_list : List Wave)
    (k m : Nat) (w : WaveWorld) (delta : ℚ) (hwf : WaveManager.WellFormed wave_list)
    (hI : WaveManager.Inv wave_list k m w) :
    ∃ w2 k2 m2, WaveManager.on_update new_enemy w delta = some w2 ∧
      WaveManager.Inv wave_list k2 m2 w2 := by
  unfold WaveManager.on_update
  by_cases hover : w.config.is_game_over = true
  · rw [if_pos hover]
    exact ⟨w, k, m, rfl, hI⟩
  · rw [if_neg hover]
    have hover2 : w.config.is_game_over = false := by simpa using hover
    by_cases hs : w.wave_manager.is_wave_started = true
    · obtain ⟨w1, n, m1, hres, hI1, hcfg, _⟩ :=
        WaveManager.spawn_phase new_enemy wave_list k m w delta hI hover2 hs
      simp only [hs, Bool.not_true, Bool.false_eq_true, if_false, hres]
      obtain ⟨w2, k2, m2, h2, hI2, _⟩ :=
        WaveManager.poll_phase wave_list k m1 w1 hwf hI1 (by rw [hcfg]; exact hover2)
      exact ⟨w2, k2, m2, h2, hI2⟩
    · have hs2 : w.wave_manager.is_wave_started = false := by simpa using hs
      obtain ⟨w1, n, hres, hI1, hcfg, _, _⟩ :=
        WaveManager.start_phase wave_list k m w delta hwf hI hover2 hs2
      simp only [hs2, Bool.not_false, if_true, hres]
      obtain ⟨w2, k2, m2, h2, hI2, _⟩ :=
        WaveManager.poll_phase wave_list k m w1 hwf hI1 (by rw [hcfg]; exact hover2)
      exact ⟨w2, k2, m2, h2, hI2⟩

theorem WaveManager.arrive_inv (wave_list : List Wave) (k m : Nat) (w : WaveWorld)
    (tick : WaveManager.Tick) (hI : WaveManager.Inv wave_list k m w) :
    WaveManager.Inv wave_list k m (WaveManager.arrive w tick) := by
  unfold WaveManager.arrive
  cases tick.defeated with
  | false =>
    exact ⟨hI.level, hI.pool, hI.idx_wave, hI.idx_spawn_event, hI.one_shot, hI.wave_le,
      hI.over, hI.in_wave, hI.spawns, hI.credits⟩
  | true =>
    exact ⟨hI.level, hI.pool, hI.idx_wave, hI.idx_spawn_event, hI.one_shot, hI.wave_le,
      fun _ => rfl, hI.in_wave, hI.spawns, hI.credits⟩

/-- Every run on a well-formed level is defined and keeps the invariant. -/
theorem WaveManager.run_inv (new_enemy : EnemyType → Enemy) (wave_list : List Wave)
    (hwf : WaveManager.WellFormed wave_list) :
    ∀ (ticks : List WaveManager.Tick) (k m : Nat) (w : WaveWorld),
      WaveManager.Inv wave_list k m w →
      ∃ w2 k2 m2, WaveManager.run new_enemy w ticks = some w2 ∧
        WaveManager.Inv wave_list k2 m2 w2 := by
  intro ticks
  induction ticks with
  | nil => intro k m w hI; exact ⟨w, k, m, rfl, hI⟩
  | cons tick rest ih =>
    intro k m w hI
    obtain ⟨w1, k1, m1, h1, hI1⟩ := WaveManager.on_update_inv new_enemy wave_list k m
      (WaveManager.arrive w tick) tick.delta hwf (WaveManager.arrive_inv wave_list k m w tick hI)
    obtain ⟨w2, k2, m2, h2, hI2⟩ := ih k1 m1 w1 hI1
    exact ⟨w2, k2, m2, by rw [WaveManager.run, h1]; exact h2, hI2⟩

/-- The world at the start of a game on a well-formed level exists and
satisfies the invariant. -/
theorem WaveManager.start_inv (config : ConfigManager)
    (hwf : WaveManager.WellFormed config.wave_list)
    (hpool : WaveManager.PoolRoutesNonempty config) :
    ∃ w, WaveManager.start config = some w ∧ WaveManager.Inv config.wave_list 0 0 w ∧
      w.events = [] := by
  unfold WaveManager.start WaveManager.construct
  cases hl : config.wave_list with
  | nil => exact absurd hl hwf.1
  | cons wave rest =>
    have h0 : vector_at (wave :: rest) 0 = some wave := by
      have := vector_at_nat (wave :: rest) 0
      simpa using this
    rw [h0]
    refine ⟨_, rfl, ?_, rfl⟩
    refine ⟨hl, hpool, rfl, rfl, rfl, Nat.zero_le _, fun h => by simp at h, ?_, ?_, ?_⟩
    · intro wave2 hw2
      simp only [List.get?_cons_zero, Option.some.injEq] at hw2
      have hne := hwf.2 wave2 (by rw [hl, ← hw2]; exact List.mem_cons_self _ _)
      have hpos : 0 < wave2.spawn_event_list.length := List.length_pos.mpr hne
      exact ⟨Nat.zero_le _, ⟨fun h => absurd h (by simp), fun h => by omega⟩,
        fun _ => rfl, fun h => absurd h (by simp)⟩
    · simp [WaveEvent.spawns, WaveManager.spawned_so_far]
    · simp [WaveEvent.credits]

theorem WaveManager.poll_enemy_list (w w2 : WaveWorld) (h : WaveManager.poll w = some w2) :
    w2.enemy_list = w.enemy_list := by
  unfold WaveManager.poll at h
  split_ifs at h
  · cases hv : vector_at w.config.wave_list w.wave_manager.idx_wave with
    | none => rw [hv] at h; exact absurd h (by simp)
    | some wave =>
      rw [hv] at h
      dsimp only at h
      split_ifs at h
      · cases h; rfl
      · split at h
        · exact absurd h (by simp)
        · cases h; rfl
  · cases h; rfl

/-- One `on_update` call on a well-formed level: the wave index stays or
advances by one; it advances with the registry empty, and on the last wave sets
the game flags; with the last enemy spawned at entry it advances iff the
registry is empty, and otherwise calls nothing. -/
theorem WaveManager.on_update_step (new_enemy : EnemyType → Enemy) (wave_list : List Wave)
    (k m : Nat) (w : WaveWorld) (delta : ℚ) (hwf : WaveManager.WellFormed wave_list)
    (hI : WaveManager.Inv wave_list k m w) :
    ∃ w2 k2 m2, WaveManager.on_update new_enemy w delta = some w2 ∧
      WaveManager.Inv wave_list k2 m2 w2 ∧
      (k2 = k ∨ (k2 = k + 1 ∧ w2.enemy_list = [] ∧
        (k + 1 = wave_list.length →
          w2.config.is_game_win = true ∧ w2.config.is_game_over = true))) ∧
      (w.config.is_game_over = false → w.wave_manager.is_spawned_last_enemy = true →
        (w.enemy_list = [] → k2 = k + 1) ∧
        (w.enemy_list ≠ [] → w2.events = w.events ∧ m2 = m ∧ k2 = k)) := by
  unfold WaveManager.on_update
  by_cases hover : w.config.is_game_over = true
  · rw [if_pos hover]
    refine ⟨w, k, m, rfl, hI, Or.inl rfl, ?_⟩
    intro h
    rw [hover] at h
    exact absurd h (by simp)
  · rw [if_neg hover]
    have hover2 : w.config.is_game_over = false := by simpa using hover
    by_cases hs : w.wave_manager.is_wave_started = true
    · obtain ⟨w1, n, m1, hres, hI1, hcfg, hcase⟩ :=
        WaveManager.spawn_phase new_enemy wave_list k m w delta hI hover2 hs
      simp only [hs, Bool.not_true, Bool.false_eq_true, if_false, hres]
      obtain ⟨w2, k2, m2, h2, hI2, hpoll⟩ :=
        WaveManager.poll_phase wave_list k m1 w1 hwf hI1 (by rw [hcfg]; exact hover2)
      have hel := WaveManager.poll_enemy_list w1 w2 h2
      refine ⟨w2, k2, m2, h2, hI2, ?_, ?_⟩
      · rcases hpoll with ⟨hk, _⟩ | ⟨hk, _, hclear, _, hwin⟩
        · exact Or.inl hk
        · exact Or.inr ⟨hk, by rw [hel]; exact hclear, hwin⟩
      · intro _ hlast
        rcases hcase with ⟨hm1, t2, hw1⟩ | hnl
        · subst hw1
          constructor
          · intro hempty
            rcases hpoll with ⟨_, _, _, hcond⟩ | ⟨hk, _⟩
            · have hl : w.wave_manager.is_spawned_last_enemy = true := hlast
              have he : w.enemy_list = [] := hempty
              simp [hl, he, EnemyManager.check_cleared] at hcond
            · exact hk
          · intro hne
            rcases hpoll with ⟨hk, hm2, hw2, _⟩ | ⟨_, _, hclear, _⟩
            · rw [hw2]
              exact ⟨rfl, by rw [hm2, hm1], hk⟩
            · exact absurd hclear hne
        · rw [hlast] at hnl
          exact absurd hnl (by simp)
    · have hs2 : w.wave_manager.is_wave_started = false := by simpa using hs
      obtain ⟨w1, n, hres, hI1, hcfg, hel1, _⟩ :=
        WaveManager.start_phase wave_list k m w delta hwf hI hover2 hs2
      simp only [hs2, Bool.not_false, if_true, hres]
      obtain ⟨w2, k2, m2, h2, hI2, hpoll⟩ :=
        WaveManager.poll_phase wave_list k m w1 hwf hI1 (by rw [hcfg]; exact hover2)
      have hel := WaveManager.poll_enemy_list w1 w2 h2
      refine ⟨w2, k2, m2, h2, hI2, ?_, ?_⟩
      · rcases hpoll with ⟨hk, _⟩ | ⟨hk, _, hclear, _, hwin⟩
        · exact Or.inl hk
        · exact Or.inr ⟨hk, by rw [hel]; exact hclear, hwin⟩
      · intro _ hlast
        obtain ⟨wave, hwave, hmem⟩ := WaveManager.current_wave wave_list k m w hI hover2
        obtain ⟨_, hiff, hm0, _⟩ := hI.in_wave wave hwave
        have h0 := hm0 hs2
        have hn := hiff.mp hlast
        have hne := hwf.2 wave hmem
        rw [h0] at hn
        exact absurd (List.length_eq_zero.mp hn.symm) hne

theorem WaveManager.sample_well_formed :
    WaveManager.WellFormed WaveManager.sample_level.wave_list := by
  constructor
  · simp [WaveManager.sample_level]
  · intro wave hw
    simp only [WaveManager.sample_level, List.mem_singleton] at hw
    rw [hw]
    simp [WaveManager.sample_wave]

theorem WaveManager.sample_pool_nonempty :
    WaveManager.PoolRoutesNonempty WaveManager.sample_level := by
  intro key route h
  unfold WaveManager.sample_level WaveManager.sample_pool at h
  dsimp only at h
  split_ifs at h
  · cases h
    simp

/-- C18 (the code at the failing input): on the sample level (two spawn events
one second apart) the first event fires one second after the wave starts, and
leaves the spawn timer with accumulator `-1`: the `restart()` inside the
callback is followed by the timer's own `pass_time -= wait_time`.  One second
later the second event has not fired; it fires after two seconds. -/
theorem wave_next_spawn_after_twice_the_interval :
    WaveManager.sample_play [WaveManager.busy 0, WaveManager.busy 1] =
      some { spawns := [(EnemyType.Slim, 1)], credits := [], pass_time := -1, idx_wave := 0,
             is_game_win := true, is_game_over := false } ∧
    WaveManager.sample_play [WaveManager.busy 0, WaveManager.busy 1, WaveManager.busy 1] =
      some { spawns := [(EnemyType.Slim, 1)], credits := [], pass_time := 0, idx_wave := 0,
             is_game_win := true, is_game_over := false } ∧
    WaveManager.sample_play
        [WaveManager.busy 0, WaveManager.busy 1, WaveManager.busy 1, WaveManager.busy 1] =
      some { spawns := [(EnemyType.Slim, 1), (EnemyType.Slim, 1)], credits := [],
             pass_time := 0, idx_wave := 0, is_game_win := true, is_game_over := false } := by
  decide!

/-- A property of the owner that the timer writes and the callback keep holds
after `on_update_in`. -/
theorem Timer.on_update_in_preserves {σ : Type} (P : σ → Prop) (get : σ → Timer)
    (set : σ → Timer → σ) (cb : σ → Option σ) (s : σ) (delta : ℚ) (r : σ × Nat)
    (hset : ∀ s t, P s → P (set s t)) (hcb : ∀ s s2, P s → cb s = some s2 → P s2)
    (hP : P s) (h : Timer.on_update_in get set cb s delta = some r) : P r.1 := by
  unfold Timer.on_update_in at h
  by_cases h1 : (get s).paused = true
  · rw [if_pos h1] at h
    cases h; exact hP
  · rw [if_neg h1] at h
    dsimp only at h
    split_ifs at h
    · split at h
      · exact absurd h (by simp)
      · rename_i s3 hs3
        cases h
        exact hset _ _ (hcb _ _ (hset _ _ (hset _ _ hP)) hs3)
    · cases h
      exact hset _ _ (hset _ _ (hset _ _ hP))
    · cases h
      exact hset _ _ hP

theorem WaveManager.on_start_timeout_ledger (w w2 : WaveWorld)
    (h : WaveManager.on_start_timeout w = some w2) :
    w2.coin_manager = w.coin_manager ∧ w2.events = w.events := by
  unfold WaveManager.on_start_timeout at h
  dsimp only at h
  split at h
  · exact absurd h (by simp)
  · split at h
    · exact absurd h (by simp)
    · cases h; exact ⟨rfl, rfl⟩

theorem WaveManager.on_spawn_timeout_ledger (new_enemy : EnemyType → Enemy) (w w2 : WaveWorld)
    (h : WaveManager.on_spawn_timeout new_enemy w = some w2) :
    w2.coin_manager = w.coin_manager ∧
      WaveEvent.credits w2.events = WaveEvent.credits w.events := by
  unfold WaveManager.on_spawn_timeout at h
  dsimp only at h
  split at h
  · exact absurd h (by simp)
  · split at h
    · exact absurd h (by simp)
    · split at h
      · exact absurd h (by simp)
      · split_ifs at h
        · cases h
          exact ⟨rfl, by simp [WaveEvent.credits_append, WaveEvent.credits]⟩
        · split at h
          · exact absurd h (by simp)
          · cases h
            exact ⟨rfl, by simp [WaveEvent.credits_append, WaveEvent.credits]⟩

theorem WaveManager.poll_ledger (w w2 : WaveWorld) (h : WaveManager.poll w = some w2) :
    w2.coin_manager.num_coin - (WaveEvent.credits w2.events).sum =
      w.coin_manager.num_coin - (WaveEvent.credits w.events).sum := by
  unfold WaveManager.poll at h
  split_ifs at h
  · split at h
    · exact absurd h (by simp)
    · dsimp only at h
      split_ifs at h
      · cases h
        simp [WaveEvent.credits_append, WaveEvent.credits, CoinManager.increase_coin]
      · split at h
        · exact absurd h (by simp)
        · cases h
          simp [WaveEvent.credits_append, WaveEvent.credits, CoinManager.increase_coin]
  · cases h; rfl

/-- One `on_update` call changes the coin balance by the rewards it records. -/
theorem WaveManager.on_update_ledger (new_enemy : EnemyType → Enemy) (w w2 : WaveWorld)
    (delta : ℚ) (h : WaveManager.on_update new_enemy w delta = some w2) :
    w2.coin_manager.num_coin - (WaveEvent.credits w2.events).sum =
      w.coin_manager.num_coin - (WaveEvent.credits w.events).sum := by
  unfold WaveManager.on_update at h
  split_ifs at h with hover hs
  · cases h; rfl
  · dsimp only at h
    split at h
    · exact absurd h (by simp)
    · rename_i w1 n hr
      have hP : w1.coin_manager = w.coin_manager ∧
          WaveEvent.credits w1.events = WaveEvent.credits w.events := by
        refine Timer.on_update_in_preserves
          (fun s : WaveWorld => s.coin_manager = w.coin_manager ∧
            WaveEvent.credits s.events = WaveEvent.credits w.events) _ _ _ w delta (w1, n)
          ?_ ?_ ⟨rfl, rfl⟩ hr
        · exact fun _ _ hp => hp
        · intro s s2 hp hs2
          have := WaveManager.on_start_timeout_ledger s s2 hs2
          exact ⟨this.1.trans hp.1, by rw [this.2]; exact hp.2⟩
      have hpoll := WaveManager.poll_ledger w1 w2 h
      rw [hpoll, hP.1, hP.2]
  · dsimp only at h
    split at h
    · exact absurd h (by simp)
    · rename_i w1 n hr
      have hP : w1.coin_manager = w.coin_manager ∧
          WaveEvent.credits w1.events = WaveEvent.credits w.events := by
        refine Timer.on_update_in_preserves
          (fun s : WaveWorld => s.coin_manager = w.coin_manager ∧
            WaveEvent.credits s.events = WaveEvent.credits w.events) _ _ _ w delta (w1, n)
          ?_ ?_ ⟨rfl, rfl⟩ hr
        · exact fun _ _ hp => hp
        · intro s s2 hp hs2
          have := WaveManager.on_spawn_timeout_ledger new_enemy s s2 hs2
          exact ⟨this.1.trans hp.1, by rw [this.2]; exact hp.2⟩
      have hpoll := WaveManager.poll_ledger w1 w2 h
      rw [hpoll, hP.1, hP.2]

/-- A run changes the coin balance by the rewards it records. -/
theorem WaveManager.run_ledger (new_enemy : EnemyType → Enemy) :
    ∀ (ticks : List WaveManager.Tick) (w w2 : WaveWorld),
      WaveManager.run new_enemy w ticks = some w2 →
      w2.coin_manager.num_coin - (WaveEvent.credits w2.events).sum =
        w.coin_manager.num_coin - (WaveEvent.credits w.events).sum := by
  intro ticks
  induction ticks with
  | nil => intro w w2 h; cases h; rfl
  | cons tick rest ih =>
    intro w w2 h
    rw [WaveManager.run] at h
    split at h
    · exact absurd h (by simp)
    · rename_i w1 h1
      rw [ih w1 w2 h, WaveManager.on_update_ledger new_enemy _ w1 tick.delta h1]
      rfl

theorem WaveManager.start_ledger (config : ConfigManager) (w0 : WaveWorld)
    (h : WaveManager.start config = some w0) :
    w0.coin_manager.num_coin = 0 ∧ w0.events = [] := by
  unfold WaveManager.start at h
  split at h
  · exact absurd h (by simp)
  · cases h; exact ⟨rfl, rfl⟩

theorem Enemy.increase_hp_frame (e : Enemy) (val : ℚ) :
    (e.increase_hp val).route = e.route ∧ (e.increase_hp val).idx_target = e.idx_target ∧
      (e.increase_hp val).is_valid = e.is_valid := by
  unfold Enemy.increase_hp
  dsimp only
  split_ifs <;> exact ⟨rfl, rfl, rfl⟩

theorem Enemy.on_skill_released_frame (sqrt : ℚ → ℚ) (e : Enemy) :
    (e.on_skill_released sqrt).route = e.route ∧
      (e.on_skill_released sqrt).idx_target = e.idx_target ∧
      (e.on_skill_released sqrt).is_valid = e.is_valid := by
  unfold Enemy.on_skill_released
  dsimp only
  split_ifs
  · exact ⟨rfl, rfl, rfl⟩
  · exact Enemy.increase_hp_frame e _
  · exact ⟨rfl, rfl, rfl⟩

theorem Enemy.refresh_position_target_frame (rect_tile_map : SDL_Rect) (e : Enemy) :
    (e.refresh_position_target rect_tile_map).route = e.route ∧
      (e.refresh_position_target rect_tile_map).idx_target = e.idx_target ∧
      (e.refresh_position_target rect_tile_map).is_valid = e.is_valid := by
  unfold Enemy.refresh_position_target
  split_ifs
  · exact ⟨rfl, rfl, rfl⟩
  · split <;> exact ⟨rfl, rfl, rfl⟩

theorem Enemy.on_update_timers_frame (sqrt : ℚ → ℚ) (e : Enemy) (delta : ℚ) :
    (e.on_update_timers sqrt delta).route = e.route ∧
      (e.on_update_timers sqrt delta).idx_target = e.idx_target ∧
      (e.on_update_timers sqrt delta).is_valid = e.is_valid := by
  have hs := Enemy.on_skill_released_frame sqrt
    { e with timer_skill := (e.timer_skill.on_update (some id) delta).1 }
  unfold Enemy.on_update_timers
  dsimp only
  split_ifs <;> first | exact ⟨rfl, rfl, rfl⟩ | exact hs

theorem Enemy.on_update_move_frame (sqrt : ℚ → ℚ) (rect_tile_map : SDL_Rect) (e : Enemy)
    (delta : ℚ) :
    (e.on_update_move sqrt rect_tile_map delta).route = e.route ∧
      ((e.on_update_move sqrt rect_tile_map delta).idx_target = e.idx_target ∨
        (e.on_update_move sqrt rect_tile_map delta).idx_target = e.idx_target + 1) ∧
      (e.on_update_move sqrt rect_tile_map delta).is_valid = e.is_valid := by
  have hr := Enemy.refresh_position_target_frame rect_tile_map
    { e with idx_target := e.idx_target + 1 }
  unfold Enemy.on_update_move
  dsimp only
  split_ifs
  · exact ⟨hr.1, Or.inr hr.2.1, hr.2.2⟩
  · exact ⟨rfl, Or.inl rfl, rfl⟩

/-- What `on_update` does to the route, the target index and the validity flag:
the first and the last are kept, the index is kept or advanced by one. -/
theorem Enemy.on_update_frame (sqrt : ℚ → ℚ) (rect_tile_map : SDL_Rect) (e : Enemy)
    (delta : ℚ) :
    (e.on_update sqrt rect_tile_map delta).route = e.route ∧
      ((e.on_update sqrt rect_tile_map delta).idx_target = e.idx_target ∨
        (e.on_update sqrt rect_tile_map delta).idx_target = e.idx_target + 1) ∧
      (e.on_update sqrt rect_tile_map delta).is_valid = e.is_valid := by
  have ht := Enemy.on_update_timers_frame sqrt e delta
  have hm := Enemy.on_update_move_frame sqrt rect_tile_map (e.on_update_timers sqrt delta) delta
  unfold Enemy.on_update
  rw [ht.1, ht.2.1, ht.2.2] at hm
  exact hm

theorem Enemy.get_route_process_mono (e e2 : Enemy) (hr : e2.route = e.route)
    (hi : e.idx_target ≤ e2.idx_target) : e.get_route_process ≤ e2.get_route_process := by
  unfold Enemy.get_route_process
  rw [hr]
  split_ifs
  · exact le_refl _
  · apply div_le_div_of_nonneg_right
    · exact_mod_cast hi
    · exact Nat.cast_nonneg _

theorem Enemy.on_update_process (sqrt : ℚ → ℚ) (rect_tile_map : SDL_Rect) (e : Enemy)
    (delta : ℚ) :
    e.get_route_process ≤ (e.on_update sqrt rect_tile_map delta).get_route_process := by
  obtain ⟨hr, hi, _⟩ := Enemy.on_update_frame sqrt rect_tile_map e delta
  apply Enemy.get_route_process_mono e _ hr
  rcases hi with h | h <;> rw [h]
  omega

theorem Enemy.updates_append (sqrt : ℚ → ℚ) (rect_tile_map : SDL_Rect) (e : Enemy)
    (deltas : List ℚ) (delta : ℚ) :
    Enemy.updates sqrt rect_tile_map e (deltas ++ [delta]) =
      (Enemy.updates sqrt rect_tile_map e deltas).on_update sqrt rect_tile_map delta := by
  unfold Enemy.updates
  rw [List.foldl_append]
  rfl

theorem Enemy.updates_process (sqrt : ℚ → ℚ) (rect_tile_map : SDL_Rect) :
    ∀ (deltas : List ℚ) (e : Enemy),
      e.get_route_process ≤ (Enemy.updates sqrt rect_tile_map e deltas).get_route_process := by
  intro deltas
  induction deltas with
  | nil => intro e; exact le_refl _
  | cons delta rest ih =>
    intro e
    exact le_trans (Enemy.on_update_process sqrt rect_tile_map e delta)
      (ih (e.on_update sqrt rect_tile_map delta))

/-- C21: for every enemy, route and sequence of `Enemy::on_update` calls, each
call keeps the route and returns an enemy whose `get_route_process` is at least
the value before the call; so the value after the whole sequence is at least
the value at its start. -/
theorem enemy_route_process_non_decreasing (sqrt : ℚ → ℚ) (rect_tile_map : SDL_Rect)
    (e : Enemy) (deltas : List ℚ) (delta : ℚ) :
    (Enemy.updates sqrt rect_tile_map e (deltas ++ [delta])).route = e.route ∧
    (Enemy.updates sqrt rect_tile_map e deltas).get_route_process ≤
      (Enemy.updates sqrt rect_tile_map e (deltas ++ [delta])).get_route_process ∧
    e.get_route_process ≤ (Enemy.updates sqrt rect_tile_map e deltas).get_route_process := by
  refine ⟨?_, ?_, Enemy.updates_process sqrt rect_tile_map deltas e⟩
  · generalize deltas ++ [delta] = l
    induction l generalizing e with
    | nil => rfl
    | cons d rest ih =>
      have := ih (e.on_update sqrt rect_tile_map d)
      rw [(Enemy.on_update_frame sqrt rect_tile_map e d).1] at this
      exact this
  · rw [Enemy.updates_append]
    exact Enemy.on_update_process sqrt rect_tile_map _ delta

/-- What a sequence of `on_update` calls does to the route, the target index
and the validity flag. -/
theorem Enemy.updates_frame (sqrt : ℚ → ℚ) (rect_tile_map : SDL_Rect) :
    ∀ (deltas : List ℚ) (e : Enemy),
      (Enemy.updates sqrt rect_tile_map e deltas).route = e.route ∧
      e.idx_target ≤ (Enemy.updates sqrt rect_tile_map e deltas).idx_target ∧
      (Enemy.updates sqrt rect_tile_map e deltas).idx_target ≤ e.idx_target + deltas.length ∧
      (Enemy.updates sqrt rect_tile_map e deltas).is_valid = e.is_valid := by
  intro deltas
  induction deltas with
  | nil => intro e; exact ⟨rfl, le_refl _, by simp [Enemy.updates], rfl⟩
  | cons delta rest ih =>
    intro e
    obtain ⟨h1, h2, h3, h4⟩ := ih (e.on_update sqrt rect_tile_map delta)
    obtain ⟨g1, g2, g3⟩ := Enemy.on_update_frame sqrt rect_tile_map e delta
    have hu : Enemy.updates sqrt rect_tile_map e (delta :: rest) =
        Enemy.updates sqrt rect_tile_map (e.on_update sqrt rect_tile_map delta) rest := rfl
    rw [hu]
    refine ⟨h1.trans g1, ?_, ?_, h4.trans g3⟩
    · rcases g2 with g | g <;> rw [g] at h2 <;> omega
    · simp only [List.length_cons, Nat.cast_add, Nat.cast_one]
      rcases g2 with g | g <;> rw [g] at h3 <;> omega

theorem Enemy.sample_sqrt_eq : Enemy.sample_sqrt = Rat.sqrt := by
  funext q
  unfold Enemy.sample_sqrt
  split_ifs with h0 h1
  · rw [h0]; norm_num
  · rw [h1]
    have : (2304 : ℚ) = 48 * 48 := by norm_num
    rw [this, Rat.sqrt_eq]
    norm_num
  · rfl

/-- C22 (the claim as stated fails): the sample walker, spawned at the first of
the two waypoints of a route that ends at home, has progress 2 after three
updates of one second. -/
theorem enemy_route_process_exceeds_one :
    Enemy.sample_walker.route.idx_list = [{ x := 0, y := 0 }, { x := 1, y := 0 }] ∧
    (Enemy.updates Rat.sqrt { x := 0, y := 0, w := 96, h := 48 } Enemy.sample_walker
      [1, 1, 1]).get_route_process = 2 ∧
    ¬ ((Enemy.updates Rat.sqrt { x := 0, y := 0, w := 96, h := 48 } Enemy.sample_walker
      [1, 1, 1]).get_route_process ≤ 1) := by
  rw [← Enemy.sample_sqrt_eq]
  decide!

theorem Enemy.get_route_process_single (e : Enemy) (h : e.route.idx_list.length = 1) :
    e.get_route_process = 1 := by
  unfold Enemy.get_route_process
  rw [if_pos h]

theorem Enemy.get_route_process_eq (e : Enemy) (h2 : 2 ≤ e.route.idx_list.length)
    (hlen : e.route.idx_list.length < 2 ^ 64) :
    e.get_route_process = (e.idx_target : ℚ) / ((e.route.idx_list.length : ℚ) - 1) := by
  unfold Enemy.get_route_process
  rw [if_neg (by omega)]
  have hmod : (e.route.idx_list.length + 2 ^ 64 - 1) % 2 ^ 64 = e.route.idx_list.length - 1 := by
    omega
  rw [hmod, Nat.cast_sub (by omega)]
  simp

theorem Enemy.increase_hp_place (e : Enemy) (val : ℚ) :
    (e.increase_hp val).position = e.position ∧
      (e.increase_hp val).position_target = e.position_target := by
  unfold Enemy.increase_hp
  dsimp only
  split_ifs <;> exact ⟨rfl, rfl⟩

theorem Enemy.on_skill_released_place (sqrt : ℚ → ℚ) (e : Enemy) :
    (e.on_skill_released sqrt).position = e.position ∧
      (e.on_skill_released sqrt).position_target = e.position_target := by
  unfold Enemy.on_skill_released
  dsimp only
  split_ifs
  · exact ⟨rfl, rfl⟩
  · exact Enemy.increase_hp_place e _
  · exact ⟨rfl, rfl⟩

/-- The timer updates move neither the enemy nor its target. -/
theorem Enemy.on_update_timers_place (sqrt : ℚ → ℚ) (e : Enemy) (delta : ℚ) :
    (e.on_update_timers sqrt delta).position = e.position ∧
      (e.on_update_timers sqrt delta).position_target = e.position_target := by
  have hs := Enemy.on_skill_released_place sqrt
    { e with timer_skill := (e.timer_skill.on_update (some id) delta).1 }
  unfold Enemy.on_update_timers
  dsimp only
  split_ifs <;> first | exact ⟨rfl, rfl⟩ | exact hs

theorem Enemy.on_update_move_idx_target (sqrt : ℚ → ℚ) (rect_tile_map : SDL_Rect) (e : Enemy)
    (delta : ℚ) :
    (e.on_update_move sqrt rect_tile_map delta).idx_target =
      if e.stands_on_target sqrt then e.idx_target + 1 else e.idx_target := by
  have hr := Enemy.refresh_position_target_frame rect_tile_map
    { e with idx_target := e.idx_target + 1 }
  unfold Enemy.on_update_move Enemy.stands_on_target
  dsimp only
  split_ifs
  · exact hr.2.1
  · rfl

/-- The target index after `on_update`: advanced by one when the enemy stands
on its target at the call, and kept otherwise. -/
theorem Enemy.on_update_idx_target (sqrt : ℚ → ℚ) (rect_tile_map : SDL_Rect) (e : Enemy)
    (delta : ℚ) :
    (e.on_update sqrt rect_tile_map delta).idx_target =
      if e.stands_on_target sqrt then e.idx_target + 1 else e.idx_target := by
  have ht := Enemy.on_update_timers_frame sqrt e delta
  have hp := Enemy.on_update_timers_place sqrt e delta
  unfold Enemy.on_update
  rw [Enemy.on_update_move_idx_target]
  have hst : (e.on_update_timers sqrt delta).stands_on_target sqrt = e.stands_on_target sqrt := by
    unfold Enemy.stands_on_target
    rw [hp.1, hp.2]
  rw [hst, ht.2.1]

/-- While no update is made with the enemy standing on the last waypoint as
its target, the target index stays below the number of waypoints. -/
theorem Enemy.updates_idx_target_le (sqrt : ℚ → ℚ) (rect_tile_map : SDL_Rect) (n : Int) :
    ∀ (deltas : List ℚ) (e : Enemy), e.idx_target + 1 ≤ n →
      (∀ k, k < deltas.length →
        (Enemy.updates sqrt rect_tile_map e (deltas.take k)).idx_target + 1 = n →
        (Enemy.updates sqrt rect_tile_map e (deltas.take k)).stands_on_target sqrt = false) →
      (Enemy.updates sqrt rect_tile_map e deltas).idx_target + 1 ≤ n := by
  intro deltas
  induction deltas with
  | nil => intro e h _; exact h
  | cons d rest ih =>
    intro e h hguard
    have hu : Enemy.updates sqrt rect_tile_map e (d :: rest) =
        Enemy.updates sqrt rect_tile_map (e.on_update sqrt rect_tile_map d) rest := rfl
    rw [hu]
    apply ih
    · rw [Enemy.on_update_idx_target]
      by_cases hs : e.stands_on_target sqrt = true
      · rw [if_pos hs]
        by_contra hcon
        have heq : e.idx_target + 1 = n := by omega
        have := hguard 0 (by simp) heq
        have h0 : Enemy.updates sqrt rect_tile_map e (List.take 0 (d :: rest)) = e := rfl
        rw [h0, hs] at this
        exact absurd this (by simp)
      · rw [if_neg hs]
        exact h
    · intro k hk hidx
      have := hguard (k + 1) (by simpa using hk)
      simp only [List.take_succ_cons] at this
      exact this hidx

/-- C22 (amended): for every enemy bound to a route of `n` waypoints whose
target index is between `0` and `n - 1`, and every sequence of
`Enemy::on_update` calls none of which is made while the enemy stands on the
last waypoint as its target (target index `n - 1` and `position_target -
position` approximately zero), the target index is still at most `n - 1` and
`get_route_process` lies in `[0, 1]`; on a single-waypoint route it is `1`
after every sequence of calls; and the call made while the enemy stands on the
last waypoint of a route of `n >= 2` waypoints advances the target index to `n`
and takes `get_route_process` above `1`. -/
theorem enemy_route_process_range (sqrt : ℚ → ℚ) (rect_tile_map : SDL_Rect) (e : Enemy)
    (deltas : List ℚ) (hlen : e.route.idx_list.length < 2 ^ 64)
    (hidx : 0 ≤ e.idx_target) (hlast : e.idx_target + 1 ≤ (e.route.idx_list.length : Int))
    (hguard : ∀ k, k < deltas.length →
      (Enemy.updates sqrt rect_tile_map e (deltas.take k)).idx_target + 1 =
        (e.route.idx_list.length : Int) →
      (Enemy.updates sqrt rect_tile_map e (deltas.take k)).stands_on_target sqrt = false) :
    (Enemy.updates sqrt rect_tile_map e deltas).route = e.route ∧
    (Enemy.updates sqrt rect_tile_map e deltas).idx_target + 1 ≤
      (e.route.idx_list.length : Int) ∧
    0 ≤ (Enemy.updates sqrt rect_tile_map e deltas).get_route_process ∧
    (Enemy.updates sqrt rect_tile_map e deltas).get_route_process ≤ 1 ∧
    (e.route.idx_list.length = 1 → ∀ calls : List ℚ,
      (Enemy.updates sqrt rect_tile_map e calls).get_route_process = 1) ∧
    (2 ≤ e.route.idx_list.length → ∀ (e2 : Enemy) (delta : ℚ), e2.route = e.route →
      e2.idx_target + 1 = (e.route.idx_list.length : Int) →
      e2.stands_on_target sqrt = true →
      (e2.on_update sqrt rect_tile_map delta).idx_target = (e.route.idx_list.length : Int) ∧
      1 < (e2.on_update sqrt rect_tile_map delta).get_route_process) := by
  obtain ⟨hr, h1, _, _⟩ := Enemy.updates_frame sqrt rect_tile_map deltas e
  have hle := Enemy.updates_idx_target_le sqrt rect_tile_map _ deltas e hlast hguard
  have hn1 : 1 ≤ e.route.idx_list.length := by omega
  refine ⟨hr, hle, Enemy.get_route_process_nonneg _ (le_trans hidx h1), ?_, ?_, ?_⟩
  · rcases Nat.lt_or_ge 1 e.route.idx_list.length with htwo | hone
    · have heq := Enemy.get_route_process_eq (Enemy.updates sqrt rect_tile_map e deltas)
        (by rw [hr]; exact htwo) (by rw [hr]; exact hlen)
      rw [hr] at heq
      rw [heq]
      have hpos : (0 : ℚ) < (e.route.idx_list.length : ℚ) - 1 := by
        have : (2 : ℚ) ≤ (e.route.idx_list.length : ℚ) := by exact_mod_cast htwo
        linarith
      rw [div_le_one hpos]
      have : ((Enemy.updates sqrt rect_tile_map e deltas).idx_target : ℚ) + 1 ≤
          (((e.route.idx_list.length : Int)) : ℚ) := by exact_mod_cast hle
      push_cast at this
      linarith
    · have hone2 : e.route.idx_list.length = 1 := by omega
      rw [Enemy.get_route_process_single _ (by rw [hr]; exact hone2)]
  · intro hone calls
    have hrc := (Enemy.updates_frame sqrt rect_tile_map calls e).1
    exact Enemy.get_route_process_single _ (by rw [hrc]; exact hone)
  · intro htwo e2 delta hroute hidx2 hstand
    have hi : (e2.on_update sqrt rect_tile_map delta).idx_target =
        (e.route.idx_list.length : Int) := by
      rw [Enemy.on_update_idx_target, if_pos hstand]
      exact hidx2
    refine ⟨hi, ?_⟩
    have hr2 := (Enemy.on_update_frame sqrt rect_tile_map e2 delta).1
    have heq := Enemy.get_route_process_eq (e2.on_update sqrt rect_tile_map delta)
      (by rw [hr2, hroute]; exact htwo) (by rw [hr2, hroute]; exact hlen)
    rw [heq, hi, hr2, hroute]
    have hpos : (0 : ℚ) < (e.route.idx_list.length : ℚ) - 1 := by
      have : (2 : ℚ) ≤ (e.route.idx_list.length : ℚ) := by exact_mod_cast htwo
      linarith
    rw [lt_div_iff₀ hpos]
    push_cast
    linarith

theorem enemy_route_process_range_witness :
    (Enemy.updates Rat.sqrt { x := 0, y := 0, w := 96, h := 48 } Enemy.sample_walker
      [1, 1]).route = Enemy.sample_walker.route ∧
    (Enemy.updates Rat.sqrt { x := 0, y := 0, w := 96, h := 48 } Enemy.sample_walker
      [1, 1]).idx_target + 1 ≤ (Enemy.sample_walker.route.idx_list.length : Int) ∧
    0 ≤ (Enemy.updates Rat.sqrt { x := 0, y := 0, w := 96, h := 48 } Enemy.sample_walker
      [1, 1]).get_route_process ∧
    (Enemy.updates Rat.sqrt { x := 0, y := 0, w := 96, h := 48 } Enemy.sample_walker
      [1, 1]).get_route_process ≤ 1 ∧
    (Enemy.sample_walker.route.idx_list.length = 1 → ∀ calls : List ℚ,
      (Enemy.updates Rat.sqrt { x := 0, y := 0, w := 96, h := 48 } Enemy.sample_walker
        calls).get_route_process = 1) ∧
    (2 ≤ Enemy.sample_walker.route.idx_list.length → ∀ (e2 : Enemy) (delta : ℚ),
      e2.route = Enemy.sample_walker.route →
      e2.idx_target + 1 = (Enemy.sample_walker.route.idx_list.length : Int) →
      e2.stands_on_target Rat.sqrt = true →
      (e2.on_update Rat.sqrt { x := 0, y := 0, w := 96, h := 48 } delta).idx_target =
        (Enemy.sample_walker.route.idx_list.length : Int) ∧
      1 < (e2.on_update Rat.sqrt { x := 0, y := 0, w := 96, h := 48 } delta).get_route_process) :=
  enemy_route_process_range Rat.sqrt { x := 0, y := 0, w := 96, h := 48 } Enemy.sample_walker
    [1, 1] (by decide!) (by decide!) (by decide!)
    (by
      rw [← Enemy.sample_sqrt_eq]
      intro k hk
      have hk2 : k < 2 := hk
      interval_cases k <;> decide!)

theorem Enemy.decrease_hp_is_valid (e : Enemy) (val : ℚ) :
    (e.decrease_hp val).is_valid = (e.is_valid && decide (0 < e.hp - val)) := by
  unfold Enemy.decrease_hp
  dsimp only
  by_cases h : e.hp - val ≤ 0
  · rw [if_pos h]
    simp [not_lt.mpr h]
  · rw [if_neg h]
    simp [not_le.mp h]

/-- No call makes an invalid enemy valid. -/
theorem Enemy.call_stays_invalid (sqrt : ℚ → ℚ) (rect_tile_map : SDL_Rect) (e : Enemy)
    (c : EnemyCall) (h : e.is_valid = false) : (e.call sqrt rect_tile_map c).is_valid = false := by
  cases c with
  | increase_hp val => exact (Enemy.increase_hp_frame e val).2.2.trans h
  | decrease_hp val =>
    show (e.decrease_hp val).is_valid = false
    rw [Enemy.decrease_hp_is_valid, h]
    rfl
  | make_invalid => rfl
  | slow_down => exact h
  | on_update delta => exact (Enemy.on_update_frame sqrt rect_tile_map e delta).2.2.trans h

theorem Enemy.run_stays_invalid (sqrt : ℚ → ℚ) (rect_tile_map : SDL_Rect) :
    ∀ (calls : List EnemyCall) (e : Enemy), e.is_valid = false →
      (e.run sqrt rect_tile_map calls).is_valid = false := by
  intro calls
  induction calls with
  | nil => intro e h; exact h
  | cons c rest ih =>
    intro e h
    exact ih (e.call sqrt rect_tile_map c) (Enemy.call_stays_invalid sqrt rect_tile_map e c h)

/-- C30: for every enemy and every sequence of `increase_hp`, `decrease_hp`,
`make_invalid`, `slow_down` and `on_update` calls, an enemy whose `can_remove()`
is true has `can_remove()` true after the sequence; and when `decrease_hp`
brings the hp to 0, a following `increase_hp(v)` sets the hp to
`min(max_hp, v)` and leaves `can_remove()` true. -/
theorem enemy_can_remove_is_permanent (sqrt : ℚ → ℚ) (rect_tile_map : SDL_Rect) (e : Enemy) :
    (∀ calls : List EnemyCall, e.can_remove = true →
      (e.run sqrt rect_tile_map calls).can_remove = true) ∧
    (∀ val v : ℚ, e.hp - val ≤ 0 →
      (e.decrease_hp val).hp = 0 ∧ (e.decrease_hp val).can_remove = true ∧
      ((e.decrease_hp val).increase_hp v).hp = min e.max_hp v ∧
      ((e.decrease_hp val).increase_hp v).can_remove = true) := by
  constructor
  · intro calls h
    have hv : e.is_valid = false := by simpa [Enemy.can_remove] using h
    have := Enemy.run_stays_invalid sqrt rect_tile_map calls e hv
    simp [Enemy.can_remove, this]
  · intro val v h
    have hd : e.decrease_hp val =
        { e with hp := 0, is_valid := false, is_show_sketch := true,
                 timer_sketch := e.timer_sketch.restart } := by
      unfold Enemy.decrease_hp
      dsimp only
      rw [if_pos h]
    rw [Enemy.increase_hp_eq, hd]
    refine ⟨rfl, rfl, ?_, rfl⟩
    simp

theorem enemy_can_remove_is_permanent_witness :
    (Enemy.sample_walker.make_invalid.run Rat.sqrt {}
      [EnemyCall.increase_hp 5, EnemyCall.on_update 1, EnemyCall.slow_down,
        EnemyCall.decrease_hp 1, EnemyCall.on_update 1]).can_remove = true ∧
    Enemy.sample_walker.hp - 10 ≤ 0 ∧
    (Enemy.sample_walker.decrease_hp 10).hp = 0 ∧
    (Enemy.sample_walker.decrease_hp 10).can_remove = true ∧
    ((Enemy.sample_walker.decrease_hp 10).increase_hp 4).hp = min Enemy.sample_walker.max_hp 4 ∧
    ((Enemy.sample_walker.decrease_hp 10).increase_hp 4).can_remove = true :=
  ⟨(enemy_can_remove_is_permanent Rat.sqrt {} Enemy.sample_walker.make_invalid).1 _ rfl,
    by decide!,
    (enemy_can_remove_is_permanent Rat.sqrt {} Enemy.sample_walker).2 10 4 (by decide!)⟩

/-- In a non-empty rectangular grid the constructor of a route reads inside the
vectors. -/
theorem Route.construct_no_bad_index (map : TileMap) (w : Nat) (idx_origin : SDL_Point)
    (hr : Route.Rectangular map w) (hne : map ≠ []) :
    (Route.construct map idx_origin).2 ≠ Route.Exit.bad_index := by
  cases map with
  | nil => exact absurd rfl hne
  | cons row0 rows =>
    have hw : row0.length = w := hr row0 (List.mem_cons_self _ _)
    simp only [Route.construct]
    apply Route.loop_no_bad_index
    intro p hp
    rw [hw] at hp
    exact (Route.tile_at_rectangular (row0 :: rows) w hr p).mpr hp

theorem Map.cache_tile_spec (m : Map) (idx : SDL_Point) (tile : Tile)
    (ht : Route.tile_at m.tile_map idx = some tile)
    (hb : (Route.construct m.tile_map idx).2 ≠ Route.Exit.bad_index) :
    ∃ m1, m.cache_tile idx = some m1 ∧ m1.tile_map = m.tile_map ∧
      m1.idx_home = if Map.is_home m.tile_map idx then idx else m.idx_home := by
  unfold Map.cache_tile Map.is_home
  rw [ht]
  dsimp only
  by_cases h1 : tile.special_flag < 0
  · rw [if_pos h1]
    refine ⟨m, rfl, rfl, ?_⟩
    have : tile.special_flag ≠ 0 := by omega
    simp [this]
  · rw [if_neg h1]
    by_cases h2 : tile.special_flag = 0
    · rw [if_pos h2]
      exact ⟨_, rfl, rfl, by simp [h2]⟩
    · rw [if_neg h2]
      cases hc : Route.construct m.tile_map idx with
      | mk route exit =>
        rw [hc] at hb
        cases exit with
        | bad_index => exact absurd rfl hb
        | done => exact ⟨_, rfl, rfl, by simp [h2]⟩
        | no_fuel => exact ⟨_, rfl, rfl, by simp [h2]⟩

theorem Map.cache_cells_spec (tile_map : TileMap)
    (hb : ∀ idx, (Route.construct tile_map idx).2 ≠ Route.Exit.bad_index) :
    ∀ (cells : List SDL_Point) (m : Map), m.tile_map = tile_map →
      (∀ idx ∈ cells, ∃ tile, Route.tile_at tile_map idx = some tile) →
      ∃ m2, m.cache_cells cells = some m2 ∧ m2.tile_map = tile_map ∧
        m2.idx_home = ((cells.filter (Map.is_home tile_map)).getLast?).getD m.idx_home := by
  intro cells
  induction cells with
  | nil => intro m hm _; exact ⟨m, rfl, hm, rfl⟩
  | cons idx rest ih =>
    intro m hm hall
    obtain ⟨tile, ht⟩ := hall idx (List.mem_cons_self _ _)
    obtain ⟨m1, h1, htm, hhome⟩ := Map.cache_tile_spec m idx tile (by rw [hm]; exact ht)
      (by rw [hm]; exact hb idx)
    obtain ⟨m2, h2, htm2, hhome2⟩ := ih m1 (htm.trans hm)
      (fun i hi => hall i (List.mem_cons_of_mem _ hi))
    refine ⟨m2, ?_, htm2, ?_⟩
    · simp only [Map.cache_cells, h1]
      exact h2
    · rw [hhome2, hhome, hm]
      by_cases hh : Map.is_home tile_map idx = true
      · rw [if_pos hh, List.filter_cons_of_pos hh, List.getLast?_cons]
        rfl
      · rw [if_neg hh, List.filter_cons_of_neg hh]

theorem Map.mem_scan_order (width height : Nat) (idx : SDL_Point)
    (h : idx ∈ Map.scan_order width height) : Route.InBox width height idx := by
  unfold Map.scan_order at h
  obtain ⟨y, hy, hin⟩ := List.mem_flatMap.mp h
  obtain ⟨x, hx, rfl⟩ := List.mem_map.mp hin
  have hx2 := List.mem_range.mp hx
  have hy2 := List.mem_range.mp hy
  have hx3 : (x : Int) < width := by exact_mod_cast hx2
  have hy3 : (y : Int) < height := by exact_mod_cast hy2
  exact ⟨Int.natCast_nonneg _, hx3, Int.natCast_nonneg _, hy3⟩

/-- C23 (amended): for every non-empty rectangular grid `generate_map_cache`
returns, and the home index afterwards is the last tile with special flag 0 in
the row-major scan order (each home tile met overwrites the index); with no
such tile the index stays as it was. -/
theorem map_home_index_is_last (m : Map) (w : Nat) (hne : m.tile_map ≠ [])
    (hr : Route.Rectangular m.tile_map w) :
    ∃ m2, m.generate_map_cache = some m2 ∧ m2.tile_map = m.tile_map ∧
      m2.idx_home = m.home_cells.getLast?.getD m.idx_home := by
  have hw : m.get_width = w := by
    unfold Map.get_width
    cases htm : m.tile_map with
    | nil => exact absurd htm hne
    | cons row0 rows =>
      rw [htm] at hr
      exact hr row0 (List.mem_cons_self _ _)
  unfold Map.generate_map_cache Map.home_cells
  apply Map.cache_cells_spec m.tile_map
    (fun idx => Route.construct_no_bad_index m.tile_map w idx hr hne) _ m rfl
  intro idx hidx
  have hbox := Map.mem_scan_order _ _ idx hidx
  rw [hw] at hbox
  exact (Route.tile_at_rectangular m.tile_map w hr idx).mpr hbox

theorem map_home_index_is_last_witness :
    ∃ m2, Map.sample_two_homes.generate_map_cache = some m2 ∧
      m2.tile_map = Map.sample_two_homes.tile_map ∧
      m2.idx_home =
        Map.sample_two_homes.home_cells.getLast?.getD Map.sample_two_homes.idx_home :=
  map_home_index_is_last Map.sample_two_homes 2 (by decide!) (by
    intro row hrow
    simp only [Map.sample_two_homes, List.mem_singleton] at hrow
    rw [hrow]
    rfl)

/-- C23 (the claim as stated fails): in a row of two home tiles the scan meets
`(0, 0)` first, and the home index after `generate_map_cache` is `(1, 0)`. -/
theorem map_home_index_not_first :
    Map.sample_two_homes.home_cells = [{ x := 0, y := 0 }, { x := 1, y := 0 }] ∧
    (Map.generate_map_cache Map.sample_two_homes).map (fun m => m.idx_home) =
      some { x := 1, y := 0 } ∧
    (Map.generate_map_cache Map.sample_two_homes).map (fun m => m.idx_home) ≠
      Map.sample_two_homes.home_cells.head? := by
  decide!

theorem erase_remove_if_total {α : Type} (p : α → Bool) (l : List α) :
    erase_remove_if (fun a => some (p a)) l = some (l.filter fun a => !p a) := by
  induction l with
  | nil => rfl
  | cons a rest ih =>
    simp only [erase_remove_if, ih]
    cases h : p a <;> simp [h]

/-- C24 (the code at the failing input): the sweeps of the enemy and the bullet
registry return, for every list, the members whose `can_remove()` is false in
their order, and a second sweep returns the same list; the predicate of the
coin sweep returns a value only for a removable coin, so the sweep of a
registry holding one valid coin has no defined result, while a registry of
removable coins only is emptied. -/
theorem coin_sweep_predicate_without_return :
    CoinManager.sweep [({} : CoinProp)] = none ∧
    CoinManager.sweep [({} : CoinProp).make_invalid, ({} : CoinProp).make_invalid] = some [] ∧
    (∀ enemy_list : List Enemy,
      EnemyManager.remove_invalid_enemy enemy_list =
        some (enemy_list.filter fun e => !e.can_remove) ∧
      EnemyManager.remove_invalid_enemy (enemy_list.filter fun e => !e.can_remove) =
        some (enemy_list.filter fun e => !e.can_remove)) ∧
    (∀ bullet_list : List Bullet,
      BulletManager.sweep bullet_list = some (bullet_list.filter fun b => !b.can_remove) ∧
      BulletManager.sweep (bullet_list.filter fun b => !b.can_remove) =
        some (bullet_list.filter fun b => !b.can_remove)) := by
  refine ⟨rfl, rfl, ?_, ?_⟩
  · intro enemy_list
    unfold EnemyManager.remove_invalid_enemy
    exact ⟨erase_remove_if_total _ _, by rw [erase_remove_if_total, List.filter_filter]; simp⟩
  · intro bullet_list
    unfold BulletManager.sweep
    exact ⟨erase_remove_if_total _ _, by rw [erase_remove_if_total, List.filter_filter]; simp⟩

theorem TowerManager.upgrade_tower_level (config : ConfigManager) (t : TowerType) :
    (TowerManager.upgrade_tower config t).level_of t = min (config.level_of t + 1) 9 := by
  cases t <;>
  · simp only [TowerManager.upgrade_tower, ConfigManager.level_of]
    split_ifs <;> omega

theorem TowerManager.upgrade_tower_other (config : ConfigManager) (t t2 : TowerType)
    (h : t2 ≠ t) : (TowerManager.upgrade_tower config t).level_of t2 = config.level_of t2 := by
  cases t <;> cases t2 <;> first | rfl | exact absurd rfl h

theorem TowerManager.upgrade_tower_in_range (config : ConfigManager) (t : TowerType)
    (h : config.LevelsInRange) : (TowerManager.upgrade_tower config t).LevelsInRange := by
  obtain ⟨⟨a1, a2⟩, ⟨b1, b2⟩, c1, c2⟩ := h
  cases t <;>
  · simp only [TowerManager.upgrade_tower, ConfigManager.LevelsInRange]
    split_ifs <;> omega

theorem TowerManager.upgrades_in_range :
    ∀ (types : List TowerType) (config : ConfigManager), config.LevelsInRange →
      (TowerManager.upgrades config types).LevelsInRange := by
  intro types
  induction types with
  | nil => intro config h; exact h
  | cons t rest ih =>
    intro config h
    exact ih _ (TowerManager.upgrade_tower_in_range config t h)

/-- C25: from levels in 0..9 and after every sequence of upgrade commands, the
three levels are in 0..9, and `upgrade_tower(t)` sets the level of type `t` to
`min(level + 1, 9)`, leaves the levels of the other two types as they are, and
keeps every level in 0..9. -/
theorem tower_upgrade_caps_at_nine (config : ConfigManager) (types : List TowerType)
    (t : TowerType) (h : config.LevelsInRange) :
    (TowerManager.upgrades config types).LevelsInRange ∧
    (TowerManager.upgrade_tower (TowerManager.upgrades config types) t).level_of t =
      min ((TowerManager.upgrades config types).level_of t + 1) 9 ∧
    (∀ t2, t2 ≠ t →
      (TowerManager.upgrade_tower (TowerManager.upgrades config types) t).level_of t2 =
        (TowerManager.upgrades config types).level_of t2) ∧
    (TowerManager.upgrade_tower (TowerManager.upgrades config types) t).LevelsInRange := by
  have hr := TowerManager.upgrades_in_range types config h
  exact ⟨hr, TowerManager.upgrade_tower_level _ t,
    fun t2 h2 => TowerManager.upgrade_tower_other _ t t2 h2,
    TowerManager.upgrade_tower_in_range _ t hr⟩

theorem tower_upgrade_caps_at_nine_witness :
    (TowerManager.upgrades Tower.sample_config
      (List.replicate 12 TowerType.Axeman ++ [TowerType.Gunner])).LevelsInRange ∧
    (TowerManager.upgrade_tower (TowerManager.upgrades Tower.sample_config
      (List.replicate 12 TowerType.Axeman ++ [TowerType.Gunner])) TowerType.Axeman).level_of
        TowerType.Axeman =
      min ((TowerManager.upgrades Tower.sample_config
        (List.replicate 12 TowerType.Axeman ++ [TowerType.Gunner])).level_of
          TowerType.Axeman + 1) 9 ∧
    (∀ t2, t2 ≠ TowerType.Axeman →
      (TowerManager.upgrade_tower (TowerManager.upgrades Tower.sample_config
        (List.replicate 12 TowerType.Axeman ++ [TowerType.Gunner])) TowerType.Axeman).level_of
          t2 =
        (TowerManager.upgrades Tower.sample_config
          (List.replicate 12 TowerType.Axeman ++ [TowerType.Gunner])).level_of t2) ∧
    (TowerManager.upgrade_tower (TowerManager.upgrades Tower.sample_config
      (List.replicate 12 TowerType.Axeman ++ [TowerType.Gunner]))
        TowerType.Axeman).LevelsInRange :=
  tower_upgrade_caps_at_nine Tower.sample_config
    (List.replicate 12 TowerType.Axeman ++ [TowerType.Gunner]) TowerType.Axeman
    (by simp [ConfigManager.LevelsInRange, Tower.sample_config])

/-- C26: for every enemy type and every spawn-point id for which the spawner
route pool has no route, `spawn_enemy` returns with the enemy list as it
was. -/
theorem spawn_enemy_unknown_spawn_point (new_enemy : EnemyType → Enemy) (config : ConfigManager)
    (enemy_list : List Enemy) (type : EnemyType) (idx_spawn_point : Int)
    (h : config.map.spawner_route_pool idx_spawn_point = none) :
    EnemyManager.spawn_enemy new_enemy config enemy_list type idx_spawn_point =
      some enemy_list := by
  unfold EnemyManager.spawn_enemy
  rw [h]

theorem spawn_enemy_unknown_spawn_point_witness :
    EnemyManager.spawn_enemy (fun _ => {}) WaveManager.sample_level [Enemy.sample_walker]
      EnemyType.Goblin 7 = some [Enemy.sample_walker] :=
  spawn_enemy_unknown_spawn_point (fun _ => {}) WaveManager.sample_level [Enemy.sample_walker]
    EnemyType.Goblin 7 (by decide)

/-- C28: on a non-empty wave list in which every wave has a spawn event (the
routes of the pool having a first waypoint), every run of `on_update` calls
from the start of the game returns, which means that every read
`wave_list[idx_wave]` and `spawn_event_list[idx_spawn_event]` it makes is
inside the vector; afterwards `idx_wave` is at most the number of waves and
equals it only with the game over, `idx_spawn_event` is at most the number of
events of the current wave and equals it exactly when the last enemy has been
spawned; and a further call made with the last enemy spawned and the registry
not empty returns too, makes no call on the other managers and keeps
`idx_spawn_event`. -/
theorem wave_index_reads_in_range (new_enemy : EnemyType → Enemy) (config : ConfigManager)
    (ticks : List WaveManager.Tick) (tick : WaveManager.Tick)
    (hwf : WaveManager.WellFormed config.wave_list)
    (hpool : WaveManager.PoolRoutesNonempty config) :
    ∃ w0 w w2, ∃ k m : Nat,
      WaveManager.start config = some w0 ∧ WaveManager.run new_enemy w0 ticks = some w ∧
      WaveManager.on_update new_enemy (WaveManager.arrive w tick) tick.delta = some w2 ∧
      w.wave_manager.idx_wave = (k : Int) ∧ w.wave_manager.idx_spawn_event = (m : Int) ∧
      k ≤ config.wave_list.length ∧
      (k = config.wave_list.length → w.config.is_game_over = true) ∧
      (∀ wave, config.wave_list.get? k = some wave →
        m ≤ wave.spawn_event_list.length ∧
        (w.wave_manager.is_spawned_last_enemy = true ↔ m = wave.spawn_event_list.length)) ∧
      ((WaveManager.arrive w tick).config.is_game_over = false →
        w.wave_manager.is_spawned_last_enemy = true → tick.enemy_list ≠ [] →
        w2.events = w.events ∧
        w2.wave_manager.idx_spawn_event = w.wave_manager.idx_spawn_event ∧
        w2.wave_manager.idx_wave = w.wave_manager.idx_wave) := by
  obtain ⟨w0, h0, hI0, _⟩ := WaveManager.start_inv config hwf hpool
  obtain ⟨w, k, m, hrun, hI⟩ := WaveManager.run_inv new_enemy config.wave_list hwf ticks 0 0 w0 hI0
  have hIa := WaveManager.arrive_inv config.wave_list k m w tick hI
  obtain ⟨w2, k2, m2, h2, hI2, _, hlast⟩ := WaveManager.on_update_step new_enemy
    config.wave_list k m (WaveManager.arrive w tick) tick.delta hwf hIa
  refine ⟨w0, w, w2, k, m, h0, hrun, h2, hI.idx_wave, hI.idx_spawn_event, hI.wave_le, hI.over,
    ?_, ?_⟩
  · intro wave hwave
    obtain ⟨h1, h3, _, _⟩ := hI.in_wave wave hwave
    exact ⟨h1, h3⟩
  · intro hover hflag hne
    obtain ⟨_, hb⟩ := hlast hover hflag
    obtain ⟨he, hm, hk⟩ := hb hne
    refine ⟨he, ?_, ?_⟩
    · rw [hI2.idx_spawn_event, hI.idx_spawn_event, hm]
    · rw [hI2.idx_wave, hI.idx_wave, hk]

theorem wave_index_reads_in_range_witness :
    ∃ w0 w w2, ∃ k m : Nat,
      WaveManager.start WaveManager.sample_level = some w0 ∧
      WaveManager.run (fun _ => {}) w0
        [WaveManager.busy 0, WaveManager.busy 1, WaveManager.busy 1, WaveManager.busy 1] =
          some w ∧
      WaveManager.on_update (fun _ => {}) (WaveManager.arrive w (WaveManager.busy 3))
        (WaveManager.busy 3).delta = some w2 ∧
      w.wave_manager.idx_wave = (k : Int) ∧ w.wave_manager.idx_spawn_event = (m : Int) ∧
      k ≤ WaveManager.sample_level.wave_list.length ∧
      (k = WaveManager.sample_level.wave_list.length → w.config.is_game_over = true) ∧
      (∀ wave, WaveManager.sample_level.wave_list.get? k = some wave →
        m ≤ wave.spawn_event_list.length ∧
        (w.wave_manager.is_spawned_last_enemy = true ↔ m = wave.spawn_event_list.length)) ∧
      ((WaveManager.arrive w (WaveManager.busy 3)).config.is_game_over = false →
        w.wave_manager.is_spawned_last_enemy = true → (WaveManager.busy 3).enemy_list ≠ [] →
        w2.events = w.events ∧
        w2.wave_manager.idx_spawn_event = w.wave_manager.idx_spawn_event ∧
        w2.wave_manager.idx_wave = w.wave_manager.idx_wave) :=
  wave_index_reads_in_range (fun _ => {}) WaveManager.sample_level
    [WaveManager.busy 0, WaveManager.busy 1, WaveManager.busy 1, WaveManager.busy 1]
    (WaveManager.busy 3) WaveManager.sample_well_formed WaveManager.sample_pool_nonempty

theorem Route.steps_by_markers_push (map : TileMap) (p : SDL_Point) :
    ∀ l : List SDL_Point, Route.steps_by_markers map l →
      (∀ q, l.getLast? = some q →
        ∃ tile, Route.tile_at map q = some tile ∧ Route.next_idx tile.direction q = some p) →
      Route.steps_by_markers map (l ++ [p]) := by
  intro l
  induction l with
  | nil => intro _ _; trivial
  | cons a rest ih =>
    intro hs hlast
    cases rest with
    | nil => exact ⟨hlast a rfl, trivial⟩
    | cons b more =>
      refine ⟨hs.1, ih hs.2 ?_⟩
      intro q hq
      exact hlast q (by rw [List.getLast?_cons_cons]; exact hq)

/-- The loop keeps the list a walk along the markers, when the coordinate to
be pushed next continues the walk. -/
theorem Route.loop_steps (map : TileMap) (w h : Nat) :
    ∀ (fuel : Nat) (l : IdxList) (p : SDL_Point), Route.steps_by_markers map l →
      (∀ q, l.getLast? = some q →
        ∃ tile, Route.tile_at map q = some tile ∧ Route.next_idx tile.direction q = some p) →
      Route.steps_by_markers map (Route.loop map w h fuel l p).1.idx_list := by
  intro fuel
  induction fuel with
  | zero => intro l p hl _; simpa [Route.loop] using hl
  | succ n ih =>
    intro l p hl hlast
    by_cases hs : ¬ Route.InBox w h p ∨ p ∈ l
    · rw [Route.loop_stop map w h n l p hs]
      exact hl
    · push_neg at hs
      rw [Route.loop_succ map w h n l p hs.1 hs.2]
      have hl1 := Route.steps_by_markers_push map p l hl hlast
      cases ht : Route.tile_at map p with
      | none => exact hl1
      | some tile =>
        dsimp only
        split_ifs
        · exact hl1
        · cases hn : Route.next_idx tile.direction p with
          | none => exact hl1
          | some q =>
            dsimp only
            apply ih _ q hl1
            intro r hr
            have hp : r = p := by simpa using hr.symm
            rw [hp]
            exact ⟨tile, ht, hn⟩

theorem Route.construct_head (row0 : List Tile) (rows : List (List Tile)) (o : SDL_Point)
    (hb : Route.InBox row0.length (row0 :: rows).length o) :
    (Route.construct (row0 :: rows) o).1.idx_list.head? = some o := by
  simp only [Route.construct]
  rw [Route.loop_succ _ _ _ _ _ _ hb (by simp)]
  cases Route.tile_at (row0 :: rows) o with
  | none => rfl
  | some tile =>
    dsimp only
    split_ifs
    · rfl
    · cases Route.next_idx tile.direction o with
      | none => rfl
      | some q =>
        dsimp only
        obtain ⟨rest, hrest⟩ := Route.loop_extends (row0 :: rows) row0.length
          (row0 :: rows).length (row0.length * (row0 :: rows).length) ([] ++ [o]) q
        rw [hrest]
        rfl

/-- C29: in a rectangular grid and for an origin that carries a tile, the
constructor leaves its loop through a `break` without reading outside a
vector; the first waypoint is the origin, every waypoint is inside the grid and
carries a tile, and each waypoint after the first is its predecessor moved one
tile along the marker of the predecessor's tile, the four markers moving by
`y - 1`, `y + 1`, `x - 1` and `x + 1`. -/
theorem route_waypoints_walk_the_markers (map : TileMap) (w : Nat) (idx_origin : SDL_Point)
    (tile : Tile) (hr : Route.Rectangular map w)
    (ht : Route.tile_at map idx_origin = some tile) :
    (Route.construct map idx_origin).2 = Route.Exit.done ∧
    (Route.construct map idx_origin).1.idx_list.head? = some idx_origin ∧
    (∀ p ∈ (Route.construct map idx_origin).1.idx_list,
      Route.InBox w map.length p ∧ ∃ t, Route.tile_at map p = some t) ∧
    Route.steps_by_markers map (Route.construct map idx_origin).1.idx_list ∧
    (∀ p : SDL_Point,
      Route.next_idx Tile.Direction.Up p = some { x := p.x, y := p.y - 1 } ∧
      Route.next_idx Tile.Direction.Down p = some { x := p.x, y := p.y + 1 } ∧
      Route.next_idx Tile.Direction.Left p = some { x := p.x - 1, y := p.y } ∧
      Route.next_idx Tile.Direction.Right p = some { x := p.x + 1, y := p.y }) := by
  have hbox := (Route.tile_at_rectangular map w hr idx_origin).mp ⟨tile, ht⟩
  cases map with
  | nil => simp [Route.tile_at] at ht
  | cons row0 rows =>
    have hw : row0.length = w := hr row0 (List.mem_cons_self _ _)
    have hin : ∀ p ∈ (Route.construct (row0 :: rows) idx_origin).1.idx_list,
        Route.InBox w (row0 :: rows).length p := by
      simp only [Route.construct]
      rw [hw]
      exact Route.loop_in_box _ _ _ _ _ _ (by simp)
    refine ⟨?_, ?_, ?_, ?_, fun p => ⟨rfl, rfl, rfl, rfl⟩⟩
    · have h1 := Route.construct_no_fuel (row0 :: rows) idx_origin
      have h2 := Route.construct_no_bad_index (row0 :: rows) w idx_origin hr (by simp)
      cases hx : (Route.construct (row0 :: rows) idx_origin).2 with
      | done => rfl
      | bad_index => exact absurd hx h2
      | no_fuel => exact absurd hx h1
    · exact Route.construct_head row0 rows idx_origin (by rw [hw]; exact hbox)
    · intro p hp
      exact ⟨hin p hp, (Route.tile_at_rectangular (row0 :: rows) w hr p).mpr (hin p hp)⟩
    · simp only [Route.construct]
      exact Route.loop_steps _ _ _ _ _ _ trivial (by simp)

theorem route_waypoints_walk_the_markers_witness :
    (Route.construct Enemy.sample_map { x := 0, y := 0 }).2 = Route.Exit.done ∧
    (Route.construct Enemy.sample_map { x := 0, y := 0 }).1.idx_list.head? =
      some { x := 0, y := 0 } ∧
    (∀ p ∈ (Route.construct Enemy.sample_map { x := 0, y := 0 }).1.idx_list,
      Route.InBox 2 Enemy.sample_map.length p ∧ ∃ t, Route.tile_at Enemy.sample_map p = some t) ∧
    Route.steps_by_markers Enemy.sample_map
      (Route.construct Enemy.sample_map { x := 0, y := 0 }).1.idx_list ∧
    (∀ p : SDL_Point,
      Route.next_idx Tile.Direction.Up p = some { x := p.x, y := p.y - 1 } ∧
      Route.next_idx Tile.Direction.Down p = some { x := p.x, y := p.y + 1 } ∧
      Route.next_idx Tile.Direction.Left p = some { x := p.x - 1, y := p.y } ∧
      Route.next_idx Tile.Direction.Right p = some { x := p.x + 1, y := p.y }) :=
  route_waypoints_walk_the_markers Enemy.sample_map 2 { x := 0, y := 0 }
    { direction := Tile.Direction.Right }
    (by
      intro row hrow
      simp only [Enemy.sample_map, List.mem_singleton] at hrow
      rw [hrow]
      rfl)
    rfl

/-- A wave object whose `spawn_list` is an array is kept only with a non-empty
spawn event list. -/
theorem ConfigManager.load_wave_array (wave_list : List Wave)
    (children : List (String × cJSON)) (events : List cJSON)
    (hs : (cJSON.cJSON_Object children).GetObjectItem "spawn_list" =
      some (cJSON.cJSON_Array events))
    (hw : ∀ wave ∈ wave_list, wave.spawn_event_list ≠ []) :
    ∀ wave ∈ ConfigManager.load_wave wave_list (cJSON.cJSON_Object children),
      wave.spawn_event_list ≠ [] := by
  simp only [ConfigManager.load_wave, hs]
  split_ifs with hempty
  · exact hw
  · intro wave hmem
    rcases List.mem_append.mp hmem with h | h
    · exact hw wave h
    · rw [List.mem_singleton.mp h]
      intro hnil
      exact hempty (List.isEmpty_iff.mpr hnil)

/-- C27 (the code at the failing input): from the document
`[{"rewards": 10, "interval": 1}]` `load_level_config` returns true with a wave
list of one wave whose spawn event list is empty, because the test that drops
an empty wave stands inside the branch for a `spawn_list` array; the wave
manager started on that level reads `spawn_event_list[0]` outside the vector
in the update in which the wave starts. -/
theorem config_load_keeps_wave_without_spawn_list :
    (ConfigManager.load_level_config {} (some ConfigManager.sample_document)).1.wave_list =
      [{ rewards := 10, interval := 1, spawn_event_list := [] }] ∧
    (ConfigManager.load_level_config {} (some ConfigManager.sample_document)).2 = true ∧
    (WaveManager.start
      (ConfigManager.load_level_config {} (some ConfigManager.sample_document)).1).isSome =
        true ∧
    ((WaveManager.start
      (ConfigManager.load_level_config {} (some ConfigManager.sample_document)).1).bind
        fun w0 => WaveManager.run (fun _ => {}) w0 [WaveManager.busy 1]).isSome = false := by
  decide!

/-! ## Wave scheduler: the steps -/

/-- An unpaused timer below its wait time only accumulates. -/
theorem Timer.on_update_in_wait {σ : Type} (get : σ → Timer) (set : σ → Timer → σ)
    (cb : σ → Option σ) (s : σ) (delta : ℚ) (hgs : ∀ s t, get (set s t) = t)
    (hp : (get s).paused = false)
    (hlt : (get s).pass_time + delta < (get s).wait_time) :
    Timer.on_update_in get set cb s delta =
      some (set s { get s with pass_time := (get s).pass_time + delta }, 0) := by
  unfold Timer.on_update_in
  rw [if_neg (by simp [hp])]
  simp only [hgs]
  rw [if_neg (not_le.mpr hlt)]

/-- An unpaused timer that has not fired and reaches its wait time invokes the
callback, with `shotted` set, and subtracts the wait time afterwards. -/
theorem Timer.on_update_in_fire {σ : Type} (get : σ → Timer) (set : σ → Timer → σ)
    (cb : σ → Option σ) (s : σ) (delta : ℚ) (hgs : ∀ s t, get (set s t) = t)
    (hss : ∀ s a b, set (set s a) b = set s b)
    (hp : (get s).paused = false) (hfresh : (get s).shotted = false)
    (hge : (get s).wait_time ≤ (get s).pass_time + delta) :
    Timer.on_update_in get set cb s delta =
      match cb (set s { get s with pass_time := (get s).pass_time + delta, shotted := true }) with
      | none => none
      | some s3 =>
        some (set s3 { get s3 with pass_time := (get s3).pass_time - (get s3).wait_time },
          1) := by
  unfold Timer.on_update_in
  rw [if_neg (by simp [hp])]
  simp only [hgs, hss]
  rw [if_pos hge]
  have hc : (!(get s).one_shot || ((get s).one_shot && !(get s).shotted)) = true := by
    rw [hfresh]
    cases (get s).one_shot <;> rfl
  rw [if_pos hc]

/-- The completion poll on a world in which not all enemies of the wave have
been spawned does nothing. -/
theorem WaveManager.poll_idle (w : WaveWorld)
    (h : w.wave_manager.is_spawned_last_enemy = false) : WaveManager.poll w = some w := by
  unfold WaveManager.poll
  rw [h]
  rfl

/-- One `on_update` call in a started wave with the spawn timer unpaused and
not fired, event `m` of the wave being the next one: below the wait time the
call only accumulates; at the wait time it invokes `spawn_enemy` for event `m`,
advances the event index and, when that was the last event, sets the flag. -/
theorem WaveManager.on_update_spawns (new_enemy : EnemyType → Enemy) (wave_list : List Wave)
    (k m : Nat) (w : WaveWorld) (wave : Wave) (ev : Wave.SpawnEvent) (delta : ℚ)
    (hwf : WaveManager.WellFormed wave_list) (hI : WaveManager.Inv wave_list k m w)
    (hover : w.config.is_game_over = false)
    (hs : w.wave_manager.is_wave_started = true)
    (hp : w.wave_manager.timer_spawn_enemy.paused = false)
    (hfresh : w.wave_manager.timer_spawn_enemy.shotted = false)
    (hwave : wave_list.get? k = some wave)
    (hev : wave.spawn_event_list.get? m = some ev) :
    ∃ w2, WaveManager.on_update new_enemy w delta = some w2 ∧
      (w.wave_manager.timer_spawn_enemy.pass_time + delta <
          w.wave_manager.timer_spawn_enemy.wait_time →
        w2.events = w.events ∧ w2.enemy_list = w.enemy_list ∧
        w2.wave_manager.idx_wave = (k : Int) ∧
        w2.wave_manager.idx_spawn_event = (m : Int) ∧
        w2.wave_manager.is_spawned_last_enemy = false) ∧
      (w.wave_manager.timer_spawn_enemy.wait_time ≤
          w.wave_manager.timer_spawn_enemy.pass_time + delta →
        EnemyManager.spawn_enemy new_enemy w.config w.enemy_list ev.enemy_type
          ev.spawn_point = some w2.enemy_list ∧
        WaveEvent.spawns w2.events =
          WaveEvent.spawns w.events ++ [(ev.enemy_type, ev.spawn_point)] ∧
        (m + 1 < wave.spawn_event_list.length →
          w2.events = w.events ++ [WaveEvent.spawn ev.enemy_type ev.spawn_point] ∧
          w2.wave_manager.idx_wave = (k : Int) ∧
          w2.wave_manager.idx_spawn_event = ((m + 1 : Nat) : Int) ∧
          w2.wave_manager.is_spawned_last_enemy = false ∧
          w2.wave_manager.timer_spawn_enemy.paused = false ∧
          w2.wave_manager.timer_spawn_enemy.shotted = false ∧
          ∀ next, wave.spawn_event_list.get? (m + 1) = some next →
            w2.wave_manager.timer_spawn_enemy.wait_time = next.interval) ∧
        (m + 1 = wave.spawn_event_list.length →
          (w2.events = w.events ++ [WaveEvent.spawn ev.enemy_type ev.spawn_point] ∧
            w2.wave_manager.idx_wave = (k : Int) ∧
            w2.wave_manager.idx_spawn_event = ((m + 1 : Nat) : Int) ∧
            w2.wave_manager.is_spawned_last_enemy = true) ∨
          (w2.enemy_list = [] ∧
            w2.events = w.events ++ [WaveEvent.spawn ev.enemy_type ev.spawn_point,
              WaveEvent.credit wave.rewards] ∧
            w2.wave_manager.idx_wave = ((k + 1 : Nat) : Int)))) := by
  have hlt : m < wave.spawn_event_list.length := by
    by_contra hcon
    rw [List.get?_eq_none.mpr (not_lt.mp hcon)] at hev
    exact absurd hev (by simp)
  obtain ⟨_, hlast, _, _⟩ := hI.in_wave wave hwave
  have hflag : w.wave_manager.is_spawned_last_enemy = false := by
    cases hf : w.wave_manager.is_spawned_last_enemy with
    | false => rfl
    | true => exact absurd (hlast.mp hf) (Nat.ne_of_lt hlt)
  obtain ⟨w1, n1, m1, hres, hI1, hcfg, _⟩ :=
    WaveManager.spawn_phase new_enemy wave_list k m w delta hI hover hs
  obtain ⟨w2, k2, m2, hpoll, hI2, hcase⟩ :=
    WaveManager.poll_phase wave_list k m1 w1 hwf hI1 (by rw [hcfg]; exact hover)
  have hel := WaveManager.poll_enemy_list w1 w2 hpoll
  have hupd : WaveManager.on_update new_enemy w delta = some w2 := by
    unfold WaveManager.on_update
    rw [if_neg (by simp [hover])]
    simp only [hs, Bool.not_true, Bool.false_eq_true, if_false, hres]
    exact hpoll
  refine ⟨w2, hupd, ?_, ?_⟩
  · intro hbelow
    have hexp := Timer.on_update_in_wait
      (fun s : WaveWorld => s.wave_manager.timer_spawn_enemy)
      (fun s t => { s with wave_manager := { s.wave_manager with timer_spawn_enemy := t } })
      (WaveManager.on_spawn_timeout new_enemy) w delta (fun _ _ => rfl) hp hbelow
    rw [hexp] at hres
    have hw1 := (Prod.mk.inj (Option.some.inj hres)).1
    have hidle := WaveManager.poll_idle w1 (by rw [← hw1]; exact hflag)
    rw [hidle] at hpoll
    have hw2 : w2 = w1 := (Option.some.inj hpoll).symm
    rw [hw2, ← hw1]
    exact ⟨rfl, rfl, hI.idx_wave, hI.idx_spawn_event, hflag⟩
  · intro hge
    obtain ⟨l1, hl1⟩ := EnemyManager.spawn_enemy_total new_enemy w.config w.enemy_list
      ev.enemy_type ev.spawn_point hI.pool
    have hexp := Timer.on_update_in_fire
      (fun s : WaveWorld => s.wave_manager.timer_spawn_enemy)
      (fun s t => { s with wave_manager := { s.wave_manager with timer_spawn_enemy := t } })
      (WaveManager.on_spawn_timeout new_enemy) w delta (fun _ _ => rfl) (fun _ _ _ => rfl)
      hp hfresh hge
    have hwave2 : w.config.wave_list.get? k = some wave := by rw [hI.level]; exact hwave
    have hcb := WaveManager.on_spawn_timeout_eq new_enemy
      { w with wave_manager := { w.wave_manager with timer_spawn_enemy :=
          { w.wave_manager.timer_spawn_enemy with
            pass_time := w.wave_manager.timer_spawn_enemy.pass_time + delta,
            shotted := true } } }
      k m wave ev l1 hI.idx_wave hI.idx_spawn_event hwave2 hev hl1
    rw [hcb] at hexp
    by_cases hend : wave.spawn_event_list.length ≤ m + 1
    · rw [if_pos hend] at hexp
      rw [hexp] at hres
      have hw1 := (Prod.mk.inj (Option.some.inj hres)).1
      have hne : ¬ (m + 1 < wave.spawn_event_list.length) := by omega
      have hl : w1.enemy_list = l1 := by rw [← hw1]
      have hev1 : w1.events = w.events ++ [WaveEvent.spawn ev.enemy_type ev.spawn_point] := by
        rw [← hw1]
      refine ⟨by rw [hl1, hel, hl], ?_, fun h => absurd h hne, ?_⟩
      · rcases hcase with ⟨_, _, hw2, _⟩ | ⟨_, _, _, ⟨wave2, hwv, hev2⟩, _⟩
        · rw [hw2, hev1, WaveEvent.spawns_append]
          rfl
        · rw [hev2, hev1, WaveEvent.spawns_append, WaveEvent.spawns_append]
          simp [WaveEvent.spawns]
      · intro _
        rcases hcase with ⟨_, _, hw2, _⟩ | ⟨hk2, _, hclear, ⟨wave2, hwv, hev2⟩, _⟩
        · left
          rw [hw2]
          refine ⟨hev1, ?_, ?_, ?_⟩
          · rw [← hw1]; exact hI.idx_wave
          · rw [← hw1]
          · rw [← hw1]
        · right
          rw [hwave] at hwv
          cases hwv
          refine ⟨by rw [hel]; exact hclear, ?_, ?_⟩
          · rw [hev2, hev1]
            simp
          · rw [hI2.idx_wave, hk2]
    · rw [if_neg hend] at hexp
      have hlt2 : m + 1 < wave.spawn_event_list.length := by omega
      rw [List.get?_eq_getElem?, List.getElem?_eq_getElem hlt2] at hexp
      rw [hexp] at hres
      have hw1 := (Prod.mk.inj (Option.some.inj hres)).1
      have hidle := WaveManager.poll_idle w1 (by rw [← hw1]; exact hflag)
      rw [hidle] at hpoll
      have hw2 : w2 = w1 := (Option.some.inj hpoll).symm
      refine ⟨by rw [hl1, hw2, ← hw1], ?_, ?_, fun h => by omega⟩
      · rw [hw2, ← hw1, WaveEvent.spawns_append]
        rfl
      · intro _
        rw [hw2, ← hw1]
        refine ⟨rfl, hI.idx_wave, rfl, hflag, hp, rfl, ?_⟩
        intro next hnext
        rw [List.get?_eq_getElem?, List.getElem?_eq_getElem hlt2] at hnext
        rw [← Option.some.inj hnext]
        rfl
/-- The completion poll on a world whose last enemy has been spawned and whose
registry is empty. -/
theorem WaveManager.poll_eq (w : WaveWorld) (k : Nat) (wave : Wave)
    (hk : w.wave_manager.idx_wave = (k : Int))
    (hwave : w.config.wave_list.get? k = some wave)
    (hflag : w.wave_manager.is_spawned_last_enemy = true) (hclear : w.enemy_list = []) :
    WaveManager.poll w =
      if w.config.wave_list.length ≤ k + 1 then
        some { w with
          coin_manager := w.coin_manager.increase_coin wave.rewards,
          events := w.events ++ [WaveEvent.credit wave.rewards],
          wave_manager := { w.wave_manager with idx_wave := ((k + 1 : Nat) : Int) },
          config := { w.config with is_game_win := true, is_game_over := true } }
      else
        match w.config.wave_list.get? (k + 1) with
        | none => none
        | some next_wave =>
          some { w with
            coin_manager := w.coin_manager.increase_coin wave.rewards,
            events := w.events ++ [WaveEvent.credit wave.rewards],
            wave_manager := { w.wave_manager with
              idx_wave := ((k + 1 : Nat) : Int), idx_spawn_event := 0,
              is_wave_started := false, is_spawned_last_enemy := false,
              timer_start_wave :=
                (w.wave_manager.timer_start_wave.set_wait_time next_wave.interval).restart } } := by
  unfold WaveManager.poll
  have hcast : (k : Int) + 1 = ((k + 1 : Nat) : Int) := by push_cast; rfl
  simp only [hflag, hclear, EnemyManager.check_cleared, List.isEmpty_nil, Bool.and_self,
    if_true, hk, vector_at_nat, hwave, hcast, Route.index_ge_nat, decide_eq_true_eq]

/-- One `on_update` call on a world whose last enemy of the wave has been
spawned: with the registry empty it credits the reward of the wave once,
advances the wave index and, on the last wave, sets the game flags, otherwise
prepares the next wave; with the registry not empty it calls nothing. -/
theorem WaveManager.on_update_credits (new_enemy : EnemyType → Enemy) (wave_list : List Wave)
    (k m : Nat) (w : WaveWorld) (wave : Wave) (delta : ℚ)
    (hwf : WaveManager.WellFormed wave_list) (hI : WaveManager.Inv wave_list k m w)
    (hover : w.config.is_game_over = false)
    (hflag : w.wave_manager.is_spawned_last_enemy = true)
    (hwave : wave_list.get? k = some wave) :
    ∃ w2, WaveManager.on_update new_enemy w delta = some w2 ∧
      (w.enemy_list = [] →
        w2.events = w.events ++ [WaveEvent.credit wave.rewards] ∧
        w2.coin_manager.num_coin = w.coin_manager.num_coin + wave.rewards ∧
        w2.wave_manager.idx_wave = ((k + 1 : Nat) : Int) ∧
        (k + 1 = wave_list.length →
          w2.config.is_game_win = true ∧ w2.config.is_game_over = true) ∧
        (k + 1 < wave_list.length →
          w2.config.is_game_over = false ∧
          w2.wave_manager.idx_spawn_event = 0 ∧
          w2.wave_manager.is_wave_started = false ∧
          w2.wave_manager.is_spawned_last_enemy = false ∧
          w2.wave_manager.timer_start_wave.shotted = false ∧
          ∀ next_wave, wave_list.get? (k + 1) = some next_wave →
            w2.wave_manager.timer_start_wave.wait_time = next_wave.interval)) ∧
      (w.enemy_list ≠ [] →
        w2.events = w.events ∧ w2.coin_manager = w.coin_manager ∧
        w2.config = w.config ∧
        w2.wave_manager.idx_wave = (k : Int) ∧
        w2.wave_manager.idx_spawn_event = (m : Int) ∧
        w2.wave_manager.is_spawned_last_enemy = true) := by
  have hmem : wave ∈ wave_list := List.get?_mem hwave
  have hne := hwf.2 wave hmem
  have hpos : 0 < wave.spawn_event_list.length := List.length_pos.mpr hne
  obtain ⟨_, hlast, hm0, _⟩ := hI.in_wave wave hwave
  have hmn : m = wave.spawn_event_list.length := hlast.mp hflag
  have hs : w.wave_manager.is_wave_started = true := by
    cases hst : w.wave_manager.is_wave_started with
    | true => rfl
    | false =>
      have := hm0 hst
      omega
  have hklt : k < wave_list.length := by
    by_contra hcon
    rw [List.get?_eq_none.mpr (not_lt.mp hcon)] at hwave
    exact absurd hwave (by simp)
  obtain ⟨w1, n1, m1, hres, hI1, hcfg, hcase⟩ :=
    WaveManager.spawn_phase new_enemy wave_list k m w delta hI hover hs
  obtain ⟨t2, hw1⟩ : ∃ t2, w1 =
      { w with wave_manager := { w.wave_manager with timer_spawn_enemy := t2 } } := by
    rcases hcase with ⟨_, h⟩ | h
    · exact h
    · rw [hflag] at h
      exact absurd h (by simp)
  have hstep : WaveManager.on_update new_enemy w delta = WaveManager.poll w1 := by
    unfold WaveManager.on_update
    rw [if_neg (by simp [hover])]
    simp only [hs, Bool.not_true, Bool.false_eq_true, if_false, hres]
  by_cases hclear : w.enemy_list = []
  · have hpoll := WaveManager.poll_eq w1 k wave (by rw [hw1]; exact hI.idx_wave)
      (by rw [hw1]; show w.config.wave_list.get? k = some wave; rw [hI.level]; exact hwave)
      (by rw [hw1]; exact hflag) (by rw [hw1]; exact hclear)
    have hlen : w1.config.wave_list.length = wave_list.length := by
      rw [hw1]
      show w.config.wave_list.length = wave_list.length
      rw [hI.level]
    have hget : w1.config.wave_list.get? (k + 1) = wave_list.get? (k + 1) := by
      rw [hw1]
      show w.config.wave_list.get? (k + 1) = wave_list.get? (k + 1)
      rw [hI.level]
    rw [hlen, hget] at hpoll
    by_cases hend : wave_list.length ≤ k + 1
    · rw [if_pos hend] at hpoll
      refine ⟨_, hstep.trans hpoll, ?_, fun h => absurd hclear h⟩
      intro _
      rw [hw1]
      refine ⟨rfl, rfl, rfl, fun _ => ⟨rfl, rfl⟩, fun h => by omega⟩
    · rw [if_neg hend] at hpoll
      have hlt2 : k + 1 < wave_list.length := by omega
      rw [List.get?_eq_getElem?, List.getElem?_eq_getElem hlt2] at hpoll
      refine ⟨_, hstep.trans hpoll, ?_, fun h => absurd hclear h⟩
      intro _
      rw [hw1]
      refine ⟨rfl, rfl, rfl, fun h => by omega, fun _ => ⟨hover, rfl, rfl, rfl, rfl, ?_⟩⟩
      intro next_wave hnext
      rw [List.get?_eq_getElem?, List.getElem?_eq_getElem hlt2] at hnext
      rw [← Option.some.inj hnext]
      rfl
  · have hpoll : WaveManager.poll w1 = some w1 := by
      unfold WaveManager.poll
      have hl : w1.enemy_list = w.enemy_list := by rw [hw1]
      have hc : (w1.wave_manager.is_spawned_last_enemy &&
          EnemyManager.check_cleared w1.enemy_list) = false := by
        rw [hl]
        cases hwl : w.enemy_list with
        | nil => exact absurd hwl hclear
        | cons a rest => simp [EnemyManager.check_cleared]
      rw [hc]
      rfl
    refine ⟨w1, hstep.trans hpoll, fun h => absurd h hclear, ?_⟩
    intro _
    rw [hw1]
    exact ⟨rfl, rfl, rfl, hI.idx_wave, hI.idx_spawn_event, hflag⟩

/-- With the game over `on_update` returns at once. -/
theorem WaveManager.on_update_over (new_enemy : EnemyType → Enemy) (w : WaveWorld) (delta : ℚ)
    (hover : w.config.is_game_over = true) :
    WaveManager.on_update new_enemy w delta = some w := by
  unfold WaveManager.on_update
  rw [if_pos hover]

/-- The result of `on_update_in`: either only the timer changed, keeping
`paused`, and keeping `shotted` unless the timer is a one-shot timer that had
fired; or the callback ran on the owner and the wait time was subtracted
afterwards. -/
theorem Timer.on_update_in_result {σ : Type} (get : σ → Timer) (set : σ → Timer → σ)
    (cb : σ → Option σ) (s : σ) (delta : ℚ) (r : σ × Nat)
    (hgs : ∀ s t, get (set s t) = t) (hss : ∀ s a b, set (set s a) b = set s b)
    (hsg : ∀ s, set s (get s) = s)
    (h : Timer.on_update_in get set cb s delta = some r) :
    (∃ t2, r.1 = set s t2 ∧ t2.paused = (get s).paused ∧
      (t2.shotted = (get s).shotted ∨ (get s).shotted = true)) ∨
    (∃ t2 s3, t2.paused = (get s).paused ∧ cb (set s t2) = some s3 ∧
      r.1 = set s3 { get s3 with pass_time := (get s3).pass_time - (get s3).wait_time }) := by
  unfold Timer.on_update_in at h
  by_cases hp : (get s).paused = true
  · rw [if_pos hp] at h
    left
    refine ⟨get s, ?_, rfl, Or.inl rfl⟩
    rw [← Option.some.inj h, hsg]
  · rw [if_neg hp] at h
    simp only [hgs, hss] at h
    by_cases hw : (get s).pass_time + delta ≥ (get s).wait_time
    · rw [if_pos hw] at h
      by_cases hc : (!(get s).one_shot || ((get s).one_shot && !(get s).shotted)) = true
      · rw [if_pos hc] at h
        right
        cases hcb : cb (set s { get s with
            pass_time := (get s).pass_time + delta, shotted := true }) with
        | none => rw [hcb] at h; exact absurd h (by simp)
        | some s3 =>
          rw [hcb] at h
          exact ⟨{ get s with pass_time := (get s).pass_time + delta, shotted := true }, s3,
            rfl, hcb, by rw [← Option.some.inj h]⟩
      · rw [if_neg hc] at h
        left
        refine ⟨{ get s with
            pass_time := (get s).pass_time + delta - (get s).wait_time, shotted := true },
          by rw [← Option.some.inj h], rfl, Or.inr ?_⟩
        cases hsh : (get s).shotted with
        | true => rfl
        | false =>
          rw [hsh] at hc
          cases ho : (get s).one_shot <;> rw [ho] at hc <;> simp at hc
    · rw [if_neg hw] at h
      left
      exact ⟨{ get s with pass_time := (get s).pass_time + delta },
        by rw [← Option.some.inj h], rfl, Or.inl rfl⟩

theorem WaveManager.on_start_timeout_armed (w w2 : WaveWorld)
    (h : WaveManager.on_start_timeout w = some w2)
    (hp : w.wave_manager.timer_spawn_enemy.paused = false) : WaveManager.Armed w2 := by
  unfold WaveManager.on_start_timeout at h
  dsimp only at h
  split at h
  · exact absurd h (by simp)
  · split at h
    · exact absurd h (by simp)
    · cases h
      exact ⟨hp, fun _ _ => rfl⟩

theorem WaveManager.on_spawn_timeout_armed (new_enemy : EnemyType → Enemy) (w w2 : WaveWorld)
    (h : WaveManager.on_spawn_timeout new_enemy w = some w2)
    (hp : w.wave_manager.timer_spawn_enemy.paused = false) : WaveManager.Armed w2 := by
  unfold WaveManager.on_spawn_timeout at h
  dsimp only at h
  split at h
  · exact absurd h (by simp)
  · split at h
    · exact absurd h (by simp)
    · split at h
      · exact absurd h (by simp)
      · split_ifs at h
        · cases h
          exact ⟨hp, fun _ hf => absurd hf (by simp)⟩
        · split at h
          · exact absurd h (by simp)
          · cases h
            exact ⟨hp, fun _ _ => rfl⟩

theorem WaveManager.poll_armed (w w2 : WaveWorld) (h : WaveManager.poll w = some w2)
    (ha : WaveManager.Armed w) : WaveManager.Armed w2 := by
  unfold WaveManager.poll at h
  split_ifs at h with hc
  · have hflag : w.wave_manager.is_spawned_last_enemy = true := by
      simp only [Bool.and_eq_true] at hc
      exact hc.1
    split at h
    · exact absurd h (by simp)
    · dsimp only at h
      split_ifs at h
      · cases h
        refine ⟨ha.1, fun _ hf => ?_⟩
        have : w.wave_manager.is_spawned_last_enemy = false := hf
        rw [hflag] at this
        exact absurd this (by simp)
      · split at h
        · exact absurd h (by simp)
        · cases h
          exact ⟨ha.1, fun hst => absurd hst (by simp)⟩
  · cases h; exact ha

/-- One `on_update` call keeps the spawn timer ready. -/
theorem WaveManager.on_update_armed (new_enemy : EnemyType → Enemy) (w w2 : WaveWorld)
    (delta : ℚ) (h : WaveManager.on_update new_enemy w delta = some w2)
    (ha : WaveManager.Armed w) : WaveManager.Armed w2 := by
  unfold WaveManager.on_update at h
  split_ifs at h with hover hst
  · cases h; exact ha
  · dsimp only at h
    split at h
    · exact absurd h (by simp)
    · rename_i w1 n hr
      apply WaveManager.poll_armed w1 w2 h
      rcases Timer.on_update_in_result (fun s : WaveWorld => s.wave_manager.timer_start_wave)
          (fun s t => { s with wave_manager := { s.wave_manager with timer_start_wave := t } })
          WaveManager.on_start_timeout w delta (w1, n) (fun _ _ => rfl) (fun _ _ _ => rfl)
          (fun _ => rfl) hr
        with ⟨t2, hw1, _, _⟩ | ⟨t2, s3, _, hcb, hw1⟩
      · have hw1b : w1 =
            { w with wave_manager := { w.wave_manager with timer_start_wave := t2 } } := hw1
        rw [hw1b]
        exact ha
      · have hs3 := WaveManager.on_start_timeout_armed _ s3 hcb ha.1
        have hw1b : w1 = { s3 with wave_manager := { s3.wave_manager with
            timer_start_wave := { s3.wave_manager.timer_start_wave with
              pass_time := s3.wave_manager.timer_start_wave.pass_time -
                s3.wave_manager.timer_start_wave.wait_time } } } := hw1
        rw [hw1b]
        exact hs3
  · dsimp only at h
    split at h
    · exact absurd h (by simp)
    · rename_i w1 n hr
      apply WaveManager.poll_armed w1 w2 h
      rcases Timer.on_update_in_result (fun s : WaveWorld => s.wave_manager.timer_spawn_enemy)
          (fun s t => { s with wave_manager := { s.wave_manager with timer_spawn_enemy := t } })
          (WaveManager.on_spawn_timeout new_enemy) w delta (w1, n) (fun _ _ => rfl)
          (fun _ _ _ => rfl) (fun _ => rfl) hr
        with ⟨t2, hw1, hp2, hsh⟩ | ⟨t2, s3, hp2, hcb, hw1⟩
      · have hw1b : w1 =
            { w with wave_manager := { w.wave_manager with timer_spawn_enemy := t2 } } := hw1
        rw [hw1b]
        refine ⟨hp2.trans ha.1, fun hs hf => ?_⟩
        have h3 := ha.2 hs hf
        rcases hsh with h4 | h4
        · exact h4.trans h3
        · have h5 : w.wave_manager.timer_spawn_enemy.shotted = true := h4
          rw [h3] at h5
          exact absurd h5 (by simp)
      · have hs3 := WaveManager.on_spawn_timeout_armed new_enemy _ s3 hcb (hp2.trans ha.1)
        have hw1b : w1 = { s3 with wave_manager := { s3.wave_manager with
            timer_spawn_enemy := { s3.wave_manager.timer_spawn_enemy with
              pass_time := s3.wave_manager.timer_spawn_enemy.pass_time -
                s3.wave_manager.timer_spawn_enemy.wait_time } } } := hw1
        rw [hw1b]
        exact hs3

theorem WaveManager.run_armed (new_enemy : EnemyType → Enemy) :
    ∀ (ticks : List WaveManager.Tick) (w w2 : WaveWorld),
      WaveManager.run new_enemy w ticks = some w2 → WaveManager.Armed w →
      WaveManager.Armed w2 := by
  intro ticks
  induction ticks with
  | nil => intro w w2 h ha; cases h; exact ha
  | cons tick rest ih =>
    intro w w2 h ha
    rw [WaveManager.run] at h
    split at h
    · exact absurd h (by simp)
    · rename_i w1 h1
      exact ih w1 w2 h (WaveManager.on_update_armed new_enemy _ w1 tick.delta h1 ha)

theorem WaveManager.start_armed (config : ConfigManager) (w0 : WaveWorld)
    (h : WaveManager.start config = some w0) : WaveManager.Armed w0 := by
  unfold WaveManager.start WaveManager.construct at h
  split at h
  · exact absurd h (by simp)
  · rename_i wm hwm
    split at hwm
    · exact absurd hwm (by simp)
    · cases hwm
      cases h
      exact ⟨rfl, fun hs => absurd hs (by simp)⟩

/-- The sample worlds are reached from the start of the sample level: the
first after the frame in which the wave starts, the second after one more
frame of one second, the third after two further frames, each as the next
frame finds it. -/
theorem WaveManager.sample_worlds_reached :
    (((WaveManager.start WaveManager.sample_level).bind fun w0 =>
      WaveManager.run (fun _ => {}) w0 [WaveManager.busy 0]).map WaveManager.snapshot =
      some (WaveManager.snapshot WaveManager.sample_started)) ∧
    ((((WaveManager.start WaveManager.sample_level).bind fun w0 =>
      WaveManager.run (fun _ => {}) w0 [WaveManager.busy 0, WaveManager.busy 1]).map
      fun w => WaveManager.snapshot (WaveManager.arrive w (WaveManager.busy 2))) =
      some (WaveManager.snapshot WaveManager.sample_between)) ∧
    ((((WaveManager.start WaveManager.sample_level).bind fun w0 =>
      WaveManager.run (fun _ => {}) w0
        [WaveManager.busy 0, WaveManager.busy 1, WaveManager.busy 1, WaveManager.busy 1]).map
      fun w => WaveManager.snapshot (WaveManager.arrive w (WaveManager.idle 1))) =
      some (WaveManager.snapshot WaveManager.sample_spawned)) := by
  decide!

theorem WaveManager.sample_started_inv :
    WaveManager.Inv WaveManager.sample_level.wave_list 0 0 WaveManager.sample_started := by
  refine ⟨rfl, WaveManager.sample_pool_nonempty, rfl, rfl, rfl, by decide, ?_, ?_, rfl, rfl⟩
  · intro h
    simp [WaveManager.sample_level] at h
  · intro wave hw
    simp only [WaveManager.sample_level, List.get?_cons_zero, Option.some.injEq] at hw
    rw [← hw]
    simp [WaveManager.sample_wave, WaveManager.sample_started]

theorem WaveManager.sample_between_inv :
    WaveManager.Inv WaveManager.sample_level.wave_list 0 1 WaveManager.sample_between := by
  refine ⟨rfl, WaveManager.sample_pool_nonempty, rfl, rfl, rfl, by decide, ?_, ?_, ?_, rfl⟩
  · intro h
    simp [WaveManager.sample_level] at h
  · intro wave hw
    simp only [WaveManager.sample_level, List.get?_cons_zero, Option.some.injEq] at hw
    rw [← hw]
    simp [WaveManager.sample_wave, WaveManager.sample_between]
  · decide

theorem WaveManager.sample_spawned_inv :
    WaveManager.Inv WaveManager.sample_level.wave_list 0 2 WaveManager.sample_spawned := by
  refine ⟨rfl, WaveManager.sample_pool_nonempty, rfl, rfl, rfl, by decide, ?_, ?_, ?_, rfl⟩
  · intro h
    simp [WaveManager.sample_level] at h
  · intro wave hw
    simp only [WaveManager.sample_level, List.get?_cons_zero, Option.some.injEq] at hw
    rw [← hw]
    simp [WaveManager.sample_wave, WaveManager.sample_spawned]
  · decide

/-- C17: on a level whose waves all have spawn events (the routes of the pool
having a first waypoint).  (1) After every sequence of `on_update` calls from
the start of the game, with `k` the wave index and `m` the spawn event index,
the `spawn_enemy` calls made so far are all events of the finished waves
followed by events `0 .. m-1` of wave `k`, in list order, each once, with the
event's enemy type and spawn point; the flag is true exactly when `m` is the
number `n` of events of the wave; and the spawn timer is unpaused and, while
the started wave has events left, unfired.  (2) In every such state of a
started wave whose next event is event `m`: a call that leaves the accumulator
of the spawn timer below the wait time invokes nothing and keeps the index and
the flag; a call that takes it to the wait time invokes `spawn_enemy` once, for
event `m` with its enemy type and spawn point, and advances the index to
`m + 1`; if events are left the flag stays false and the timer is re-armed,
unfired, with the wait time of event `m + 1`; if event `m` was the last one
the flag is set, unless the registry is empty at once and the wave is credited
and left in the same call. -/
theorem wave_spawns_in_list_order (new_enemy : EnemyType → Enemy) (config : ConfigManager)
    (hwf : WaveManager.WellFormed config.wave_list)
    (hpool : WaveManager.PoolRoutesNonempty config) :
    (∀ (ticks : List WaveManager.Tick) (tick : WaveManager.Tick), ∃ w0 w, ∃ k m : Nat,
      WaveManager.start config = some w0 ∧ WaveManager.run new_enemy w0 ticks = some w ∧
      WaveManager.Inv config.wave_list k m (WaveManager.arrive w tick) ∧
      WaveManager.Armed (WaveManager.arrive w tick) ∧
      w.wave_manager.idx_wave = (k : Int) ∧ w.wave_manager.idx_spawn_event = (m : Int) ∧
      WaveEvent.spawns w.events = WaveManager.spawned_so_far config.wave_list k m ∧
      ∀ wave, config.wave_list.get? k = some wave →
        m ≤ wave.spawn_event_list.length ∧
        (w.wave_manager.is_spawned_last_enemy = true ↔ m = wave.spawn_event_list.length)) ∧
    (∀ (k m : Nat) (w : WaveWorld) (wave : Wave) (ev : Wave.SpawnEvent) (delta : ℚ),
      WaveManager.Inv config.wave_list k m w → WaveManager.Armed w →
      w.config.is_game_over = false → w.wave_manager.is_wave_started = true →
      config.wave_list.get? k = some wave → wave.spawn_event_list.get? m = some ev →
      ∃ w2, WaveManager.on_update new_enemy w delta = some w2 ∧
        (w.wave_manager.timer_spawn_enemy.pass_time + delta <
            w.wave_manager.timer_spawn_enemy.wait_time →
          w2.events = w.events ∧ w2.enemy_list = w.enemy_list ∧
          w2.wave_manager.idx_wave = (k : Int) ∧
          w2.wave_manager.idx_spawn_event = (m : Int) ∧
          w2.wave_manager.is_spawned_last_enemy = false) ∧
        (w.wave_manager.timer_spawn_enemy.wait_time ≤
            w.wave_manager.timer_spawn_enemy.pass_time + delta →
          EnemyManager.spawn_enemy new_enemy w.config w.enemy_list ev.enemy_type
            ev.spawn_point = some w2.enemy_list ∧
          WaveEvent.spawns w2.events =
            WaveEvent.spawns w.events ++ [(ev.enemy_type, ev.spawn_point)] ∧
          (m + 1 < wave.spawn_event_list.length →
            w2.events = w.events ++ [WaveEvent.spawn ev.enemy_type ev.spawn_point] ∧
            w2.wave_manager.idx_wave = (k : Int) ∧
            w2.wave_manager.idx_spawn_event = ((m + 1 : Nat) : Int) ∧
            w2.wave_manager.is_spawned_last_enemy = false ∧
            w2.wave_manager.timer_spawn_enemy.paused = false ∧
            w2.wave_manager.timer_spawn_enemy.shotted = false ∧
            ∀ next, wave.spawn_event_list.get? (m + 1) = some next →
              w2.wave_manager.timer_spawn_enemy.wait_time = next.interval) ∧
          (m + 1 = wave.spawn_event_list.length →
            (w2.events = w.events ++ [WaveEvent.spawn ev.enemy_type ev.spawn_point] ∧
              w2.wave_manager.idx_wave = (k : Int) ∧
              w2.wave_manager.idx_spawn_event = ((m + 1 : Nat) : Int) ∧
              w2.wave_manager.is_spawned_last_enemy = true) ∨
            (w2.enemy_list = [] ∧
              w2.events = w.events ++ [WaveEvent.spawn ev.enemy_type ev.spawn_point,
                WaveEvent.credit wave.rewards] ∧
              w2.wave_manager.idx_wave = ((k + 1 : Nat) : Int))))) := by
  constructor
  · intro ticks tick
    obtain ⟨w0, h0, hI0, _⟩ := WaveManager.start_inv config hwf hpool
    obtain ⟨w, k, m, hrun, hI⟩ :=
      WaveManager.run_inv new_enemy config.wave_list hwf ticks 0 0 w0 hI0
    have ha := WaveManager.run_armed new_enemy ticks w0 w hrun
      (WaveManager.start_armed config w0 h0)
    refine ⟨w0, w, k, m, h0, hrun, WaveManager.arrive_inv config.wave_list k m w tick hI, ha,
      hI.idx_wave, hI.idx_spawn_event, hI.spawns, ?_⟩
    intro wave hwave
    obtain ⟨h1, h2, _, _⟩ := hI.in_wave wave hwave
    exact ⟨h1, h2⟩
  · intro k m w wave ev delta hI ha hover hs hwave hev
    have hlt : m < wave.spawn_event_list.length := by
      by_contra hcon
      rw [List.get?_eq_none.mpr (not_lt.mp hcon)] at hev
      exact absurd hev (by simp)
    obtain ⟨_, hlast, _, _⟩ := hI.in_wave wave hwave
    have hflag : w.wave_manager.is_spawned_last_enemy = false := by
      cases hf : w.wave_manager.is_spawned_last_enemy with
      | false => rfl
      | true => exact absurd (hlast.mp hf) (Nat.ne_of_lt hlt)
    exact WaveManager.on_update_spawns new_enemy config.wave_list k m w wave ev delta hwf hI
      hover hs ha.1 (ha.2 hs hflag) hwave hev

theorem wave_spawns_in_list_order_witness :
    (∃ w2, WaveManager.on_update (fun _ => {}) WaveManager.sample_started 1 = some w2 ∧
      w2.events = WaveManager.sample_started.events ++ [WaveEvent.spawn EnemyType.Slim 1] ∧
      w2.wave_manager.idx_wave = ((0 : Nat) : Int) ∧
      w2.wave_manager.idx_spawn_event = ((0 + 1 : Nat) : Int) ∧
      w2.wave_manager.is_spawned_last_enemy = false ∧
      w2.wave_manager.timer_spawn_enemy.paused = false ∧
      w2.wave_manager.timer_spawn_enemy.shotted = false ∧
      ∀ next, WaveManager.sample_wave.spawn_event_list.get? (0 + 1) = some next →
        w2.wave_manager.timer_spawn_enemy.wait_time = next.interval) ∧
    (∃ w2, WaveManager.on_update (fun _ => {}) WaveManager.sample_between 2 = some w2 ∧
      WaveEvent.spawns w2.events =
        WaveEvent.spawns WaveManager.sample_between.events ++ [(EnemyType.Slim, 1)] ∧
      ((w2.events = WaveManager.sample_between.events ++ [WaveEvent.spawn EnemyType.Slim 1] ∧
          w2.wave_manager.idx_wave = ((0 : Nat) : Int) ∧
          w2.wave_manager.idx_spawn_event = ((1 + 1 : Nat) : Int) ∧
          w2.wave_manager.is_spawned_last_enemy = true) ∨
        (w2.enemy_list = [] ∧
          w2.events = WaveManager.sample_between.events ++ [WaveEvent.spawn EnemyType.Slim 1,
            WaveEvent.credit WaveManager.sample_wave.rewards] ∧
          w2.wave_manager.idx_wave = ((0 + 1 : Nat) : Int)))) ∧
    (∃ w2, WaveManager.on_update (fun _ => {}) WaveManager.sample_between (1 / 2) = some w2 ∧
      w2.events = WaveManager.sample_between.events ∧
      w2.wave_manager.idx_spawn_event = ((1 : Nat) : Int) ∧
      w2.wave_manager.is_spawned_last_enemy = false) := by
  have hthm := (wave_spawns_in_list_order (fun _ => {}) WaveManager.sample_level
    WaveManager.sample_well_formed WaveManager.sample_pool_nonempty).2
  refine ⟨?_, ?_, ?_⟩
  · obtain ⟨w2, h, _, hfire⟩ := hthm 0 0 WaveManager.sample_started WaveManager.sample_wave
      { interval := 1 } 1 WaveManager.sample_started_inv
      ⟨rfl, fun _ _ => rfl⟩ rfl rfl rfl rfl
    obtain ⟨_, _, hmore, _⟩ := hfire (by decide!)
    exact ⟨w2, h, hmore (by decide)⟩
  · obtain ⟨w2, h, _, hfire⟩ := hthm 0 1 WaveManager.sample_between WaveManager.sample_wave
      { interval := 1 } 2 WaveManager.sample_between_inv
      ⟨rfl, fun _ _ => rfl⟩ rfl rfl rfl rfl
    obtain ⟨_, hsp, _, hend⟩ := hfire (by decide!)
    exact ⟨w2, h, hsp, hend (by decide)⟩
  · obtain ⟨w2, h, hbelow, _⟩ := hthm 0 1 WaveManager.sample_between WaveManager.sample_wave
      { interval := 1 } (1 / 2) WaveManager.sample_between_inv
      ⟨rfl, fun _ _ => rfl⟩ rfl rfl rfl rfl
    obtain ⟨hev, _, _, hidx, hf⟩ := hbelow (by decide!)
    exact ⟨w2, h, hev, hidx, hf⟩

/-- One `on_update` call either credits nothing, or credits the reward of the
current wave once, with the registry empty, and advances the wave index. -/
theorem WaveManager.on_update_credit_cases (new_enemy : EnemyType → Enemy)
    (wave_list : List Wave) (k m : Nat) (w : WaveWorld) (delta : ℚ)
    (hwf : WaveManager.WellFormed wave_list) (hI : WaveManager.Inv wave_list k m w) :
    ∃ w2, ∃ k2 m2 : Nat, WaveManager.on_update new_enemy w delta = some w2 ∧
      WaveManager.Inv wave_list k2 m2 w2 ∧
      ((k2 = k ∧ WaveEvent.credits w2.events = WaveEvent.credits w.events ∧
          w2.coin_manager.num_coin = w.coin_manager.num_coin) ∨
        (k2 = k + 1 ∧ ∃ wave, wave_list.get? k = some wave ∧
          WaveEvent.credits w2.events = WaveEvent.credits w.events ++ [wave.rewards] ∧
          w2.coin_manager.num_coin = w.coin_manager.num_coin + wave.rewards ∧
          w2.enemy_list = [] ∧
          WaveEvent.spawns w2.events = WaveManager.spawned_so_far wave_list (k + 1) m2)) := by
  obtain ⟨w2, k2, m2, h2, hI2, hstep, _⟩ :=
    WaveManager.on_update_step new_enemy wave_list k m w delta hwf hI
  have hl := WaveManager.on_update_ledger new_enemy w w2 delta h2
  refine ⟨w2, k2, m2, h2, hI2, ?_⟩
  rcases hstep with hk | ⟨hk, hclear, _⟩
  · left
    have hc : WaveEvent.credits w2.events = WaveEvent.credits w.events := by
      rw [hI2.credits, hI.credits, hk]
    refine ⟨hk, hc, ?_⟩
    rw [hc] at hl
    linarith
  · right
    have hle := hI2.wave_le
    have hklt : k < wave_list.length := by omega
    have hc : WaveEvent.credits w2.events =
        WaveEvent.credits w.events ++ [wave_list[k].rewards] := by
      rw [hI2.credits, hI.credits, hk, List.take_succ, List.getElem?_eq_getElem hklt,
        List.map_append]
      rfl
    refine ⟨hk, wave_list[k], by rw [List.get?_eq_getElem?, List.getElem?_eq_getElem hklt],
      hc, ?_, hclear, by rw [hI2.spawns, hk]⟩
    rw [hc, List.sum_append] at hl
    simp only [List.sum_cons, List.sum_nil, add_zero] at hl
    linarith

/-- C19: on a level whose waves all have spawn events (the routes of the pool
having a first waypoint).  (1) After every run of `on_update` calls from the
start of the game, with `k` the wave index, the rewards credited so far are
those of waves `0 .. k-1`, each once and in order, the coin balance is what
adding them to `0` one by one in that order gives, and `k` equals the number
of waves only with the game over.  (2) A call
made with the game not over, the last enemy of wave `k` spawned and the
registry empty credits the reward of wave `k` once, adds it to the balance and
advances the wave index; on the last wave it sets `is_game_win` and
`is_game_over`, otherwise it resets the event index and the two flags and arms
the start timer with the next wave's interval; with the registry not empty the
call credits nothing.  (3) Every call either leaves the credits and the
balance as they are or credits the reward of the current wave once, and then
the registry is empty and all spawn calls of that wave have been made.  (4) A
call with the game over changes nothing. -/
theorem wave_reward_credited_once (new_enemy : EnemyType → Enemy) (config : ConfigManager)
    (hwf : WaveManager.WellFormed config.wave_list)
    (hpool : WaveManager.PoolRoutesNonempty config) :
    (∀ (ticks : List WaveManager.Tick) (tick : WaveManager.Tick), ∃ w0 w, ∃ k m : Nat,
      WaveManager.start config = some w0 ∧ WaveManager.run new_enemy w0 ticks = some w ∧
      WaveManager.Inv config.wave_list k m (WaveManager.arrive w tick) ∧
      w.wave_manager.idx_wave = (k : Int) ∧
      WaveEvent.credits w.events = (config.wave_list.take k).map Wave.rewards ∧
      w.coin_manager.num_coin =
        ((config.wave_list.take k).map Wave.rewards).foldl
          (fun num_coin val => num_coin + val) 0 ∧
      (k = config.wave_list.length → w.config.is_game_over = true)) ∧
    (∀ (k m : Nat) (w : WaveWorld) (wave : Wave) (delta : ℚ),
      WaveManager.Inv config.wave_list k m w → w.config.is_game_over = false →
      w.wave_manager.is_spawned_last_enemy = true → config.wave_list.get? k = some wave →
      ∃ w2, WaveManager.on_update new_enemy w delta = some w2 ∧
        (w.enemy_list = [] →
          w2.events = w.events ++ [WaveEvent.credit wave.rewards] ∧
          w2.coin_manager.num_coin = w.coin_manager.num_coin + wave.rewards ∧
          w2.wave_manager.idx_wave = ((k + 1 : Nat) : Int) ∧
          (k + 1 = config.wave_list.length →
            w2.config.is_game_win = true ∧ w2.config.is_game_over = true) ∧
          (k + 1 < config.wave_list.length →
            w2.config.is_game_over = false ∧
            w2.wave_manager.idx_spawn_event = 0 ∧
            w2.wave_manager.is_wave_started = false ∧
            w2.wave_manager.is_spawned_last_enemy = false ∧
            w2.wave_manager.timer_start_wave.shotted = false ∧
            ∀ next_wave, config.wave_list.get? (k + 1) = some next_wave →
              w2.wave_manager.timer_start_wave.wait_time = next_wave.interval)) ∧
        (w.enemy_list ≠ [] →
          w2.events = w.events ∧ w2.coin_manager = w.coin_manager ∧
          w2.config = w.config ∧
          w2.wave_manager.idx_wave = (k : Int) ∧
          w2.wave_manager.idx_spawn_event = (m : Int) ∧
          w2.wave_manager.is_spawned_last_enemy = true)) ∧
    (∀ (k m : Nat) (w : WaveWorld) (delta : ℚ), WaveManager.Inv config.wave_list k m w →
      ∃ w2, ∃ k2 m2 : Nat, WaveManager.on_update new_enemy w delta = some w2 ∧
        WaveManager.Inv config.wave_list k2 m2 w2 ∧
        ((k2 = k ∧ WaveEvent.credits w2.events = WaveEvent.credits w.events ∧
            w2.coin_manager.num_coin = w.coin_manager.num_coin) ∨
          (k2 = k + 1 ∧ ∃ wave, config.wave_list.get? k = some wave ∧
            WaveEvent.credits w2.events = WaveEvent.credits w.events ++ [wave.rewards] ∧
            w2.coin_manager.num_coin = w.coin_manager.num_coin + wave.rewards ∧
            w2.enemy_list = [] ∧
            WaveEvent.spawns w2.events =
              WaveManager.spawned_so_far config.wave_list (k + 1) m2))) ∧
    (∀ (w : WaveWorld) (delta : ℚ), w.config.is_game_over = true →
      WaveManager.on_update new_enemy w delta = some w) := by
  refine ⟨?_, ?_, ?_, ?_⟩
  · intro ticks tick
    obtain ⟨w0, h0, hI0, _⟩ := WaveManager.start_inv config hwf hpool
    obtain ⟨w, k, m, hrun, hI⟩ :=
      WaveManager.run_inv new_enemy config.wave_list hwf ticks 0 0 w0 hI0
    obtain ⟨hc0, he0⟩ := WaveManager.start_ledger config w0 h0
    have hl1 := WaveManager.run_ledger new_enemy ticks w0 w hrun
    have hw : w.coin_manager.num_coin = (WaveEvent.credits w.events).sum := by
      rw [hc0, he0] at hl1
      simp only [WaveEvent.credits, List.sum_nil, sub_zero] at hl1
      linarith
    exact ⟨w0, w, k, m, h0, hrun, WaveManager.arrive_inv config.wave_list k m w tick hI,
      hI.idx_wave, hI.credits, by rw [hw, hI.credits, List.sum_eq_foldl], hI.over⟩
  · intro k m w wave delta hI hover hflag hwave
    exact WaveManager.on_update_credits new_enemy config.wave_list k m w wave delta hwf hI
      hover hflag hwave
  · intro k m w delta hI
    exact WaveManager.on_update_credit_cases new_enemy config.wave_list k m w delta hwf hI
  · intro w delta hover
    exact WaveManager.on_update_over new_enemy w delta hover

theorem wave_reward_credited_once_witness :
    (∃ w2, WaveManager.on_update (fun _ => {}) WaveManager.sample_spawned 1 = some w2 ∧
      w2.events = WaveManager.sample_spawned.events ++
        [WaveEvent.credit WaveManager.sample_wave.rewards] ∧
      w2.coin_manager.num_coin =
        WaveManager.sample_spawned.coin_manager.num_coin + WaveManager.sample_wave.rewards ∧
      w2.wave_manager.idx_wave = ((0 + 1 : Nat) : Int) ∧
      w2.config.is_game_win = true ∧ w2.config.is_game_over = true ∧
      ∀ delta, WaveManager.on_update (fun _ => {}) w2 delta = some w2) ∧
    WaveManager.sample_play [WaveManager.busy 0, WaveManager.busy 1, WaveManager.busy 1,
        WaveManager.busy 1, WaveManager.busy 1] =
      some { spawns := [(EnemyType.Slim, 1), (EnemyType.Slim, 1)], credits := [],
             pass_time := 0, idx_wave := 0, is_game_win := true, is_game_over := false } ∧
    WaveManager.sample_play [WaveManager.busy 0, WaveManager.busy 1, WaveManager.busy 1,
        WaveManager.busy 1, WaveManager.busy 1, WaveManager.idle 1] =
      some { spawns := [(EnemyType.Slim, 1), (EnemyType.Slim, 1)], credits := [50],
             pass_time := 0, idx_wave := 1, is_game_win := true, is_game_over := true } ∧
    WaveManager.sample_play [WaveManager.busy 0, WaveManager.busy 1, WaveManager.busy 1,
        WaveManager.busy 1, WaveManager.busy 1, WaveManager.idle 1, WaveManager.idle 1,
        WaveManager.idle 5] =
      some { spawns := [(EnemyType.Slim, 1), (EnemyType.Slim, 1)], credits := [50],
             pass_time := 0, idx_wave := 1, is_game_win := true, is_game_over := true } := by
  have hthm := wave_reward_credited_once (fun _ => {}) WaveManager.sample_level
    WaveManager.sample_well_formed WaveManager.sample_pool_nonempty
  refine ⟨?_, by decide!⟩
  obtain ⟨w2, h, hcredit, _⟩ := hthm.2.1 0 2 WaveManager.sample_spawned WaveManager.sample_wave 1
    WaveManager.sample_spawned_inv rfl rfl rfl
  obtain ⟨hev, hcoin, hidx, hwin, _⟩ := hcredit rfl
  obtain ⟨h1, h2⟩ := hwin (by decide)
  exact ⟨w2, h, hev, hcoin, hidx, h1, h2, fun delta => hthm.2.2.2 w2 delta h2⟩

end VillageRush
